import Mathlib

/-!
# VideoToH264 : byte-level SEI scanner, start-code rewriter and SPS/PPS extractor

A shallow embedding of the byte-level routines of `VideoConv.cpp`.

* A buffer is a `List Byte`; a pointer to it is an `Option (List Byte)` (`none` is the
  null pointer).  The stated length `len` is passed separately, as in the C++ signatures.
* A read or a write outside the buffer is not given a value: it is the fault `Fault.oob`.
* `int` arithmetic is 32-bit two's complement: every `int` result goes through `int32`
  (once per expression, which equals a wrap after each operation, see `int32_add_int32`).
* `while(1)` is a fuelled loop; `Fault.fuel` is what an exhausted loop returns, and
  `H264_SEI_GetHeadLen_loop_fuel` and `main_file_fuel` show that the fuel handed out is
  never exhausted.
* A `std::string` is a `List Char`; `at` outside the string is a fault.  The loops
  `for(i=0;i<len;i++)` of the path helpers are bounded by the length of the string, and
  `main_output_names_ok` shows that the bound is never exhausted.
* What the libraries answer for a file name (`VideoFile`) is an input of `main`:
  `av_read_frame` hands out a list of packets and leaves a blank packet at its end, and
  `fwrite` may be short (`fw k n` bounds the bytes that the `k`-th call gets written).
* The output is a trace of events (`Out`): the `fopen`, `fprintf` and `fwrite` calls on
  the two output files, in program order.
-/

namespace VideoConv

/-- An `unsigned char`. -/
abbrev Byte := Fin 256

/-- What a run can hit instead of returning a value. -/
inductive Fault where
  /-- Access through the null pointer. -/
  | null
  /-- Access at offset `idx`, which lies outside the buffer. -/
  | oob (idx : Int)
  /-- The fuel of a `while(1)` loop ran out. -/
  | fuel
  deriving DecidableEq, Repr

deriving instance DecidableEq for Except

/-- The value of an `int` expression: 32-bit two's-complement wrap-around. -/
def int32 (x : Int) : Int := (x + 2147483648) % 4294967296 - 2147483648

/-- The read `pdat[i]`. -/
def rd (pdat : Option (List Byte)) (i : Int) : Except Fault Byte :=
  match pdat with
  | none => .error .null
  | some b =>
    if i < 0 then .error (.oob i)
    else
      match b[i.toNat]? with
      | some x => .ok x
      | none => .error (.oob i)

/-- Number of bytes behind a pointer (0 for the null pointer). -/
def bufLen (pdat : Option (List Byte)) : Nat :=
  match pdat with
  | none => 0
  | some b => b.length

/-- `unsigned char startcode[4]={0x00, 0x00, 0x00, 0x01};` -/
def startcode : List Byte := [0x00, 0x00, 0x00, 0x01]

/-- The call `memcpy(dst + off, src, src.length)`, which writes into the buffer `dst`:
the result is the buffer after the call. -/
def memcpy_dst (dst : Option (List Byte)) (off : Int) (src : List Byte) :
    Except Fault (List Byte) :=
  match dst with
  | none => .error .null
  | some b =>
    if off < 0 then .error (.oob off)
    else if b.length < off.toNat + src.length then .error (.oob (max off b.length))
    else .ok (b.take off.toNat ++ src ++ b.drop (off.toNat + src.length))

/-- `bool H264_CheckSEI_Inside(unsigned char* pdat, int len)` -/
def H264_CheckSEI_Inside (pdat : Option (List Byte)) (len : Int) : Except Fault Bool :=
  if len < 6 then .ok false
  else if pdat.isNone then .ok false
  else
    match rd pdat 4 with
    | .error e => .error e
    | .ok b4 =>
      if b4 = 0x06 then
        match rd pdat 5 with
        | .error e => .error e
        | .ok b5 => if b5 = 0x05 then .ok true else .ok false
      else .ok false

/-- The `while(1)` loop of `H264_SEI_GetHeadLen`, on the state `(total_len, byte_cnt)`. -/
def H264_SEI_GetHeadLen_loop (pdat : Option (List Byte)) :
    Nat → Int → Int → Except Fault (Int × Int)
  | 0, _, _ => .error .fuel
  | fuel + 1, total_len, byte_cnt =>
    match rd pdat (int32 (4 + 1 + 1 + byte_cnt)) with
    | .error e => .error e
    | .ok x =>
      let tmp_len : Int := ((x.val &&& 0x0FF : Nat) : Int)
      let byte_cnt := int32 (byte_cnt + 1)
      let total_len := int32 (total_len + tmp_len)
      if tmp_len ≠ 0x0FF then .ok (total_len, byte_cnt)
      else H264_SEI_GetHeadLen_loop pdat fuel total_len byte_cnt

/-- `int H264_SEI_GetHeadLen(unsigned char* pdat, int len, int& uuid_content_len)`:
the result is the pair (returned value, value of `uuid_content_len` on return). -/
def H264_SEI_GetHeadLen (pdat : Option (List Byte)) (len : Int) (uuid_content_len : Int) :
    Except Fault (Int × Int) :=
  match H264_CheckSEI_Inside pdat len with
  | .error e => .error e
  | .ok false => .ok (-1, uuid_content_len)
  | .ok true =>
    match H264_SEI_GetHeadLen_loop pdat (bufLen pdat + 1) 0 0 with
    | .error e => .error e
    | .ok (total_len, byte_cnt) => .ok (int32 (4 + 1 + 1 + byte_cnt), total_len)

/-- `int H264_SEI_GetContentLen(unsigned char* pdat, int len)` -/
def H264_SEI_GetContentLen (pdat : Option (List Byte)) (len : Int) : Except Fault Int :=
  match H264_SEI_GetHeadLen pdat len 0 with
  | .error e => .error e
  | .ok (re, uuid_content_len) =>
    if re ≥ 4 + 1 + 1 + 1 ∧ uuid_content_len > 16 then .ok (int32 (uuid_content_len - 16))
    else .ok (-1)

/-- `int H264_SEI_GetTotalDataLen_SEI(unsigned char* pdat, int len)` -/
def H264_SEI_GetTotalDataLen_SEI (pdat : Option (List Byte)) (len : Int) : Except Fault Int :=
  match H264_CheckSEI_Inside pdat len with
  | .error e => .error e
  | .ok false => .ok (-1)
  | .ok true =>
    match H264_SEI_GetHeadLen pdat len 0 with
    | .error e => .error e
    | .ok (head_len, uuid_content_len) =>
      if head_len ≥ 4 + 1 + 1 + 1 ∧ uuid_content_len > 16 then
        .ok (int32 (head_len + uuid_content_len + 1))
      else .ok (-1)

/-- The loop `for(i=...;i<n;i++) re_vec.insert(re_vec.end(), pdat[offset + i]);`:
`cnt` is the number of iterations still to run. -/
def copyLoop (pdat : Option (List Byte)) (offset : Int) :
    Nat → Int → List Byte → Except Fault (List Byte)
  | 0, _, re_vec => .ok re_vec
  | cnt + 1, i, re_vec =>
    match rd pdat (int32 (offset + i)) with
    | .error e => .error e
    | .ok x => copyLoop pdat offset cnt (int32 (i + 1)) (re_vec ++ [x])

/-- `std::vector<unsigned char> H264_SEI_GetUUID(unsigned char* pdat, int len)` -/
def H264_SEI_GetUUID (pdat : Option (List Byte)) (len : Int) : Except Fault (List Byte) :=
  match H264_SEI_GetHeadLen pdat len 0 with
  | .error e => .error e
  | .ok (uuid_offset, _) =>
    if uuid_offset ≤ 0 then .ok []
    else copyLoop pdat uuid_offset 16 0 []

/-- `std::vector<unsigned char> H264_SEI_GetContent(unsigned char* pdat, int len)` -/
def H264_SEI_GetContent (pdat : Option (List Byte)) (len : Int) : Except Fault (List Byte) :=
  match H264_SEI_GetHeadLen pdat len 0 with
  | .error e => .error e
  | .ok (uuid_offset, uuid_content_len) =>
    if uuid_offset ≤ 0 then .ok []
    else if uuid_content_len ≤ 16 then .ok []
    else
      let content_offset := int32 (uuid_offset + 16)
      let content_len := int32 (uuid_content_len - 16)
      copyLoop pdat content_offset content_len.toNat 0 []

/-- The fields of `AVPacket` that `main` uses. -/
structure AVPacket where
  data : Option (List Byte)
  size : Int
  flags : Int
  stream_index : Int
  deriving DecidableEq, Repr

/-- Lines 1154-1163 of `main`: the check `pkt->size < sizeof(startcode)` (an `int` compared
with a `size_t`, so `size` is taken modulo 2^64) and the replacement of the leading start
code.  The result `none` is the `break` that ends the per-file loop. -/
def main_replace_startcode (pkt : AVPacket) : Except Fault (Option AVPacket) :=
  if pkt.size % 18446744073709551616 < (startcode.length : Int) then .ok none
  else
    match memcpy_dst pkt.data 0 startcode with
    | .error e => .error e
    | .ok d => .ok (some { pkt with data := some d })

/-- Lines 1169-1190 of `main`: the SEI check, the UUID dump and the replacement of the
start code that follows the SEI segment. -/
def main_patch_sei (pkt : AVPacket) : Except Fault AVPacket :=
  match H264_CheckSEI_Inside pkt.data pkt.size with
  | .error e => .error e
  | .ok false => .ok pkt
  | .ok true =>
    match H264_SEI_GetUUID pkt.data pkt.size with
    | .error e => .error e
    | .ok _ =>
      match H264_SEI_GetTotalDataLen_SEI pkt.data pkt.size with
      | .error e => .error e
      | .ok total_sei_len =>
        if total_sei_len > 0 then
          match memcpy_dst pkt.data total_sei_len startcode with
          | .error e => .error e
          | .ok d => .ok { pkt with data := some d }
        else .ok pkt

/-- The call `memcpy(fresh, src + off, n)`, which reads `n` bytes of the buffer `src`:
the result is the content of `fresh` after the call. -/
def memcpy_src (src : Option (List Byte)) (off : Int) (n : Int) : Except Fault (List Byte) :=
  match src with
  | none => .error .null
  | some b =>
    if off < 0 then .error (.oob off)
    else if b.length < off.toNat + n.toNat then .error (.oob (max off b.length))
    else .ok ((b.drop off.toNat).take n.toNat)

/-- The SPS/PPS fields of `SFFmpegContext`. -/
structure SFFmpegContext where
  sps_dat : List Byte
  pps_dat : List Byte
  sps_len : Int
  pps_len : Int
  deriving DecidableEq, Repr

/-- Lines 537-538 of `FFMpeg_OpenVideo`: `sps_len = extradata[6] * 0xFF + extradata[7]`. -/
def FFMpeg_OpenVideo_sps_len (extradata : Option (List Byte)) : Except Fault Int :=
  match rd extradata 6 with
  | .error e => .error e
  | .ok e6 =>
    match rd extradata 7 with
    | .error e => .error e
    | .ok e7 => .ok (int32 ((e6.val : Int) * 0xFF + (e7.val : Int)))

/-- Lines 552-553 of `FFMpeg_OpenVideo`:
`pps_len = extradata[8 + sps_len + 1] * 0xFF + extradata[8 + sps_len + 2]`. -/
def FFMpeg_OpenVideo_pps_len (extradata : Option (List Byte)) (sps_len : Int) :
    Except Fault Int :=
  match rd extradata (int32 (8 + sps_len + 1)) with
  | .error e => .error e
  | .ok p1 =>
    match rd extradata (int32 (8 + sps_len + 2)) with
    | .error e => .error e
    | .ok p2 => .ok (int32 ((p1.val : Int) * 0xFF + (p2.val : Int)))

/-- Lines 535-563 of `FFMpeg_OpenVideo`: the SPS and the PPS are cut out of the extradata. -/
def FFMpeg_OpenVideo_sps_pps (extradata : Option (List Byte)) : Except Fault SFFmpegContext :=
  match FFMpeg_OpenVideo_sps_len extradata with
  | .error e => .error e
  | .ok sps_len =>
    match memcpy_src extradata 8 sps_len with
    | .error e => .error e
    | .ok sps_dat =>
      match FFMpeg_OpenVideo_pps_len extradata sps_len with
      | .error e => .error e
      | .ok pps_len =>
        match memcpy_src extradata (int32 (8 + 2 + 1 + sps_len)) pps_len with
        | .error e => .error e
        | .ok pps_dat => .ok { sps_dat := sps_dat, pps_dat := pps_dat,
                               sps_len := sps_len, pps_len := pps_len }

/-! ## Path helpers -/

/-- `std::string::at`: the character at index `i`; an index outside the string is the
fault that stands for `std::out_of_range`. -/
def str_at (s : List Char) (i : Int) : Except Fault Char :=
  if i < 0 then .error (.oob i)
  else
    match s[i.toNat]? with
    | some c => .ok c
    | none => .error (.oob i)

/-- The loop `for(i=0;i<len;i++)` of `GetFileNameExFromPath`.  The first argument bounds
the number of iterations; the string length is enough, since `len` is at most that. -/
def GetFileNameExFromPath_loop (in_str : List Char) (len : Int) :
    Nat → Int → List Char → Except Fault (List Char)
  | 0, i, re_str => if i < len then .error .fuel else .ok re_str
  | fuel + 1, i, re_str =>
    if i < len then
      match str_at in_str (int32 (len - 1 - i)) with
      | .error e => .error e
      | .ok c =>
        if c ≠ '\\' ∧ c ≠ '/' then
          GetFileNameExFromPath_loop in_str len fuel (int32 (i + 1)) (c :: re_str)
        else .ok re_str
    else .ok re_str

/-- `std::string GetFileNameExFromPath(std::string in_str)` -/
def GetFileNameExFromPath (in_str : List Char) : Except Fault (List Char) :=
  let len := int32 in_str.length
  GetFileNameExFromPath_loop in_str len in_str.length 0 []

/-- The first loop of `GetFileNameNoExFormFileName`: it counts the dots. -/
def GetFileNameNoExFormFileName_count (in_str : List Char) (len : Int) :
    Nat → Int → Int → Except Fault Int
  | 0, i, dot_cnt => if i < len then .error .fuel else .ok dot_cnt
  | fuel + 1, i, dot_cnt =>
    if i < len then
      match str_at in_str (int32 (len - 1 - i)) with
      | .error e => .error e
      | .ok c =>
        GetFileNameNoExFormFileName_count in_str len fuel (int32 (i + 1))
          (if c = '.' then int32 (dot_cnt + 1) else dot_cnt)
    else .ok dot_cnt

/-- The second loop of `GetFileNameNoExFormFileName`: it erases from the end, up to and
including the last dot. -/
def GetFileNameNoExFormFileName_erase (len : Int) :
    Nat → Int → List Char → Except Fault (List Char)
  | 0, i, re_str => if i < len then .error .fuel else .ok re_str
  | fuel + 1, i, re_str =>
    if i < len then
      match str_at re_str (int32 (len - 1 - i)) with
      | .error e => .error e
      | .ok c =>
        if c = '.' then .ok re_str.dropLast
        else GetFileNameNoExFormFileName_erase len fuel (int32 (i + 1)) re_str.dropLast
    else .ok re_str

/-- `std::string GetFileNameNoExFormFileName(std::string in_str)` -/
def GetFileNameNoExFormFileName (in_str : List Char) : Except Fault (List Char) :=
  let len := int32 in_str.length
  match GetFileNameNoExFormFileName_count in_str len in_str.length 0 0 with
  | .error e => .error e
  | .ok dot_cnt =>
    if dot_cnt ≥ 1 then GetFileNameNoExFormFileName_erase len in_str.length 0 in_str
    else .ok in_str

/-- `std::string GetOnlyFileNameNoEx(std::string in_str)` -/
def GetOnlyFileNameNoEx (in_str : List Char) : Except Fault (List Char) :=
  match GetFileNameExFromPath in_str with
  | .error e => .error e
  | .ok name => GetFileNameNoExFormFileName name

/-- The first loop of `GetOnlyFilePath`: it counts the path separators. -/
def GetOnlyFilePath_count (in_str : List Char) (len : Int) :
    Nat → Int → Int → Except Fault Int
  | 0, i, ch_cnt => if i < len then .error .fuel else .ok ch_cnt
  | fuel + 1, i, ch_cnt =>
    if i < len then
      match str_at in_str (int32 (len - 1 - i)) with
      | .error e => .error e
      | .ok c =>
        GetOnlyFilePath_count in_str len fuel (int32 (i + 1))
          (if c = '\\' ∨ c = '/' then int32 (ch_cnt + 1) else ch_cnt)
    else .ok ch_cnt

/-- The second loop of `GetOnlyFilePath`: it erases from the end, up to and including the
last path separator. -/
def GetOnlyFilePath_erase (in_str : List Char) (len : Int) :
    Nat → Int → List Char → Except Fault (List Char)
  | 0, i, re_str => if i < len then .error .fuel else .ok re_str
  | fuel + 1, i, re_str =>
    if i < len then
      match str_at in_str (int32 (len - 1 - i)) with
      | .error e => .error e
      | .ok c =>
        if c = '\\' ∨ c = '/' then .ok re_str.dropLast
        else GetOnlyFilePath_erase in_str len fuel (int32 (i + 1)) re_str.dropLast
    else .ok re_str

/-- `std::string GetOnlyFilePath(std::string in_str)` -/
def GetOnlyFilePath (in_str : List Char) : Except Fault (List Char) :=
  let len := int32 in_str.length
  match GetOnlyFilePath_count in_str len in_str.length 0 0 with
  | .error e => .error e
  | .ok ch_cnt =>
    if ch_cnt ≥ 1 then GetOnlyFilePath_erase in_str len in_str.length 0 in_str
    else .ok []

/-- Lines 975-988 and 1006-1019 of `main`: the name of an output file with extension
`ext`. -/
def main_output_name (OutputPath input_video_path input_video_only_name ext : List Char) :
    List Char :=
  if OutputPath = [] then
    if input_video_path = [] then input_video_only_name ++ ext
    else input_video_path ++ ['/'] ++ input_video_only_name ++ ext
  else OutputPath ++ ['/'] ++ input_video_only_name ++ ext

/-- Lines 963-966, 975-988 and 1006-1019 of `main`: the names of the `.vinf` and of the
`.h264` file for the input file `s`. -/
def main_output_names (OutputPath s : List Char) : Except Fault (List Char × List Char) :=
  match GetOnlyFilePath s with
  | .error e => .error e
  | .ok input_video_path =>
    match GetOnlyFileNameNoEx s with
    | .error e => .error e
    | .ok input_video_only_name =>
      .ok (main_output_name OutputPath input_video_path input_video_only_name ".vinf".toList,
           main_output_name OutputPath input_video_path input_video_only_name ".h264".toList)

/-! ## The per-file loop -/

/-- `#define AV_PKT_FLAG_KEY 0x0001` -/
def AV_PKT_FLAG_KEY : Int := 0x0001

/-- `#define AV_PKT_FLAG_CORRUPT 0x0002` -/
def AV_PKT_FLAG_CORRUPT : Int := 0x0002

/-- `#define AV_PKT_FLAG_DISCARD 0x0004` -/
def AV_PKT_FLAG_DISCARD : Int := 0x0004

/-- `#define AV_PKT_FLAG_DISPOSABLE 0x0010` -/
def AV_PKT_FLAG_DISPOSABLE : Int := 0x0010

/-- A blank packet, as `av_packet_alloc` makes it and as `av_read_frame` leaves it when it
fails. -/
def blank_packet : AVPacket := { data := none, size := 0, flags := 0, stream_index := 0 }

/-- Lines 1102-1147 of `main`: the loop `while(av_read_frame(...) >= 0)`.  `av_read_frame`
hands out the packets of the container in order and fails at their end, leaving the packet
blank.  The result is the packet held when the loop is left and the packets not read yet. -/
def main_read_packet (v_idx : Int) : List AVPacket → AVPacket × List AVPacket
  | [] => (blank_packet, [])
  | pkt :: rest =>
    if pkt.stream_index = v_idx then
      if Int.land pkt.flags AV_PKT_FLAG_CORRUPT ≠ 0 then main_read_packet v_idx rest
      else if Int.land pkt.flags AV_PKT_FLAG_DISCARD ≠ 0 then main_read_packet v_idx rest
      else if Int.land pkt.flags AV_PKT_FLAG_DISPOSABLE ≠ 0 then (pkt, rest)
      else (pkt, rest)
    else main_read_packet v_idx rest

/-- What reaches the two output files, in program order. -/
inductive Out where
  /-- An `fopen(name, "wb")`, lines 992 and 1023. -/
  | fopen (name : List Char)
  /-- The first line of the `.vinf` file, line 995 (its `%0.1f` frame-rate field is left
  out). -/
  | info (Width Height : Int) (TotalFrame : Nat)
  /-- The bytes of an `fwrite` of lines 1032, 1043, 1059 or 1070: a start code, the SPS or
  the PPS. -/
  | param (bytes : List Byte)
  /-- The bytes of the `fwrite` of line 1196: an access unit. -/
  | au (bytes : List Byte)
  /-- The `fprintf(pfile_outvinf, "%d\r\n", frame_byte_cnt)` of line 1214. -/
  | line (frame_byte_cnt : Int)
  deriving DecidableEq, Repr

/-- How the processing of one file ends: `ret` is the value of a `return` of `main` taken
inside (`none` when the file is processed to its end), `out` is what was written. -/
structure FileResult where
  ret : Option Int
  out : List Out
  deriving DecidableEq, Repr

/-- The events `evs` followed by the events of what comes next. -/
def emit (evs : List Out) (next : Except Fault FileResult) : Except Fault FileResult :=
  match next with
  | .error e => .error e
  | .ok r => .ok { r with out := evs ++ r.out }

/-- The call `fwrite(ptr, 1, n, pfile_outh264)`, the `k`-th one on that file (from 0): it
reads the `n` bytes at `ptr`, of which the file takes `fw k n` (all of them when
`fw k n >= n`).  The result is the bytes that reach the file; their number is the value
that `fwrite` returns. -/
def fwrite (fw : Nat → Nat → Nat) (k : Nat) (ptr : Option (List Byte)) (n : Int) :
    Except Fault (List Byte) :=
  match memcpy_src ptr 0 n with
  | .error e => .error e
  | .ok bytes => .ok (bytes.take (fw k bytes.length))

/-- Lines 1095-1229 of `main`: the loop `while(1)` over the access units, on the state
(packets not read yet, `frame_cnt`, `frame_byte_cnt`, number of `fwrite` calls so far).
`frame_cnt` and `TotalFrame` are `unsigned long`. -/
def main_loop (v_idx : Int) (TotalFrame : Nat) (fw : Nat → Nat → Nat) :
    Nat → List AVPacket → Nat → Int → Nat → Except Fault FileResult
  | 0, _, _, _, _ => .error .fuel
  | fuel + 1, pkts, frame_cnt, frame_byte_cnt, k =>
    match main_replace_startcode (main_read_packet v_idx pkts).1 with
    | .error e => .error e
    | .ok none => .ok { ret := none, out := [] }
    | .ok (some pkt) =>
      match main_patch_sei pkt with
      | .error e => .error e
      | .ok pkt =>
        match fwrite fw k pkt.data pkt.size with
        | .error e => .error e
        | .ok written =>
          let re := int32 written.length
          if re ≠ pkt.size then .ok { ret := some (-3), out := [Out.au written] }
          else
            let frame_byte_cnt := int32 (frame_byte_cnt + pkt.size)
            let frame_cnt := frame_cnt + 1
            if frame_cnt ≥ TotalFrame then
              .ok { ret := none, out := [Out.au written, Out.line frame_byte_cnt] }
            else
              emit [Out.au written, Out.line frame_byte_cnt]
                (main_loop v_idx TotalFrame fw fuel (main_read_packet v_idx pkts).2
                  frame_cnt 0 (k + 1))

/-- The fields of `ffmpeg_context` that a successful `FFMpeg_OpenVideo` leaves for
`main`. -/
structure OpenedVideo where
  v_idx : Int
  TotalFrame : Nat
  Width : Int
  Height : Int
  ctx : SFFmpegContext
  deriving DecidableEq, Repr

/-- Lines 975-1241 of `main`: the processing of one opened file, from the two `fopen` to
the two `fclose`. -/
def main_file (v : OpenedVideo) (vinf_name h264_name : List Char) (pkts : List AVPacket)
    (fw : Nat → Nat → Nat) : Except Fault FileResult :=
  emit [Out.fopen vinf_name, Out.info v.Width v.Height v.TotalFrame, Out.fopen h264_name] <|
  match fwrite fw 0 (some startcode) startcode.length with
  | .error e => .error e
  | .ok w0 =>
    if int32 w0.length % 18446744073709551616 ≠ (startcode.length : Int) then
      .ok { ret := some (-4), out := [Out.param w0] }
    else
      emit [Out.param w0] <|
      match fwrite fw 1 (some v.ctx.sps_dat) v.ctx.sps_len with
      | .error e => .error e
      | .ok w1 =>
        if int32 w1.length ≠ v.ctx.sps_len then
          .ok { ret := some (-5), out := [Out.param w1] }
        else
          emit [Out.param w1] <|
          match fwrite fw 2 (some startcode) startcode.length with
          | .error e => .error e
          | .ok w2 =>
            if int32 w2.length % 18446744073709551616 ≠ (startcode.length : Int) then
              .ok { ret := some (-6), out := [Out.param w2] }
            else
              emit [Out.param w2] <|
              match fwrite fw 3 (some v.ctx.pps_dat) v.ctx.pps_len with
              | .error e => .error e
              | .ok w3 =>
                if int32 w3.length ≠ v.ctx.pps_len then
                  .ok { ret := some (-7), out := [Out.param w3] }
                else
                  emit [Out.param w3] <|
                  main_loop v.v_idx v.TotalFrame fw (pkts.length + 1) pkts 0
                    (int32 (int32 (int32 (int32 (0 + (startcode.length : Int))
                      + v.ctx.sps_len) + (startcode.length : Int)) + v.ctx.pps_len)) 4

/-! ## Opening a file, and `main` -/

/-- The fields of `AVStream` that `FFMpeg_OpenVideo` reads. -/
structure AVStream where
  codec_type : Int
  nb_frames : Int
  extradata : Option (List Byte)

/-- `AVMEDIA_TYPE_VIDEO` of libavutil. -/
def AVMEDIA_TYPE_VIDEO : Int := 0

/-- What libavformat, libavcodec and the file system answer for one input file. -/
structure VideoFile where
  avformat_open_input : Int
  avformat_find_stream_info : Int
  streams : List AVStream
  /-- The name of the decoder that `avcodec_find_decoder_by_name("h264")` finds, `none`
  for `NULL`. -/
  avcodec_find_decoder_by_name : Option (List Char)
  /-- Whether `avcodec_alloc_context3` returns a context. -/
  avcodec_alloc_context3 : Bool
  avcodec_parameters_to_context : Int
  avcodec_open2 : Int
  width : Int
  height : Int
  /-- The packets that `av_read_frame` hands out. -/
  packets : List AVPacket
  /-- How many bytes each `fwrite` on the `.h264` file gets written, see `fwrite`. -/
  fwrite_ret : Nat → Nat → Nat

/-- Lines 381-405 of `FFMpeg_OpenVideo`: the index of the first video stream and that
stream, searched from index `i` on. -/
def FFMpeg_OpenVideo_find : List AVStream → Int → Option (Int × AVStream)
  | [], _ => none
  | st :: rest, i =>
    if st.codec_type = AVMEDIA_TYPE_VIDEO then some (i, st)
    else FFMpeg_OpenVideo_find rest (int32 (i + 1))

/-- The outcome of `FFMpeg_OpenVideo`: a non-zero return value, or the value 0 with the
context it leaves. -/
inductive OpenResult where
  | failed (re : Int)
  | opened (v : OpenedVideo)
  deriving DecidableEq, Repr

/-- `int FFMpeg_OpenVideo(std::string filename)`, on what the libraries answer for
`filename`. -/
def FFMpeg_OpenVideo (f : VideoFile) : Except Fault OpenResult :=
  if f.avformat_open_input ≠ 0 then .ok (.failed (-1))
  else if f.avformat_find_stream_info ≠ 0 then .ok (.failed (-2))
  else
    match FFMpeg_OpenVideo_find f.streams 0 with
    | none => .ok (.failed (-3))
    | some (v_idx, video_stream) =>
      match f.avcodec_find_decoder_by_name with
      | none => .ok (.failed (-4))
      | some name =>
        if f.avcodec_alloc_context3 = false then .ok (.failed (-5))
        else if f.avcodec_parameters_to_context < 0 then .ok (.failed (-6))
        else if f.avcodec_open2 < 0 then .ok (.failed (-7))
        else if name ≠ "h264".toList then .ok (.failed (-8))
        else
          match FFMpeg_OpenVideo_sps_pps video_stream.extradata with
          | .error e => .error e
          | .ok ctx =>
            .ok (.opened { v_idx := v_idx,
                           TotalFrame := (video_stream.nb_frames % 18446744073709551616).toNat,
                           Width := f.width, Height := f.height, ctx := ctx })

/-- `EInputType_None = 0` -/
def EInputType_None : Int := 0

/-- `EInputType_OutputPath`, the second enumerator. -/
def EInputType_OutputPath : Int := 1

/-- How the argument loop ends: with a `return` of `main`, or with the output path and the
list of input files. -/
inductive ArgsResult where
  | ret (code : Int)
  | parsed (OutputPath : List Char) (InputFileVec : List (List Char))
  deriving DecidableEq, Repr

/-- Lines 906-940 of `main`: the loop over `argv[1..]`, on the state (`CurrentInputType`,
`OutputPath`, `InputFileVec`). -/
def main_args : List (List Char) → Int → List Char → List (List Char) → ArgsResult
  | [], _, OutputPath, InputFileVec => .parsed OutputPath InputFileVec
  | arg :: rest, CurrentInputType, OutputPath, InputFileVec =>
    if CurrentInputType = EInputType_None then
      if arg = "-o".toList then main_args rest EInputType_OutputPath OutputPath InputFileVec
      else main_args rest CurrentInputType OutputPath (InputFileVec ++ [arg])
    else if CurrentInputType = EInputType_OutputPath then
      main_args rest EInputType_None arg InputFileVec
    else .ret (-2)

/-- The loop over the input files (lines 956-1253 of `main`) after the processing of one
file, whose result is `r`: a `return` inside the processing ends `main`, otherwise the loop
goes on with the next files, whose run is `rest`. -/
def main_next (r : Except Fault FileResult) (rest : Except Fault (Int × List Out)) :
    Except Fault (Int × List Out) :=
  match r with
  | .error e => .error e
  | .ok r =>
    match r.ret with
    | some code => .ok (code, r.out)
    | none =>
      match rest with
      | .error e => .error e
      | .ok (code, out) => .ok (code, r.out ++ out)

/-- Lines 956-1253 of `main`: the loop over the input files.  The result is the value that
`main` returns and what was written. -/
def main_files (world : List Char → VideoFile) (OutputPath : List Char) :
    List (List Char) → Except Fault (Int × List Out)
  | [] => .ok (0, [])
  | s :: rest =>
    match main_output_names OutputPath s with
    | .error e => .error e
    | .ok (vinf_name, h264_name) =>
      match FFMpeg_OpenVideo (world s) with
      | .error e => .error e
      | .ok (.failed _) => .ok (-2, [])
      | .ok (.opened v) =>
        main_next (main_file v vinf_name h264_name (world s).packets (world s).fwrite_ret)
          (main_files world OutputPath rest)

/-- `int main(int argc, char** argv)`: `argv` holds the program name and the arguments,
`world` is what the libraries answer for each file name. -/
def main (argv : List (List Char)) (world : List Char → VideoFile) :
    Except Fault (Int × List Out) :=
  if int32 argv.length < 2 then .ok (-1, [])
  else
    match main_args (argv.drop 1) EInputType_None [] [] with
    | .ret code => .ok (code, [])
    | .parsed OutputPath InputFileVec => main_files world OutputPath InputFileVec

/-! ## Vocabulary of the statements -/

/-- A packet of the selected video stream that carries neither the corrupt flag nor the
discard flag. -/
def accepted (v_idx : Int) (pkt : AVPacket) : Bool :=
  decide (pkt.stream_index = v_idx ∧ Int.land pkt.flags AV_PKT_FLAG_CORRUPT = 0 ∧
    Int.land pkt.flags AV_PKT_FLAG_DISCARD = 0)

/-- The events of a loop in which every access unit is followed at once by its line: the
pairs are (bytes of the access unit, number on its line). -/
def records : List (List Byte × Int) → List Out
  | [] => []
  | (a, c) :: rest => Out.au a :: Out.line c :: records rest

/-- Number of access-unit writes among the events. -/
def au_count : List Out → Nat
  | [] => 0
  | Out.au _ :: rest => au_count rest + 1
  | _ :: rest => au_count rest

/-- Number of byte-count lines among the events. -/
def line_count : List Out → Nat
  | [] => 0
  | Out.line _ :: rest => line_count rest + 1
  | _ :: rest => line_count rest

/-- Sum of the byte counts on the lines among the events. -/
def line_sum : List Out → Int
  | [] => 0
  | Out.line c :: rest => c + line_sum rest
  | _ :: rest => line_sum rest

/-- Number of bytes that the events put into the elementary-stream file. -/
def h264_bytes : List Out → Nat
  | [] => 0
  | Out.param b :: rest => b.length + h264_bytes rest
  | Out.au b :: rest => b.length + h264_bytes rest
  | _ :: rest => h264_bytes rest

/-- The events before the loop of a run without a write error: the two `fopen`, the info
line, and the start code and payload of the SPS and of the PPS. -/
def file_head (v : OpenedVideo) (vinf_name h264_name : List Char) : List Out :=
  [Out.fopen vinf_name, Out.info v.Width v.Height v.TotalFrame, Out.fopen h264_name,
   Out.param startcode, Out.param v.ctx.sps_dat, Out.param startcode, Out.param v.ctx.pps_dat]

/-- The number of accepted packets that come before the first accepted packet shorter than
four bytes, or before the end of the source when there is none. -/
def ready_count (v_idx : Int) (pkts : List AVPacket) : Nat :=
  ((pkts.filter (accepted v_idx)).takeWhile (fun p => decide (4 ≤ p.size))).length

/-! ## Arithmetic and memory lemmas -/

theorem int32_eq_self (x : Int) (h1 : -2147483648 ≤ x) (h2 : x < 2147483648) :
    int32 x = x := by
  unfold int32; omega

theorem int32_add_int32 (a b : Int) : int32 (int32 a + b) = int32 (a + b) := by
  unfold int32; omega

theorem int32_range (x : Int) : -2147483648 ≤ int32 x ∧ int32 x < 2147483648 := by
  unfold int32; omega

theorem int32_idx (bc : Int) (h0 : 0 ≤ bc) (h1 : bc < 2147483648)
    (h : 0 ≤ int32 (4 + 1 + 1 + bc)) :
    int32 (4 + 1 + 1 + bc) = 6 + bc ∧ 6 + bc < 2147483648 := by
  unfold int32 at h ⊢
  omega

theorem byte_land (x : Byte) : (x.val &&& 0x0FF) = x.val := by
  have h := x.isLt
  have : (0x0FF : Nat) = 2 ^ 8 - 1 := by norm_num
  rw [this, Nat.and_pow_two_sub_one_eq_mod]
  omega

theorem rd_append_cons (pre tail : List Byte) (x : Byte) (i : Int)
    (hi : i = (pre.length : Int)) : rd (some (pre ++ x :: tail)) i = .ok x := by
  subst hi
  have h0 : ¬ ((pre.length : Int) < 0) := by omega
  have h1 : (pre ++ x :: tail)[pre.length]? = some x := by
    rw [List.getElem?_append_right (Nat.le_refl _)]
    simp
  simp only [rd, h0, if_false, Int.toNat_ofNat, h1]

theorem rd_lt (b : List Byte) (i : Nat) (h : i < b.length) :
    rd (some b) (i : Int) = .ok (b.get ⟨i, h⟩) := by
  simp [rd, List.getElem?_eq_getElem h]

theorem rd_ge (b : List Byte) (i : Int) (h : (b.length : Int) ≤ i) :
    rd (some b) i = .error (.oob i) := by
  have h0 : ¬ i < 0 := by omega
  have h1 : b.length ≤ i.toNat := by omega
  simp [rd, h0, List.getElem?_eq_none h1]

theorem rd_ok_bound (b : List Byte) (i : Int) (x : Byte) (h : rd (some b) i = .ok x) :
    0 ≤ i ∧ i < (b.length : Int) := by
  by_cases h0 : i < 0
  · simp [rd, h0] at h
  · by_cases h1 : (b.length : Int) ≤ i
    · rw [rd_ge b i h1] at h; cases h
    · omega

theorem rd_ne_fuel (pdat : Option (List Byte)) (i : Int) : rd pdat i ≠ .error .fuel := by
  unfold rd
  cases pdat with
  | none => simp
  | some b =>
    simp only
    split
    · simp
    · split <;> simp

/-! ## The SEI header check -/

theorem H264_CheckSEI_Inside_ne_fuel (pdat : Option (List Byte)) (len : Int) :
    H264_CheckSEI_Inside pdat len ≠ .error .fuel := by
  unfold H264_CheckSEI_Inside
  split
  · simp
  · split
    · simp
    · cases h4 : rd pdat 4 with
      | error e =>
        simp only
        intro h; injection h with h; subst h
        exact rd_ne_fuel _ _ h4
      | ok b4 =>
        simp only
        split
        · cases h5 : rd pdat 5 with
          | error e =>
            simp only
            intro h; injection h with h; subst h
            exact rd_ne_fuel _ _ h5
          | ok b5 =>
            simp only
            split <;> simp
        · simp

theorem H264_CheckSEI_Inside_short (pdat : Option (List Byte)) (len : Int) (h : len < 6) :
    H264_CheckSEI_Inside pdat len = .ok false := by
  simp [H264_CheckSEI_Inside, h]

theorem H264_CheckSEI_Inside_cons (x0 x1 x2 x3 x4 x5 : Byte) (rest : List Byte) (len : Int)
    (h : 6 ≤ len) :
    H264_CheckSEI_Inside (some (x0 :: x1 :: x2 :: x3 :: x4 :: x5 :: rest)) len
      = .ok (decide (x4 = 6 ∧ x5 = 5)) := by
  have h6 : ¬ len < 6 := by omega
  by_cases h4 : x4 = 6 <;> by_cases h5 : x5 = 5 <;>
    simp [H264_CheckSEI_Inside, h6, rd, h4, h5]

/-- The check passes on every buffer that starts `00 00 00 01 06 05`. -/
theorem H264_CheckSEI_Inside_prefix (tail : List Byte) (len : Int) (h : 6 ≤ len) :
    H264_CheckSEI_Inside (some ([0, 0, 0, 1, 6, 5] ++ tail)) len = .ok true :=
  H264_CheckSEI_Inside_cons 0 0 0 1 6 5 tail len h

/-- Shape of a buffer that holds at least six bytes. -/
theorem six_le_length (b : List Byte) (h : 6 ≤ b.length) :
    ∃ x0 x1 x2 x3 x4 x5 rest, b = x0 :: x1 :: x2 :: x3 :: x4 :: x5 :: rest := by
  match b, h with
  | x0 :: x1 :: x2 :: x3 :: x4 :: x5 :: rest, _ => exact ⟨x0, x1, x2, x3, x4, x5, rest, rfl⟩

/-- When the check passes the buffer holds the two codes at offsets 4 and 5. -/
theorem H264_CheckSEI_Inside_true (b : List Byte) (len : Int) (hlen : len ≤ b.length)
    (h : H264_CheckSEI_Inside (some b) len = .ok true) :
    6 ≤ len ∧ ∃ x0 x1 x2 x3 rest, b = x0 :: x1 :: x2 :: x3 :: 6 :: 5 :: rest := by
  by_cases h6 : len < 6
  · rw [H264_CheckSEI_Inside_short _ _ h6] at h; cases h
  · have hb : 6 ≤ b.length := by omega
    obtain ⟨x0, x1, x2, x3, x4, x5, rest, rfl⟩ := six_le_length b hb
    rw [H264_CheckSEI_Inside_cons _ _ _ _ _ _ _ _ (by omega)] at h
    have h2 : x4 = 6 ∧ x5 = 5 := by simpa using h
    exact ⟨by omega, x0, x1, x2, x3, rest, by rw [h2.1, h2.2]⟩

/-- C2: on a non-null buffer `b` whose stated length `len` does not exceed its real length,
`H264_CheckSEI_Inside` returns true exactly when `len >= 6`, `b[4] = 0x06` and
`b[5] = 0x05`, and in every other case (any other prefix, any `len < 6`) it returns false:
it never faults. -/
theorem H264_CheckSEI_Inside_spec (b : List Byte) (len : Int) (hlen : len ≤ b.length) :
    (H264_CheckSEI_Inside (some b) len = .ok true ↔
        (6 ≤ len ∧ b[4]? = some 6 ∧ b[5]? = some 5)) ∧
    (¬ (6 ≤ len ∧ b[4]? = some 6 ∧ b[5]? = some 5) →
        H264_CheckSEI_Inside (some b) len = .ok false) := by
  by_cases h6 : len < 6
  · rw [H264_CheckSEI_Inside_short _ _ h6]
    constructor
    · constructor
      · intro h; cases h
      · intro h; omega
    · intro _; rfl
  · have hb : 6 ≤ b.length := by omega
    obtain ⟨x0, x1, x2, x3, x4, x5, rest, rfl⟩ := six_le_length b hb
    rw [H264_CheckSEI_Inside_cons _ _ _ _ _ _ _ _ (by omega)]
    have h6' : 6 ≤ len := by omega
    simp [h6']

/-- C2 at the buffer `00 00 00 01 06 05 2F` with stated length 7. -/
theorem H264_CheckSEI_Inside_spec_witness :
    (H264_CheckSEI_Inside (some [0, 0, 0, 1, 6, 5, 0x2F]) 7 = .ok true ↔
        ((6 : Int) ≤ 7 ∧ ([0, 0, 0, 1, 6, 5, 0x2F] : List Byte)[4]? = some 6 ∧
          ([0, 0, 0, 1, 6, 5, 0x2F] : List Byte)[5]? = some 5)) ∧
    (¬ ((6 : Int) ≤ 7 ∧ ([0, 0, 0, 1, 6, 5, 0x2F] : List Byte)[4]? = some 6 ∧
          ([0, 0, 0, 1, 6, 5, 0x2F] : List Byte)[5]? = some 5) →
        H264_CheckSEI_Inside (some [0, 0, 0, 1, 6, 5, 0x2F]) 7 = .ok false) :=
  H264_CheckSEI_Inside_spec [0, 0, 0, 1, 6, 5, 0x2F] 7 (by decide)

/-! ## The length decode -/

/-- The loop over `k` bytes `0xFF` followed by a byte `v` other than `0xFF`. -/
theorem H264_SEI_GetHeadLen_loop_run (v : Byte) (hv : v ≠ 255) (rest : List Byte) :
    ∀ (k fuel : Nat) (pre : List Byte) (total_len byte_cnt : Int),
      k < fuel → (pre.length : Int) = 6 + byte_cnt → 0 ≤ byte_cnt →
      (pre.length : Int) + k + 1 < 2147483648 →
      H264_SEI_GetHeadLen_loop (some (pre ++ List.replicate k 255 ++ v :: rest)) fuel
          total_len byte_cnt
        = .ok (int32 (total_len + 255 * k + v.val), byte_cnt + k + 1) := by
  intro k
  induction k with
  | zero =>
    intro fuel pre total_len byte_cnt hf hpre hbc hlt
    obtain ⟨f, rfl⟩ : ∃ f, fuel = f + 1 := ⟨fuel - 1, by omega⟩
    have hidx : int32 (4 + 1 + 1 + byte_cnt) = (pre.length : Int) := by
      rw [int32_eq_self] <;> omega
    have hv' : ¬ ((v.val : Int) = 255) := by
      intro h; apply hv; apply Fin.ext; show v.val = 255; omega
    have hbc1 : int32 (byte_cnt + 1) = byte_cnt + 1 := by
      rw [int32_eq_self] <;> omega
    simp only [List.replicate_zero, List.append_nil, H264_SEI_GetHeadLen_loop,
      rd_append_cons pre rest v _ hidx, byte_land, hbc1]
    simp [hv']
  | succ k ih =>
    intro fuel pre total_len byte_cnt hf hpre hbc hlt
    obtain ⟨f, rfl⟩ : ∃ f, fuel = f + 1 := ⟨fuel - 1, by omega⟩
    have hidx : int32 (4 + 1 + 1 + byte_cnt) = (pre.length : Int) := by
      rw [int32_eq_self] <;> omega
    have hbc1 : int32 (byte_cnt + 1) = byte_cnt + 1 := by
      rw [int32_eq_self] <;> omega
    have hlist : pre ++ List.replicate (k + 1) (255 : Byte) ++ v :: rest
        = pre ++ (255 : Byte) :: (List.replicate k 255 ++ v :: rest) := by
      simp [List.replicate_succ]
    have hlist2 : pre ++ (255 : Byte) :: (List.replicate k 255 ++ v :: rest)
        = (pre ++ [255]) ++ List.replicate k 255 ++ v :: rest := by
      simp
    rw [hlist]
    simp only [H264_SEI_GetHeadLen_loop, rd_append_cons pre _ 255 _ hidx, byte_land, hbc1]
    have h255 : (((255 : Byte).val : Nat) : Int) = 255 := rfl
    have hih := ih f (pre ++ [255]) (int32 (total_len + 255)) (byte_cnt + 1) (by omega)
      (by simp; omega) (by omega) (by simp; omega)
    rw [h255, if_neg (by simp), hlist2, hih]
    have e1 : int32 (total_len + 255) + 255 * (k : Int) + (v.val : Int)
        = int32 (total_len + 255) + (255 * (k : Int) + (v.val : Int)) := by ring
    have e2 : total_len + 255 + (255 * (k : Int) + (v.val : Int))
        = total_len + 255 * ((k + 1 : Nat) : Int) + (v.val : Int) := by push_cast; ring
    have e3 : byte_cnt + 1 + (k : Int) + 1 = byte_cnt + ((k + 1 : Nat) : Int) + 1 := by
      push_cast; ring
    rw [e1, int32_add_int32, e2, e3]

/-- What `H264_SEI_GetHeadLen` returns on a buffer that passes the check and holds, from
offset 6, `k` bytes `0xFF` and then a byte `v` other than `0xFF`. -/
theorem H264_SEI_GetHeadLen_run (pre rest : List Byte) (k : Nat) (v : Byte) (len ucl0 : Int)
    (hpre : pre.length = 6) (hv : v ≠ 255)
    (hchk : H264_CheckSEI_Inside (some (pre ++ List.replicate k 255 ++ v :: rest)) len
      = .ok true)
    (hlen : ((pre ++ List.replicate k 255 ++ v :: rest).length : Int) ≤ 2147483647) :
    H264_SEI_GetHeadLen (some (pre ++ List.replicate k 255 ++ v :: rest)) len ucl0
      = .ok (6 + ((k : Int) + 1), int32 (255 * k + v.val)) := by
  have hl : (pre ++ List.replicate k 255 ++ v :: rest).length = 6 + k + 1 + rest.length := by
    simp [hpre]; omega
  rw [hl] at hlen
  have hrun := H264_SEI_GetHeadLen_loop_run v hv rest k
    (bufLen (some (pre ++ List.replicate k 255 ++ v :: rest)) + 1) pre 0 0
    (by simp only [bufLen, hl]; omega) (by simp [hpre]) (by omega)
    (by rw [hpre]; push_cast at hlen ⊢; omega)
  unfold H264_SEI_GetHeadLen
  rw [hchk]
  simp only [hrun]
  have e1 : int32 (4 + 1 + 1 + (0 + (k : Int) + 1)) = 6 + ((k : Int) + 1) := by
    rw [int32_eq_self] <;> push_cast at hlen <;> omega
  have e2 : (0 : Int) + 255 * (k : Int) + (v.val : Int) = 255 * k + v.val := by ring
  rw [e1, e2]

/-- C1 as stated fails once the sum leaves the range of `int`: on the buffer
`00 00 00 01 06 05`, 8421505 bytes `FF`, `00` (k = 8421505, v = 0) the check passes, and
`uuid_content_len` comes back as -2147483521, not as 255 * 8421505 + 0 = 2147483775. -/
theorem H264_SEI_GetHeadLen_overflow :
    H264_CheckSEI_Inside
        (some ([0, 0, 0, 1, 6, 5] ++ List.replicate 8421505 255 ++ [0])) 8421512 = .ok true ∧
    H264_SEI_GetHeadLen
        (some ([0, 0, 0, 1, 6, 5] ++ List.replicate 8421505 255 ++ [0])) 8421512 0
      = .ok (8421512, -2147483521) ∧
    H264_SEI_GetHeadLen
        (some ([0, 0, 0, 1, 6, 5] ++ List.replicate 8421505 255 ++ [0])) 8421512 0
      ≠ .ok (6 + (8421505 + 1), 255 * 8421505 + 0) := by
  have hchk : H264_CheckSEI_Inside
      (some ([0, 0, 0, 1, 6, 5] ++ List.replicate 8421505 255 ++ [0])) 8421512 = .ok true := by
    rw [List.append_assoc]
    exact H264_CheckSEI_Inside_prefix _ _ (by norm_num)
  have hlen : ((([0, 0, 0, 1, 6, 5] : List Byte) ++ List.replicate 8421505 255 ++ [0]).length
      : Int) ≤ 2147483647 := by
    rw [List.length_append, List.length_append, List.length_replicate]
    simp
  have hval : ((6 : Int) + (((8421505 : Nat) : Int) + 1),
      int32 (255 * ((8421505 : Nat) : Int) + (((0 : Byte).val : Nat) : Int)))
      = ((8421512 : Int), (-2147483521 : Int)) := by
    unfold int32; norm_num
  have hne : ((8421512 : Int), (-2147483521 : Int))
      ≠ ((6 : Int) + (8421505 + 1), (255 : Int) * 8421505 + 0) := by
    norm_num
  have hrun := H264_SEI_GetHeadLen_run [0, 0, 0, 1, 6, 5] [] 8421505 0 8421512 0 rfl
    (by decide) hchk hlen
  refine ⟨hchk, hrun.trans (congrArg Except.ok hval), fun h => hne ?_⟩
  exact Except.ok.inj ((congrArg Except.ok hval).symm.trans (hrun.symm.trans h))

/-- C1, amended: on every buffer (of a length that fits in an `int`) on which
`H264_CheckSEI_Inside` is true and which holds, from offset 6, `k` bytes `0xFF` followed by
a byte `v` other than `0xFF`, and for which `255 * k + v` fits in an `int`,
`H264_SEI_GetHeadLen` returns `6 + (k + 1)` and sets `uuid_content_len` to `255 * k + v`. -/
theorem H264_SEI_GetHeadLen_spec (pre rest : List Byte) (k : Nat) (v : Byte) (len ucl0 : Int)
    (hpre : pre.length = 6) (hv : v ≠ 255)
    (hchk : H264_CheckSEI_Inside (some (pre ++ List.replicate k 255 ++ v :: rest)) len
      = .ok true)
    (hlen : ((pre ++ List.replicate k 255 ++ v :: rest).length : Int) ≤ 2147483647)
    (hsum : 255 * (k : Int) + v.val ≤ 2147483647) :
    H264_SEI_GetHeadLen (some (pre ++ List.replicate k 255 ++ v :: rest)) len ucl0
      = .ok (6 + ((k : Int) + 1), 255 * k + v.val) := by
  rw [H264_SEI_GetHeadLen_run pre rest k v len ucl0 hpre hv hchk hlen, int32_eq_self] <;> omega

/-- C1 at the two buffers of the file header comment: `00 00 00 01 06 05 2F` gives
header length 7 and content length 47, `00 00 00 01 06 05 FF FF AC` gives 9 and 682. -/
theorem H264_SEI_GetHeadLen_spec_witness :
    H264_SEI_GetHeadLen (some [0, 0, 0, 1, 6, 5, 0x2F]) 7 0 = .ok (7, 47) ∧
    H264_SEI_GetHeadLen (some [0, 0, 0, 1, 6, 5, 0xFF, 0xFF, 0xAC]) 9 0 = .ok (9, 682) :=
  ⟨H264_SEI_GetHeadLen_spec [0, 0, 0, 1, 6, 5] [] 0 0x2F 7 0 rfl (by decide) (by decide)
      (by decide) (by decide),
   H264_SEI_GetHeadLen_spec [0, 0, 0, 1, 6, 5] [] 2 0xAC 9 0 rfl (by decide) (by decide)
      (by decide) (by decide)⟩

/-- A run of the loop that returns has read at least one byte, and every byte it read
lies inside the buffer. -/
theorem H264_SEI_GetHeadLen_loop_bounds (b : List Byte) :
    ∀ (fuel : Nat) (total_len byte_cnt tl bc : Int),
      0 ≤ byte_cnt → byte_cnt < 2147483648 →
      H264_SEI_GetHeadLen_loop (some b) fuel total_len byte_cnt = .ok (tl, bc) →
      byte_cnt < bc ∧ 6 + bc ≤ (b.length : Int) := by
  intro fuel
  induction fuel with
  | zero =>
    intro total_len byte_cnt tl bc _ _ h
    simp [H264_SEI_GetHeadLen_loop] at h
  | succ f ih =>
    intro total_len byte_cnt tl bc h0 h1 h
    unfold H264_SEI_GetHeadLen_loop at h
    cases hrd : rd (some b) (int32 (4 + 1 + 1 + byte_cnt)) with
    | error e => rw [hrd] at h; cases h
    | ok x =>
      rw [hrd] at h
      have hb := rd_ok_bound b _ x hrd
      obtain ⟨hidx, hidx2⟩ := int32_idx byte_cnt h0 h1 hb.1
      rw [hidx] at hb
      have hbc1 : int32 (byte_cnt + 1) = byte_cnt + 1 := by
        rw [int32_eq_self] <;> omega
      simp only [hbc1] at h
      split at h
      · injection h with h
        have h2 : byte_cnt + 1 = bc := (Prod.mk.inj h).2
        omega
      · have := ih _ _ _ _ (by omega) (by omega) h
        omega

/-- The fuel handed to the loop by `H264_SEI_GetHeadLen` is never exhausted: the loop
stops at the latest at the first read outside the buffer. -/
theorem H264_SEI_GetHeadLen_loop_fuel (b : List Byte) :
    ∀ (fuel : Nat) (total_len byte_cnt : Int),
      0 ≤ byte_cnt → byte_cnt < 2147483648 → byte_cnt ≤ (b.length : Int) →
      (b.length : Int) < fuel + byte_cnt →
      H264_SEI_GetHeadLen_loop (some b) fuel total_len byte_cnt ≠ .error .fuel := by
  intro fuel
  induction fuel with
  | zero =>
    intro total_len byte_cnt _ _ h2 h3
    simp at h3; omega
  | succ f ih =>
    intro total_len byte_cnt h0 h1 h2 h3
    unfold H264_SEI_GetHeadLen_loop
    cases hrd : rd (some b) (int32 (4 + 1 + 1 + byte_cnt)) with
    | error e =>
      simp only
      intro h
      injection h with h
      subst h
      exact rd_ne_fuel _ _ hrd
    | ok x =>
      have hb := rd_ok_bound b _ x hrd
      obtain ⟨hidx, hidx2⟩ := int32_idx byte_cnt h0 h1 hb.1
      rw [hidx] at hb
      have hbc1 : int32 (byte_cnt + 1) = byte_cnt + 1 := by
        rw [int32_eq_self] <;> omega
      simp only [hbc1]
      split
      · intro h; cases h
      · exact ih _ _ (by omega) (by omega) (by omega) (by push_cast at h3; omega)

/-- `H264_SEI_GetHeadLen` never runs out of fuel, on any pointer and any stated length. -/
theorem H264_SEI_GetHeadLen_fuel (pdat : Option (List Byte)) (len ucl0 : Int) :
    H264_SEI_GetHeadLen pdat len ucl0 ≠ .error .fuel := by
  unfold H264_SEI_GetHeadLen
  cases hc : H264_CheckSEI_Inside pdat len with
  | error e =>
    simp only
    intro h
    injection h with h
    subst h
    exact H264_CheckSEI_Inside_ne_fuel _ _ hc
  | ok c =>
    cases c with
    | false => simp
    | true =>
      cases pdat with
      | none =>
        by_cases h6 : len < 6 <;> simp [H264_CheckSEI_Inside, h6] at hc
      | some b =>
        simp only
        have hf := H264_SEI_GetHeadLen_loop_fuel b (bufLen (some b) + 1) 0 0 (by omega)
          (by omega) (by omega) (by simp [bufLen])
        cases hl : H264_SEI_GetHeadLen_loop (some b) (bufLen (some b) + 1) 0 0 with
        | error e =>
          simp only
          intro h
          injection h with h
          subst h
          exact hf hl
        | ok r => simp

theorem H264_SEI_GetHeadLen_false (pdat : Option (List Byte)) (len ucl0 : Int)
    (hc : H264_CheckSEI_Inside pdat len = .ok false) :
    H264_SEI_GetHeadLen pdat len ucl0 = .ok (-1, ucl0) := by
  simp [H264_SEI_GetHeadLen, hc]

/-- A length decode that returns went through the check. -/
theorem H264_SEI_GetHeadLen_ok_check (pdat : Option (List Byte)) (len ucl0 hl ucl : Int)
    (h : H264_SEI_GetHeadLen pdat len ucl0 = .ok (hl, ucl)) :
    ∃ c, H264_CheckSEI_Inside pdat len = .ok c := by
  cases hc : H264_CheckSEI_Inside pdat len with
  | error e => simp [H264_SEI_GetHeadLen, hc] at h
  | ok c => exact ⟨c, rfl⟩

/-- After a passed check the returned header length counts the six fixed bytes and at least
one length byte, all of them inside the buffer. -/
theorem H264_SEI_GetHeadLen_ok_true (b : List Byte) (len ucl0 hl ucl : Int)
    (hc : H264_CheckSEI_Inside (some b) len = .ok true)
    (hlen : (b.length : Int) ≤ 2147483647)
    (h : H264_SEI_GetHeadLen (some b) len ucl0 = .ok (hl, ucl)) :
    7 ≤ hl ∧ hl ≤ (b.length : Int) := by
  unfold H264_SEI_GetHeadLen at h
  rw [hc] at h
  simp only at h
  cases hl' : H264_SEI_GetHeadLen_loop (some b) (bufLen (some b) + 1) 0 0 with
  | error e => rw [hl'] at h; cases h
  | ok r =>
    obtain ⟨tl, bc⟩ := r
    rw [hl'] at h
    have hb := H264_SEI_GetHeadLen_loop_bounds b _ 0 0 tl bc (by omega) (by omega) hl'
    injection h with h
    have h1 : int32 (4 + 1 + 1 + bc) = hl := (Prod.mk.inj h).1
    rw [int32_eq_self] at h1 <;> omega

/-! ## The total length of the SEI segment -/

/-- The value of `H264_SEI_GetTotalDataLen_SEI` after a passed check, from the two values
that `H264_SEI_GetHeadLen` produced. -/
theorem H264_SEI_GetTotalDataLen_SEI_eq (pdat : Option (List Byte)) (len hl ucl : Int)
    (hc : H264_CheckSEI_Inside pdat len = .ok true)
    (hh : H264_SEI_GetHeadLen pdat len 0 = .ok (hl, ucl)) :
    H264_SEI_GetTotalDataLen_SEI pdat len
      = if hl ≥ 4 + 1 + 1 + 1 ∧ ucl > 16 then .ok (int32 (hl + ucl + 1)) else .ok (-1) := by
  unfold H264_SEI_GetTotalDataLen_SEI
  rw [hc]
  simp only [hh]

/-- C3 as stated fails once `head_len + uuid_content_len + 1` leaves the range of `int`: on
the buffer `00 00 00 01 06 05`, 8421504 bytes `FF`, `7F` the length field ends inside the
buffer with `head_len = 8421511` and `uuid_content_len = 2147483647 > 16`, the check
passes, and the function does not return 8421511 + 2147483647 + 1. -/
theorem H264_SEI_GetTotalDataLen_SEI_overflow :
    H264_CheckSEI_Inside
        (some ([0, 0, 0, 1, 6, 5] ++ List.replicate 8421504 255 ++ [0x7F])) 8421511
      = .ok true ∧
    H264_SEI_GetHeadLen
        (some ([0, 0, 0, 1, 6, 5] ++ List.replicate 8421504 255 ++ [0x7F])) 8421511 0
      = .ok (8421511, 2147483647) ∧
    H264_SEI_GetTotalDataLen_SEI
        (some ([0, 0, 0, 1, 6, 5] ++ List.replicate 8421504 255 ++ [0x7F])) 8421511
      = .ok (-2139062137) ∧
    H264_SEI_GetTotalDataLen_SEI
        (some ([0, 0, 0, 1, 6, 5] ++ List.replicate 8421504 255 ++ [0x7F])) 8421511
      ≠ .ok (8421511 + 2147483647 + 1) := by
  have hchk : H264_CheckSEI_Inside
      (some ([0, 0, 0, 1, 6, 5] ++ List.replicate 8421504 255 ++ [0x7F])) 8421511
      = .ok true := by
    rw [List.append_assoc]
    exact H264_CheckSEI_Inside_prefix _ _ (by norm_num)
  have hlen : ((([0, 0, 0, 1, 6, 5] : List Byte) ++ List.replicate 8421504 255
      ++ [0x7F]).length : Int) ≤ 2147483647 := by
    rw [List.length_append, List.length_append, List.length_replicate]
    simp
  have hval : ((6 : Int) + (((8421504 : Nat) : Int) + 1),
      int32 (255 * ((8421504 : Nat) : Int) + (((0x7F : Byte).val : Nat) : Int)))
      = ((8421511 : Int), (2147483647 : Int)) := by
    have h7 : (((0x7F : Byte).val : Nat) : Int) = 127 := rfl
    rw [h7]
    unfold int32; norm_num
  have hrun := (H264_SEI_GetHeadLen_run [0, 0, 0, 1, 6, 5] [] 8421504 0x7F 8421511 0 rfl
    (by decide) hchk hlen).trans (congrArg Except.ok hval)
  have htot : H264_SEI_GetTotalDataLen_SEI
      (some ([0, 0, 0, 1, 6, 5] ++ List.replicate 8421504 255 ++ [0x7F])) 8421511
      = .ok (-2139062137) := by
    have hif : (if (8421511 : Int) ≥ 4 + 1 + 1 + 1 ∧ (2147483647 : Int) > 16
        then (Except.ok (int32 (8421511 + 2147483647 + 1)) : Except Fault Int)
        else .ok (-1)) = .ok (-2139062137) := by
      unfold int32; norm_num
    exact (H264_SEI_GetTotalDataLen_SEI_eq _ _ _ _ hchk hrun).trans hif
  refine ⟨hchk, hrun, htot, ?_⟩
  rw [htot]
  norm_num

/-- C3, amended: on every buffer (of a length that fits in an `int`) whose SEI length field
ends inside the buffer, so that `H264_SEI_GetHeadLen` produces `head_len` and
`uuid_content_len`, and for which `head_len + uuid_content_len + 1` fits in an `int`
whenever `uuid_content_len > 16`: `H264_SEI_GetTotalDataLen_SEI` returns
`head_len + uuid_content_len + 1` when the check is true and `uuid_content_len > 16`, and
it returns -1 exactly when the check is false or `uuid_content_len <= 16`. -/
theorem H264_SEI_GetTotalDataLen_SEI_spec (b : List Byte) (len hl ucl : Int)
    (hlen : (b.length : Int) ≤ 2147483647)
    (hhead : H264_SEI_GetHeadLen (some b) len 0 = .ok (hl, ucl))
    (hfit : 16 < ucl → hl + ucl + 1 ≤ 2147483647) :
    (H264_CheckSEI_Inside (some b) len = .ok true → 16 < ucl →
        H264_SEI_GetTotalDataLen_SEI (some b) len = .ok (hl + ucl + 1)) ∧
    (H264_SEI_GetTotalDataLen_SEI (some b) len = .ok (-1) ↔
        (H264_CheckSEI_Inside (some b) len = .ok false ∨ ucl ≤ 16)) := by
  obtain ⟨c, hc⟩ := H264_SEI_GetHeadLen_ok_check _ _ _ _ _ hhead
  cases c with
  | false =>
    constructor
    · intro h; rw [hc] at h; cases h
    · simp [H264_SEI_GetTotalDataLen_SEI, hc]
  | true =>
    have hb := H264_SEI_GetHeadLen_ok_true b len 0 hl ucl hc hlen hhead
    have h7 : hl ≥ 4 + 1 + 1 + 1 := by omega
    by_cases hu : 16 < ucl
    · have hfit' := hfit hu
      have hv : int32 (hl + ucl + 1) = hl + ucl + 1 := by
        rw [int32_eq_self] <;> omega
      have ht : H264_SEI_GetTotalDataLen_SEI (some b) len = .ok (hl + ucl + 1) := by
        rw [H264_SEI_GetTotalDataLen_SEI_eq _ _ _ _ hc hhead, if_pos ⟨h7, hu⟩, hv]
      refine ⟨fun _ _ => ht, ?_⟩
      rw [ht, hc]
      constructor
      · intro h
        injection h with h
        omega
      · intro h
        rcases h with h | h
        · cases h
        · omega
    · have ht : H264_SEI_GetTotalDataLen_SEI (some b) len = .ok (-1) := by
        rw [H264_SEI_GetTotalDataLen_SEI_eq _ _ _ _ hc hhead, if_neg (fun h => hu h.2)]
      refine ⟨fun _ h => absurd h hu, ?_⟩
      rw [ht]
      constructor
      · intro _; right; omega
      · intro _; rfl

/-- C3 at the buffer `00 00 00 01 06 05 11`, seventeen bytes `07`, `80`: header length 7,
content length 17, total length 25. -/
theorem H264_SEI_GetTotalDataLen_SEI_spec_witness :
    H264_SEI_GetHeadLen (some ([0, 0, 0, 1, 6, 5, 0x11] ++ List.replicate 17 7 ++ [0x80])) 25 0
      = .ok (7, 17) ∧
    H264_SEI_GetTotalDataLen_SEI
      (some ([0, 0, 0, 1, 6, 5, 0x11] ++ List.replicate 17 7 ++ [0x80])) 25 = .ok 25 :=
  ⟨by decide,
   (H264_SEI_GetTotalDataLen_SEI_spec ([0, 0, 0, 1, 6, 5, 0x11] ++ List.replicate 17 7 ++ [0x80])
      25 7 17 (by decide) (by decide) (by decide)).1 (by decide) (by decide)⟩

/-! ## The length decode past the end of the buffer -/

/-- The loop on a buffer that ends in `k` bytes `0xFF`: after them it reads the byte just
past the end of the buffer. -/
theorem H264_SEI_GetHeadLen_loop_overrun :
    ∀ (k fuel : Nat) (pre : List Byte) (total_len byte_cnt : Int),
      k < fuel → (pre.length : Int) = 6 + byte_cnt → 0 ≤ byte_cnt →
      (pre.length : Int) + k < 2147483648 →
      H264_SEI_GetHeadLen_loop (some (pre ++ List.replicate k 255)) fuel total_len byte_cnt
        = .error (.oob ((pre.length : Int) + k)) := by
  intro k
  induction k with
  | zero =>
    intro fuel pre total_len byte_cnt hf hpre hbc hlt
    obtain ⟨f, rfl⟩ : ∃ f, fuel = f + 1 := ⟨fuel - 1, by omega⟩
    have hidx : int32 (4 + 1 + 1 + byte_cnt) = (pre.length : Int) := by
      rw [int32_eq_self] <;> omega
    simp only [List.replicate_zero, List.append_nil, H264_SEI_GetHeadLen_loop, hidx,
      rd_ge pre _ (le_refl _)]
    simp
  | succ k ih =>
    intro fuel pre total_len byte_cnt hf hpre hbc hlt
    obtain ⟨f, rfl⟩ : ∃ f, fuel = f + 1 := ⟨fuel - 1, by omega⟩
    have hidx : int32 (4 + 1 + 1 + byte_cnt) = (pre.length : Int) := by
      rw [int32_eq_self] <;> omega
    have hbc1 : int32 (byte_cnt + 1) = byte_cnt + 1 := by
      rw [int32_eq_self] <;> omega
    have hlist : pre ++ List.replicate (k + 1) (255 : Byte)
        = pre ++ (255 : Byte) :: List.replicate k 255 := by
      simp [List.replicate_succ]
    have hlist2 : pre ++ (255 : Byte) :: List.replicate k 255
        = (pre ++ [255]) ++ List.replicate k 255 := by
      simp
    rw [hlist]
    simp only [H264_SEI_GetHeadLen_loop, rd_append_cons pre _ 255 _ hidx, byte_land, hbc1]
    have h255 : (((255 : Byte).val : Nat) : Int) = 255 := rfl
    have hih := ih f (pre ++ [255]) (int32 (total_len + 255)) (byte_cnt + 1) (by omega)
      (by simp; omega) (by omega) (by simp; omega)
    rw [h255, if_neg (by simp), hlist2, hih]
    simp
    ring

/-- On every buffer that passes the check and holds nothing but bytes `0xFF` from offset 6
on (none at all included), `H264_SEI_GetHeadLen` reads the byte at offset `6 + k`, the
first one past the end of the buffer. -/
theorem H264_SEI_GetHeadLen_overrun (pre : List Byte) (k : Nat) (len ucl0 : Int)
    (hpre : pre.length = 6)
    (hchk : H264_CheckSEI_Inside (some (pre ++ List.replicate k 255)) len = .ok true)
    (hlen : ((pre ++ List.replicate k 255).length : Int) ≤ 2147483647) :
    H264_SEI_GetHeadLen (some (pre ++ List.replicate k 255)) len ucl0
      = .error (.oob (6 + (k : Int))) := by
  have hl : (pre ++ List.replicate k (255 : Byte)).length = 6 + k := by simp [hpre]
  rw [hl] at hlen
  have hrun := H264_SEI_GetHeadLen_loop_overrun k
    (bufLen (some (pre ++ List.replicate k 255)) + 1) pre 0 0
    (by simp only [bufLen, hl]; omega) (by simp [hpre]) (by omega)
    (by rw [hpre]; push_cast at hlen ⊢; omega)
  unfold H264_SEI_GetHeadLen
  rw [hchk]
  simp only [hrun, hpre]
  rfl

/-- C4, the code at the failing inputs: on the 6-byte buffer `00 00 00 01 06 05` with
`len = 6` and on the 8-byte buffer `00 00 00 01 06 05 FF FF` with `len = 8` the check
passes and `H264_SEI_GetHeadLen` does not return a negative value: it reads the byte at
offset `len`, outside the buffer. -/
theorem H264_SEI_GetHeadLen_overrun_eval :
    H264_CheckSEI_Inside (some [0, 0, 0, 1, 6, 5]) 6 = .ok true ∧
    H264_SEI_GetHeadLen (some [0, 0, 0, 1, 6, 5]) 6 0 = .error (.oob 6) ∧
    H264_CheckSEI_Inside (some [0, 0, 0, 1, 6, 5, 0xFF, 0xFF]) 8 = .ok true ∧
    H264_SEI_GetHeadLen (some [0, 0, 0, 1, 6, 5, 0xFF, 0xFF]) 8 0 = .error (.oob 8) := by
  decide

/-! ## The UUID and the user content -/

/-- The copy loop inside the buffer: it appends the `cnt` bytes that start at
`offset + i`. -/
theorem copyLoop_ok (b : List Byte) (offset : Int) (hlen : (b.length : Int) ≤ 2147483647)
    (hoff : 0 ≤ offset) :
    ∀ (cnt : Nat) (i : Int) (re_vec : List Byte), 0 ≤ i →
      offset + i + cnt ≤ (b.length : Int) →
      copyLoop (some b) offset cnt i re_vec
        = .ok (re_vec ++ (b.drop (offset + i).toNat).take cnt) := by
  intro cnt
  induction cnt with
  | zero => intro i re_vec _ _; simp [copyLoop]
  | succ n ih =>
    intro i re_vec hi hb
    push_cast at hb
    have hm : ((offset + i).toNat : Int) = offset + i := Int.toNat_of_nonneg (by omega)
    have hlt : (offset + i).toNat < b.length := by omega
    have hidx : int32 (offset + i) = ((offset + i).toNat : Int) := by
      rw [int32_eq_self] <;> omega
    have hi1 : int32 (i + 1) = i + 1 := by
      rw [int32_eq_self] <;> omega
    have hnext : (offset + (i + 1)).toNat = (offset + i).toNat + 1 := by omega
    simp only [copyLoop, hidx, rd_lt b _ hlt, hi1]
    rw [ih (i + 1) _ (by omega) (by omega), hnext, List.drop_eq_getElem_cons hlt,
      List.take_succ_cons, List.append_assoc]
    rfl

/-- A copy loop that returns has appended exactly `cnt` bytes. -/
theorem copyLoop_length (pdat : Option (List Byte)) (offset : Int) :
    ∀ (cnt : Nat) (i : Int) (re_vec r : List Byte),
      copyLoop pdat offset cnt i re_vec = .ok r → r.length = re_vec.length + cnt := by
  intro cnt
  induction cnt with
  | zero =>
    intro i re_vec r h
    simp only [copyLoop] at h
    injection h with h
    subst h
    rfl
  | succ n ih =>
    intro i re_vec r h
    unfold copyLoop at h
    cases hrd : rd pdat (int32 (offset + i)) with
    | error e => rw [hrd] at h; cases h
    | ok x =>
      rw [hrd] at h
      have := ih _ _ _ h
      simp at this
      omega

/-- After a passed check, on a buffer that holds sixteen bytes from `head_len` on,
`H264_SEI_GetUUID` returns those sixteen bytes. -/
theorem H264_SEI_GetUUID_ok (b : List Byte) (len hl ucl : Int)
    (hlen : (b.length : Int) ≤ 2147483647)
    (hhead : H264_SEI_GetHeadLen (some b) len 0 = .ok (hl, ucl))
    (hc : H264_CheckSEI_Inside (some b) len = .ok true)
    (hfit : hl + 16 ≤ (b.length : Int)) :
    H264_SEI_GetUUID (some b) len = .ok ((b.drop hl.toNat).take 16) := by
  have hb := H264_SEI_GetHeadLen_ok_true b len 0 hl ucl hc hlen hhead
  have hcopy := copyLoop_ok b hl hlen (by omega) 16 0 [] (by omega)
    (by push_cast; omega)
  unfold H264_SEI_GetUUID
  simp only [hhead]
  rw [if_neg (by omega), hcopy]
  simp

/-- C5, the code at the failing input: on the buffer `00 00 00 01 06 05 05` followed by the
sixteen bytes `10 .. 1F` the check passes and `uuid_content_len` is 5, so that the SEI
payload ends five bytes after offset 7.  `H264_SEI_GetContent`, `H264_SEI_GetContentLen`
and `H264_SEI_GetTotalDataLen_SEI` report the failure (empty vector, -1, -1), while
`H264_SEI_GetUUID` returns the sixteen bytes from offset 7, eleven of them past the end of
the payload, and not the empty vector. -/
theorem H264_SEI_GetUUID_short_content_eval :
    H264_CheckSEI_Inside (some [0, 0, 0, 1, 6, 5, 5, 0x10, 0x11, 0x12, 0x13, 0x14, 0x15, 0x16,
        0x17, 0x18, 0x19, 0x1A, 0x1B, 0x1C, 0x1D, 0x1E, 0x1F]) 23 = .ok true ∧
    H264_SEI_GetHeadLen (some [0, 0, 0, 1, 6, 5, 5, 0x10, 0x11, 0x12, 0x13, 0x14, 0x15, 0x16,
        0x17, 0x18, 0x19, 0x1A, 0x1B, 0x1C, 0x1D, 0x1E, 0x1F]) 23 0 = .ok (7, 5) ∧
    H264_SEI_GetContent (some [0, 0, 0, 1, 6, 5, 5, 0x10, 0x11, 0x12, 0x13, 0x14, 0x15, 0x16,
        0x17, 0x18, 0x19, 0x1A, 0x1B, 0x1C, 0x1D, 0x1E, 0x1F]) 23 = .ok [] ∧
    H264_SEI_GetContentLen (some [0, 0, 0, 1, 6, 5, 5, 0x10, 0x11, 0x12, 0x13, 0x14, 0x15, 0x16,
        0x17, 0x18, 0x19, 0x1A, 0x1B, 0x1C, 0x1D, 0x1E, 0x1F]) 23 = .ok (-1) ∧
    H264_SEI_GetTotalDataLen_SEI (some [0, 0, 0, 1, 6, 5, 5, 0x10, 0x11, 0x12, 0x13, 0x14, 0x15, 0x16,
        0x17, 0x18, 0x19, 0x1A, 0x1B, 0x1C, 0x1D, 0x1E, 0x1F]) 23 = .ok (-1) ∧
    H264_SEI_GetUUID (some [0, 0, 0, 1, 6, 5, 5, 0x10, 0x11, 0x12, 0x13, 0x14, 0x15, 0x16,
        0x17, 0x18, 0x19, 0x1A, 0x1B, 0x1C, 0x1D, 0x1E, 0x1F]) 23
      = .ok [0x10, 0x11, 0x12, 0x13, 0x14, 0x15, 0x16, 0x17, 0x18, 0x19, 0x1A, 0x1B, 0x1C,
          0x1D, 0x1E, 0x1F] ∧
    H264_SEI_GetUUID (some [0, 0, 0, 1, 6, 5, 5, 0x10, 0x11, 0x12, 0x13, 0x14, 0x15, 0x16,
        0x17, 0x18, 0x19, 0x1A, 0x1B, 0x1C, 0x1D, 0x1E, 0x1F]) 23 ≠ .ok [] := by
  decide

/-- What `H264_SEI_GetUUID` does on every buffer (of a length that fits in an `int`) on
which the length decode produces `head_len` and `uuid_content_len`: when the check is true
and the buffer holds at least `head_len + 16` bytes, it returns exactly the 16 bytes
`b[head_len .. head_len + 16)`, and `uuid_content_len` plays no part in that; when the
check is false it returns the empty vector; and a vector it returns never has a length
other than 0 or 16. -/
theorem H264_SEI_GetUUID_spec (b : List Byte) (len hl ucl : Int)
    (hlen : (b.length : Int) ≤ 2147483647)
    (hhead : H264_SEI_GetHeadLen (some b) len 0 = .ok (hl, ucl)) :
    (H264_CheckSEI_Inside (some b) len = .ok true → hl + 16 ≤ (b.length : Int) →
        H264_SEI_GetUUID (some b) len = .ok ((b.drop hl.toNat).take 16) ∧
        ((b.drop hl.toNat).take 16).length = 16) ∧
    (H264_CheckSEI_Inside (some b) len = .ok false → H264_SEI_GetUUID (some b) len = .ok []) ∧
    (∀ r, H264_SEI_GetUUID (some b) len = .ok r → r.length = 0 ∨ r.length = 16) := by
  refine ⟨?_, ?_, ?_⟩
  · intro hc hfit
    have hb := H264_SEI_GetHeadLen_ok_true b len 0 hl ucl hc hlen hhead
    constructor
    · exact H264_SEI_GetUUID_ok b len hl ucl hlen hhead hc hfit
    · rw [List.length_take, List.length_drop]
      omega
  · intro hc
    rw [H264_SEI_GetHeadLen_false _ _ _ hc] at hhead
    unfold H264_SEI_GetUUID
    rw [H264_SEI_GetHeadLen_false _ _ _ hc]
    simp
  · intro r hr
    unfold H264_SEI_GetUUID at hr
    simp only [hhead] at hr
    split at hr
    · injection hr with hr
      left; rw [← hr]; rfl
    · right
      have := copyLoop_length _ _ _ _ _ _ hr
      simpa using this

/-- `H264_SEI_GetUUID` at the buffer `00 00 00 01 06 05 11`, sixteen bytes `10 .. 1F`,
`41`, `80`: the sixteen bytes from offset 7 come back. -/
theorem H264_SEI_GetUUID_spec_witness :
    H264_SEI_GetUUID (some [0, 0, 0, 1, 6, 5, 0x11, 0x10, 0x11, 0x12, 0x13, 0x14, 0x15, 0x16,
        0x17, 0x18, 0x19, 0x1A, 0x1B, 0x1C, 0x1D, 0x1E, 0x1F, 0x41, 0x80]) 25
      = .ok (([0, 0, 0, 1, 6, 5, 0x11, 0x10, 0x11, 0x12, 0x13, 0x14, 0x15, 0x16,
        0x17, 0x18, 0x19, 0x1A, 0x1B, 0x1C, 0x1D, 0x1E, 0x1F, 0x41, 0x80].drop
          (7 : Int).toNat).take 16) :=
  ((H264_SEI_GetUUID_spec [0, 0, 0, 1, 6, 5, 0x11, 0x10, 0x11, 0x12, 0x13, 0x14, 0x15, 0x16,
        0x17, 0x18, 0x19, 0x1A, 0x1B, 0x1C, 0x1D, 0x1E, 0x1F, 0x41, 0x80] 25 7 17
      (by decide) (by decide)).1 (by decide) (by decide)).1

/-- C6: on every buffer on which the length decode produces `head_len` and
`uuid_content_len`: when the check is true, `uuid_content_len > 16` and
`head_len + uuid_content_len <= len`, `H264_SEI_GetContent` returns exactly the
`uuid_content_len - 16` bytes `b[head_len + 16 .. head_len + uuid_content_len)` and
`H264_SEI_GetContentLen` returns that length; when the check is false or
`uuid_content_len <= 16`, `H264_SEI_GetContent` returns the empty vector and
`H264_SEI_GetContentLen` returns -1. -/
theorem H264_SEI_GetContent_spec (b : List Byte) (len hl ucl : Int)
    (hlenb : len ≤ (b.length : Int)) (hlen : (b.length : Int) ≤ 2147483647)
    (hhead : H264_SEI_GetHeadLen (some b) len 0 = .ok (hl, ucl)) :
    (H264_CheckSEI_Inside (some b) len = .ok true → 16 < ucl → hl + ucl ≤ len →
        H264_SEI_GetContent (some b) len
          = .ok ((b.drop (hl + 16).toNat).take (ucl - 16).toNat) ∧
        (((b.drop (hl + 16).toNat).take (ucl - 16).toNat).length : Int) = ucl - 16 ∧
        H264_SEI_GetContentLen (some b) len = .ok (ucl - 16)) ∧
    ((H264_CheckSEI_Inside (some b) len = .ok false ∨ ucl ≤ 16) →
        H264_SEI_GetContent (some b) len = .ok [] ∧
        H264_SEI_GetContentLen (some b) len = .ok (-1)) := by
  constructor
  · intro hc hu hfit
    have hb := H264_SEI_GetHeadLen_ok_true b len 0 hl ucl hc hlen hhead
    have ho : int32 (hl + 16) = hl + 16 := by rw [int32_eq_self] <;> omega
    have hn : int32 (ucl - 16) = ucl - 16 := by rw [int32_eq_self] <;> omega
    have hcopy := copyLoop_ok b (hl + 16) hlen (by omega) (ucl - 16).toNat 0 [] (by omega)
      (by rw [Int.toNat_of_nonneg (by omega)]; omega)
    refine ⟨?_, ?_, ?_⟩
    · unfold H264_SEI_GetContent
      simp only [hhead]
      rw [if_neg (by omega), if_neg (by omega), ho, hn, hcopy]
      simp
    · rw [List.length_take, List.length_drop]
      omega
    · unfold H264_SEI_GetContentLen
      simp only [hhead]
      rw [if_pos ⟨by omega, hu⟩, hn]
  · intro h
    have hu : ucl ≤ 16 := by
      rcases h with hc | hu
      · rw [H264_SEI_GetHeadLen_false _ _ _ hc] at hhead
        injection hhead with hhead
        have := (Prod.mk.inj hhead).2
        omega
      · exact hu
    constructor
    · unfold H264_SEI_GetContent
      simp only [hhead]
      split <;> rfl
    · unfold H264_SEI_GetContentLen
      simp only [hhead]
      rw [if_neg (by omega)]

/-- C6 at the buffer `00 00 00 01 06 05 13`, sixteen bytes `10 .. 1F`, `41 42 43`, `80`:
the content is `41 42 43` and the content length is 3. -/
theorem H264_SEI_GetContent_spec_witness :
    H264_SEI_GetContent (some [0, 0, 0, 1, 6, 5, 0x13, 0x10, 0x11, 0x12, 0x13, 0x14, 0x15,
        0x16, 0x17, 0x18, 0x19, 0x1A, 0x1B, 0x1C, 0x1D, 0x1E, 0x1F, 0x41, 0x42, 0x43, 0x80]) 27
      = .ok [0x41, 0x42, 0x43] ∧
    H264_SEI_GetContentLen (some [0, 0, 0, 1, 6, 5, 0x13, 0x10, 0x11, 0x12, 0x13, 0x14, 0x15,
        0x16, 0x17, 0x18, 0x19, 0x1A, 0x1B, 0x1C, 0x1D, 0x1E, 0x1F, 0x41, 0x42, 0x43, 0x80]) 27
      = .ok 3 :=
  have h := (H264_SEI_GetContent_spec [0, 0, 0, 1, 6, 5, 0x13, 0x10, 0x11, 0x12, 0x13, 0x14,
        0x15, 0x16, 0x17, 0x18, 0x19, 0x1A, 0x1B, 0x1C, 0x1D, 0x1E, 0x1F, 0x41, 0x42, 0x43,
        0x80] 27 7 19 (by decide) (by decide) (by decide)).1 (by decide) (by decide)
      (by decide)
  ⟨h.1, h.2.2⟩

/-! ## The start-code rewrites of the per-file loop -/

/-- Writing the start code at offset 0 of a buffer of at least four bytes. -/
theorem memcpy_dst_zero (b : List Byte) (h : 4 ≤ b.length) :
    memcpy_dst (some b) 0 startcode = .ok (startcode ++ b.drop 4) := by
  have h1 : ¬ b.length < 0 + startcode.length := by
    simp [startcode]; omega
  simp [memcpy_dst, startcode]
  omega

/-- C7: for every access-unit buffer `b` of size `pkt.size`, if the size is at least 4 the
leading rewrite yields a buffer of the same size whose bytes 0..3 are `00 00 00 01` and
whose bytes at every offset from 4 on are those of `b`; if the size is below 4 nothing is
rewritten and the loop ends. -/
theorem main_replace_startcode_spec (pkt : AVPacket) (b : List Byte)
    (hd : pkt.data = some b) (hs : pkt.size = (b.length : Int))
    (hr : pkt.size ≤ 2147483647) :
    (4 ≤ pkt.size → ∃ b2, main_replace_startcode pkt = .ok (some { pkt with data := some b2 }) ∧
        b2.length = b.length ∧ b2.take 4 = [0x00, 0x00, 0x00, 0x01] ∧
        ∀ i, 4 ≤ i → b2[i]? = b[i]?) ∧
    (pkt.size < 4 → main_replace_startcode pkt = .ok none) := by
  have hmod : pkt.size % 18446744073709551616 = pkt.size := by
    apply Int.emod_eq_of_lt <;> omega
  constructor
  · intro h4
    have h4b : 4 ≤ b.length := by omega
    refine ⟨startcode ++ b.drop 4, ?_, ?_, ?_, ?_⟩
    · unfold main_replace_startcode
      rw [hmod, if_neg (by simp [startcode]; omega), hd, memcpy_dst_zero b h4b]
    · simp [startcode]; omega
    · simp [startcode]
    · intro i hi
      rw [List.getElem?_append_right (by simp [startcode]; omega), List.getElem?_drop]
      congr 1
      simp [startcode]; omega
  · intro h4
    unfold main_replace_startcode
    rw [hmod, if_pos (by simp [startcode]; omega)]

/-- C7 at the 6-byte access unit `00 00 00 02 09 F0`. -/
theorem main_replace_startcode_spec_witness :
    ∃ b2, main_replace_startcode ⟨some [0, 0, 0, 2, 9, 0xF0], 6, 1, 0⟩
        = .ok (some { (⟨some [0, 0, 0, 2, 9, 0xF0], 6, 1, 0⟩ : AVPacket) with data := some b2 }) ∧
      b2.length = ([0, 0, 0, 2, 9, 0xF0] : List Byte).length ∧
      b2.take 4 = [0x00, 0x00, 0x00, 0x01] ∧
      ∀ i, 4 ≤ i → b2[i]? = ([0, 0, 0, 2, 9, 0xF0] : List Byte)[i]? :=
  (main_replace_startcode_spec ⟨some [0, 0, 0, 2, 9, 0xF0], 6, 1, 0⟩ [0, 0, 0, 2, 9, 0xF0]
    rfl (by decide) (by decide)).1 (by decide)

/-- A packet without a SEI header passes the SEI step unchanged. -/
theorem main_patch_sei_no_sei (pkt : AVPacket)
    (h : H264_CheckSEI_Inside pkt.data pkt.size = .ok false) :
    main_patch_sei pkt = .ok pkt := by
  simp [main_patch_sei, h]

/-- The write of `memcpy_dst` inside the buffer: same length, the source at the offset,
every other byte unchanged. -/
theorem memcpy_dst_ok (b src : List Byte) (off : Int) (h0 : 0 ≤ off)
    (h : off.toNat + src.length ≤ b.length) :
    memcpy_dst (some b) off src
      = .ok (b.take off.toNat ++ src ++ b.drop (off.toNat + src.length)) := by
  unfold memcpy_dst
  simp only
  rw [if_neg (by omega), if_neg (by omega)]

/-- The SEI step when the four bytes after the SEI segment lie inside the buffer: the
start code is written at offsets `t .. t+3`, where `t = head_len + uuid_content_len + 1`,
and nothing else changes. -/
theorem main_patch_sei_in_bounds (pkt : AVPacket) (b : List Byte) (hl ucl : Int)
    (hd : pkt.data = some b) (hs : pkt.size = (b.length : Int))
    (hr : pkt.size ≤ 2147483647)
    (hc : H264_CheckSEI_Inside (some b) pkt.size = .ok true)
    (hhead : H264_SEI_GetHeadLen (some b) pkt.size 0 = .ok (hl, ucl))
    (hu : 16 < ucl) (hfit : hl + ucl + 1 + 4 ≤ pkt.size) :
    main_patch_sei pkt
      = .ok { pkt with data := some (b.take (hl + ucl + 1).toNat ++ startcode
                ++ b.drop ((hl + ucl + 1).toNat + 4)) } := by
  have hlen : (b.length : Int) ≤ 2147483647 := by omega
  have hb := H264_SEI_GetHeadLen_ok_true b pkt.size 0 hl ucl hc hlen hhead
  have huuid := H264_SEI_GetUUID_ok b pkt.size hl ucl hlen hhead hc (by omega)
  have htot : H264_SEI_GetTotalDataLen_SEI (some b) pkt.size = .ok (hl + ucl + 1) := by
    rw [H264_SEI_GetTotalDataLen_SEI_eq _ _ _ _ hc hhead, if_pos ⟨by omega, hu⟩,
      int32_eq_self] <;> omega
  have hm := memcpy_dst_ok b startcode (hl + ucl + 1) (by omega)
    (by simp only [startcode, List.length_cons, List.length_nil]; omega)
  unfold main_patch_sei
  rw [hd]
  simp only [hc, huuid, htot]
  rw [if_pos (by omega), hm]
  rfl

/-- C8, the code at the failing input: the 24-byte access unit
`00 00 00 14 06 05 FF 01` followed by the sixteen bytes `10 .. 1F` keeps its size in the
leading rewrite; then the check passes, the UUID is read, `H264_SEI_GetTotalDataLen_SEI`
returns 265 > 0, and the start code is written at offsets 265..268 of a buffer of 24
bytes. -/
theorem main_patch_sei_overrun_eval :
    main_replace_startcode ⟨some [0, 0, 0, 0x14, 6, 5, 0xFF, 1, 0x10, 0x11, 0x12, 0x13, 0x14,
        0x15, 0x16, 0x17, 0x18, 0x19, 0x1A, 0x1B, 0x1C, 0x1D, 0x1E, 0x1F], 24, 1, 0⟩
      = .ok (some ⟨some [0, 0, 0, 1, 6, 5, 0xFF, 1, 0x10, 0x11, 0x12, 0x13, 0x14,
        0x15, 0x16, 0x17, 0x18, 0x19, 0x1A, 0x1B, 0x1C, 0x1D, 0x1E, 0x1F], 24, 1, 0⟩) ∧
    H264_CheckSEI_Inside (some [0, 0, 0, 1, 6, 5, 0xFF, 1, 0x10, 0x11, 0x12, 0x13, 0x14,
        0x15, 0x16, 0x17, 0x18, 0x19, 0x1A, 0x1B, 0x1C, 0x1D, 0x1E, 0x1F]) 24 = .ok true ∧
    H264_SEI_GetTotalDataLen_SEI (some [0, 0, 0, 1, 6, 5, 0xFF, 1, 0x10, 0x11, 0x12, 0x13, 0x14,
        0x15, 0x16, 0x17, 0x18, 0x19, 0x1A, 0x1B, 0x1C, 0x1D, 0x1E, 0x1F]) 24 = .ok 265 ∧
    main_patch_sei ⟨some [0, 0, 0, 1, 6, 5, 0xFF, 1, 0x10, 0x11, 0x12, 0x13, 0x14,
        0x15, 0x16, 0x17, 0x18, 0x19, 0x1A, 0x1B, 0x1C, 0x1D, 0x1E, 0x1F], 24, 1, 0⟩
      = .error (.oob 265) := by
  decide

/-! ## The SPS and the PPS of the extradata -/

/-- The two-byte combination of `FFMpeg_OpenVideo` never leaves the range of `int`. -/
theorem int32_len_bytes (x y : Byte) :
    int32 ((x.val : Int) * 0xFF + (y.val : Int)) = (x.val : Int) * 255 + (y.val : Int) ∧
    0 ≤ (x.val : Int) * 255 + (y.val : Int) ∧
    (x.val : Int) * 255 + (y.val : Int) ≤ 65280 := by
  have hx := x.isLt
  have hy := y.isLt
  refine ⟨?_, by omega, by omega⟩
  rw [int32_eq_self] <;> omega

/-- What the code computes as SPS length: byte 6 times 255 plus byte 7. -/
theorem FFMpeg_OpenVideo_sps_len_eq (e : List Byte) (n : Int)
    (h : FFMpeg_OpenVideo_sps_len (some e) = .ok n) :
    ∃ e6 e7 : Byte, e[6]? = some e6 ∧ e[7]? = some e7 ∧
      n = (e6.val : Int) * 255 + (e7.val : Int) := by
  unfold FFMpeg_OpenVideo_sps_len at h
  cases h6 : rd (some e) 6 with
  | error x => rw [h6] at h; cases h
  | ok e6 =>
    rw [h6] at h
    cases h7 : rd (some e) 7 with
    | error x => rw [h7] at h; cases h
    | ok e7 =>
      rw [h7] at h
      injection h with h
      have b6 := rd_ok_bound e 6 e6 h6
      have b7 := rd_ok_bound e 7 e7 h7
      have l6 : 6 < e.length := by omega
      have l7 : 7 < e.length := by omega
      have g6 := rd_lt e 6 l6
      have g7 := rd_lt e 7 l7
      rw [show ((6 : Nat) : Int) = 6 from rfl, h6] at g6
      rw [show ((7 : Nat) : Int) = 7 from rfl, h7] at g7
      injection g6 with g6
      injection g7 with g7
      refine ⟨e6, e7, ?_, ?_, ?_⟩
      · rw [List.getElem?_eq_getElem l6, g6]; rfl
      · rw [List.getElem?_eq_getElem l7, g7]; rfl
      · rw [← h, (int32_len_bytes e6 e7).1]

/-- The lengths that the code decodes lie between 0 and 65280. -/
theorem FFMpeg_OpenVideo_sps_len_range (e : List Byte) (n : Int)
    (h : FFMpeg_OpenVideo_sps_len (some e) = .ok n) : 0 ≤ n ∧ n ≤ 65280 := by
  obtain ⟨e6, e7, _, _, rfl⟩ := FFMpeg_OpenVideo_sps_len_eq e n h
  exact (int32_len_bytes e6 e7).2

theorem FFMpeg_OpenVideo_pps_len_range (e : List Byte) (sps_len n : Int)
    (h : FFMpeg_OpenVideo_pps_len (some e) sps_len = .ok n) : 0 ≤ n ∧ n ≤ 65280 := by
  unfold FFMpeg_OpenVideo_pps_len at h
  cases h1 : rd (some e) (int32 (8 + sps_len + 1)) with
  | error x => rw [h1] at h; cases h
  | ok p1 =>
    rw [h1] at h
    cases h2 : rd (some e) (int32 (8 + sps_len + 2)) with
    | error x => rw [h2] at h; cases h
    | ok p2 =>
      rw [h2] at h
      injection h with h
      rw [← h, (int32_len_bytes p1 p2).1]
      exact (int32_len_bytes p1 p2).2

set_option maxRecDepth 20000 in
/-- C9, the code at the failing inputs.  On the extradata
`01 64 00 1F FF E1 01 00`, 256 bytes `67`, `01 00 04 68 EE 3C 80` (SPS length bytes
`01 00`) the code computes the SPS length 255, not 1 * 256 + 0 = 256, and the extraction
then reads past the end of the blob.  On the extradata `01 64 00 1F FF E1 00 01 67 01 01 00`,
256 bytes `68` (PPS length bytes `01 00`) it computes the SPS length 1 and the PPS length
255, not 256. -/
theorem FFMpeg_OpenVideo_len_eval :
    FFMpeg_OpenVideo_sps_len
        (some ([1, 0x64, 0, 0x1F, 0xFF, 0xE1, 0x01, 0x00] ++ List.replicate 256 0x67
          ++ [0x01, 0x00, 0x04, 0x68, 0xEE, 0x3C, 0x80])) = .ok 255 ∧
    (255 : Int) ≠ 0x01 * 256 + 0x00 ∧
    FFMpeg_OpenVideo_sps_pps
        (some ([1, 0x64, 0, 0x1F, 0xFF, 0xE1, 0x01, 0x00] ++ List.replicate 256 0x67
          ++ [0x01, 0x00, 0x04, 0x68, 0xEE, 0x3C, 0x80])) = .error (.oob 271) ∧
    FFMpeg_OpenVideo_sps_len
        (some ([1, 0x64, 0, 0x1F, 0xFF, 0xE1, 0x00, 0x01, 0x67, 0x01, 0x01, 0x00]
          ++ List.replicate 256 0x68)) = .ok 1 ∧
    FFMpeg_OpenVideo_pps_len
        (some ([1, 0x64, 0, 0x1F, 0xFF, 0xE1, 0x00, 0x01, 0x67, 0x01, 0x01, 0x00]
          ++ List.replicate 256 0x68)) 1 = .ok 255 := by
  decide

/-- Reading `n` bytes at offset `off` of a buffer that holds them. -/
theorem memcpy_src_ok (e : List Byte) (off n : Int) (h0 : 0 ≤ off)
    (h : off.toNat + n.toNat ≤ e.length) :
    memcpy_src (some e) off n = .ok ((e.drop off.toNat).take n.toNat) := by
  unfold memcpy_src
  simp only
  rw [if_neg (by omega), if_neg (by omega)]

/-- C10: for every extradata blob `e` that is long enough for the lengths the code decodes
(`8 + sps_len + 3 + pps_len <= |e|`), the extraction returns the SPS `e[8 .. 8+sps_len)`
and the PPS `e[8+sps_len+3 .. 8+sps_len+3+pps_len)`, the lengths of the two payloads are
the decoded lengths, and `e[0..8) ++ SPS ++ e[8+sps_len .. 8+sps_len+3) ++ PPS` is the
prefix of `e` of length `8 + sps_len + 3 + pps_len`. -/
theorem FFMpeg_OpenVideo_sps_pps_spec (e : List Byte) (sps_len pps_len : Int)
    (hs : FFMpeg_OpenVideo_sps_len (some e) = .ok sps_len)
    (hp : FFMpeg_OpenVideo_pps_len (some e) sps_len = .ok pps_len)
    (hfit : 8 + sps_len + 3 + pps_len ≤ (e.length : Int)) :
    ∃ ctx, FFMpeg_OpenVideo_sps_pps (some e) = .ok ctx ∧
      ctx.sps_len = sps_len ∧ ctx.pps_len = pps_len ∧
      ctx.sps_dat = (e.drop 8).take sps_len.toNat ∧
      ctx.pps_dat = (e.drop (8 + sps_len.toNat + 3)).take pps_len.toNat ∧
      (ctx.sps_dat.length : Int) = sps_len ∧ (ctx.pps_dat.length : Int) = pps_len ∧
      e.take 8 ++ ctx.sps_dat ++ (e.drop (8 + sps_len.toNat)).take 3 ++ ctx.pps_dat
        = e.take (8 + sps_len.toNat + 3 + pps_len.toNat) := by
  have rs := FFMpeg_OpenVideo_sps_len_range e sps_len hs
  have rp := FFMpeg_OpenVideo_pps_len_range e sps_len pps_len hp
  have hoff : int32 (8 + 2 + 1 + sps_len) = 8 + 2 + 1 + sps_len := by
    rw [int32_eq_self] <;> omega
  have hofn : (8 + 2 + 1 + sps_len).toNat = 8 + sps_len.toNat + 3 := by omega
  have m1 := memcpy_src_ok e 8 sps_len (by omega) (by omega)
  have m2 := memcpy_src_ok e (8 + 2 + 1 + sps_len) pps_len (by omega) (by omega)
  rw [hofn] at m2
  have h8 : (8 : Int).toNat = 8 := rfl
  rw [h8] at m1
  refine ⟨{ sps_dat := (e.drop 8).take sps_len.toNat,
            pps_dat := (e.drop (8 + sps_len.toNat + 3)).take pps_len.toNat,
            sps_len := sps_len, pps_len := pps_len }, ?_, rfl, rfl, rfl, rfl, ?_, ?_, ?_⟩
  · unfold FFMpeg_OpenVideo_sps_pps
    simp only [hs, m1, hp, hoff, m2]
  · simp only [List.length_take, List.length_drop]
    omega
  · simp only [List.length_take, List.length_drop]
    omega
  · simp only
    rw [List.take_add, List.take_add, List.take_add]

/-- C10 at the 18-byte blob `01 64 00 1F FF E1 00 03 67 64 65 01 00 04 68 EE 3C 80`:
the SPS is `67 64 65` and the PPS is `68 EE 3C 80`. -/
theorem FFMpeg_OpenVideo_sps_pps_spec_witness :
    ∃ ctx, FFMpeg_OpenVideo_sps_pps (some [1, 0x64, 0, 0x1F, 0xFF, 0xE1, 0x00, 0x03, 0x67,
          0x64, 0x65, 0x01, 0x00, 0x04, 0x68, 0xEE, 0x3C, 0x80]) = .ok ctx ∧
      ctx.sps_len = 3 ∧ ctx.pps_len = 4 ∧
      ctx.sps_dat = [0x67, 0x64, 0x65] ∧ ctx.pps_dat = [0x68, 0xEE, 0x3C, 0x80] :=
  match FFMpeg_OpenVideo_sps_pps_spec [1, 0x64, 0, 0x1F, 0xFF, 0xE1, 0x00, 0x03, 0x67,
    0x64, 0x65, 0x01, 0x00, 0x04, 0x68, 0xEE, 0x3C, 0x80] 3 4 (by decide) (by decide)
    (by decide) with
  | ⟨ctx, h, h1, h2, h3, h4, _⟩ => ⟨ctx, h, h1, h2, h3, h4⟩

/-! ## No part of the per-file loop runs out of fuel -/

theorem memcpy_dst_ne_fuel (dst : Option (List Byte)) (off : Int) (src : List Byte) :
    memcpy_dst dst off src ≠ .error .fuel := by
  unfold memcpy_dst
  cases dst with
  | none => simp
  | some b =>
    simp only
    split
    · simp
    · split <;> simp

theorem memcpy_src_ne_fuel (src : Option (List Byte)) (off n : Int) :
    memcpy_src src off n ≠ .error .fuel := by
  unfold memcpy_src
  cases src with
  | none => simp
  | some b =>
    simp only
    split
    · simp
    · split <;> simp

theorem copyLoop_ne_fuel (pdat : Option (List Byte)) (offset : Int) :
    ∀ (cnt : Nat) (i : Int) (re_vec : List Byte),
      copyLoop pdat offset cnt i re_vec ≠ .error .fuel := by
  intro cnt
  induction cnt with
  | zero => intro i re_vec; simp [copyLoop]
  | succ n ih =>
    intro i re_vec
    unfold copyLoop
    cases hrd : rd pdat (int32 (offset + i)) with
    | error e =>
      simp only
      intro h; injection h with h; subst h
      exact rd_ne_fuel _ _ hrd
    | ok x => exact ih _ _

theorem H264_SEI_GetUUID_ne_fuel (pdat : Option (List Byte)) (len : Int) :
    H264_SEI_GetUUID pdat len ≠ .error .fuel := by
  unfold H264_SEI_GetUUID
  cases hh : H264_SEI_GetHeadLen pdat len 0 with
  | error e =>
    simp only
    intro h; injection h with h; subst h
    exact H264_SEI_GetHeadLen_fuel _ _ _ hh
  | ok r =>
    obtain ⟨hl, ucl⟩ := r
    simp only
    split
    · simp
    · exact copyLoop_ne_fuel _ _ _ _ _

theorem H264_SEI_GetTotalDataLen_SEI_ne_fuel (pdat : Option (List Byte)) (len : Int) :
    H264_SEI_GetTotalDataLen_SEI pdat len ≠ .error .fuel := by
  unfold H264_SEI_GetTotalDataLen_SEI
  cases hc : H264_CheckSEI_Inside pdat len with
  | error e =>
    simp only
    intro h; injection h with h; subst h
    exact H264_CheckSEI_Inside_ne_fuel _ _ hc
  | ok c =>
    cases c with
    | false => simp
    | true =>
      simp only
      cases hh : H264_SEI_GetHeadLen pdat len 0 with
      | error e =>
        simp only
        intro h; injection h with h; subst h
        exact H264_SEI_GetHeadLen_fuel _ _ _ hh
      | ok r =>
        obtain ⟨hl, ucl⟩ := r
        simp only
        split <;> simp

theorem main_replace_startcode_ne_fuel (pkt : AVPacket) :
    main_replace_startcode pkt ≠ .error .fuel := by
  unfold main_replace_startcode
  split
  · simp
  · cases hm : memcpy_dst pkt.data 0 startcode with
    | error e =>
      simp only
      intro h; injection h with h; subst h
      exact memcpy_dst_ne_fuel _ _ _ hm
    | ok d => simp

theorem main_patch_sei_ne_fuel (pkt : AVPacket) : main_patch_sei pkt ≠ .error .fuel := by
  unfold main_patch_sei
  cases hc : H264_CheckSEI_Inside pkt.data pkt.size with
  | error e =>
    simp only
    intro h; injection h with h; subst h
    exact H264_CheckSEI_Inside_ne_fuel _ _ hc
  | ok c =>
    cases c with
    | false => simp
    | true =>
      simp only
      cases hu : H264_SEI_GetUUID pkt.data pkt.size with
      | error e =>
        simp only
        intro h; injection h with h; subst h
        exact H264_SEI_GetUUID_ne_fuel _ _ hu
      | ok u =>
        simp only
        cases ht : H264_SEI_GetTotalDataLen_SEI pkt.data pkt.size with
        | error e =>
          simp only
          intro h; injection h with h; subst h
          exact H264_SEI_GetTotalDataLen_SEI_ne_fuel _ _ ht
        | ok t =>
          simp only
          split
          · cases hm : memcpy_dst pkt.data t startcode with
            | error e =>
              simp only
              intro h; injection h with h; subst h
              exact memcpy_dst_ne_fuel _ _ _ hm
            | ok d => simp
          · simp

theorem fwrite_ne_fuel (fw : Nat → Nat → Nat) (k : Nat) (ptr : Option (List Byte)) (n : Int) :
    fwrite fw k ptr n ≠ .error .fuel := by
  unfold fwrite
  cases hm : memcpy_src ptr 0 n with
  | error e =>
    simp only
    intro h; injection h with h; subst h
    exact memcpy_src_ne_fuel _ _ _ hm
  | ok b => simp

theorem emit_ne_fuel (evs : List Out) (next : Except Fault FileResult)
    (h : next ≠ .error .fuel) : emit evs next ≠ .error .fuel := by
  unfold emit
  cases next with
  | error e =>
    simp only
    intro h2; injection h2 with h2; subst h2
    exact h rfl
  | ok r => simp

theorem emit_ok (evs : List Out) (next : Except Fault FileResult) (r : FileResult)
    (h : emit evs next = .ok r) :
    ∃ r2, next = .ok r2 ∧ r.ret = r2.ret ∧ r.out = evs ++ r2.out := by
  unfold emit at h
  cases next with
  | error e => cases h
  | ok r2 =>
    simp only at h
    injection h with h
    subst h
    exact ⟨r2, rfl, rfl, rfl⟩

/-! ## The packet filter -/

theorem main_read_packet_cons_accepted (v_idx : Int) (pkt : AVPacket) (rest : List AVPacket)
    (h : accepted v_idx pkt = true) : main_read_packet v_idx (pkt :: rest) = (pkt, rest) := by
  simp only [accepted, decide_eq_true_eq] at h
  obtain ⟨h1, h2, h3⟩ := h
  simp [main_read_packet, h1, h2, h3]

theorem main_read_packet_cons_dropped (v_idx : Int) (pkt : AVPacket) (rest : List AVPacket)
    (h : accepted v_idx pkt = false) :
    main_read_packet v_idx (pkt :: rest) = main_read_packet v_idx rest := by
  simp only [accepted, decide_eq_false_iff_not] at h
  by_cases h1 : pkt.stream_index = v_idx
  · by_cases h2 : Int.land pkt.flags AV_PKT_FLAG_CORRUPT = 0
    · by_cases h3 : Int.land pkt.flags AV_PKT_FLAG_DISCARD = 0
      · exact absurd ⟨h1, h2, h3⟩ h
      · simp [main_read_packet, h1, h2, h3]
    · simp [main_read_packet, h1, h2]
  · simp [main_read_packet, h1]

/-- The inner loop drops packets up to the first accepted one, which it hands on; when no
packet is accepted it hands on the blank packet. -/
theorem main_read_packet_split (v_idx : Int) :
    ∀ pkts : List AVPacket,
      ((∀ p ∈ pkts, accepted v_idx p = false) ∧
          main_read_packet v_idx pkts = (blank_packet, [])) ∨
      (∃ dropped p rest, pkts = dropped ++ p :: rest ∧
          (∀ d ∈ dropped, accepted v_idx d = false) ∧ accepted v_idx p = true ∧
          main_read_packet v_idx pkts = (p, rest)) := by
  intro pkts
  induction pkts with
  | nil => left; exact ⟨by simp, rfl⟩
  | cons q tl ih =>
    cases hq : accepted v_idx q with
    | true =>
      right
      exact ⟨[], q, tl, rfl, by simp, hq, main_read_packet_cons_accepted _ _ _ hq⟩
    | false =>
      rw [main_read_packet_cons_dropped _ _ _ hq]
      rcases ih with ⟨h1, h2⟩ | ⟨dropped, p, rest, h1, h2, h3, h4⟩
      · left
        refine ⟨?_, h2⟩
        intro p hp
        rcases List.mem_cons.mp hp with rfl | hp
        · exact hq
        · exact h1 p hp
      · right
        refine ⟨q :: dropped, p, rest, by rw [h1]; rfl, ?_, h3, h4⟩
        intro d hd
        rcases List.mem_cons.mp hd with rfl | hd
        · exact hq
        · exact h2 d hd

/-- The inner loop in terms of the list of accepted packets. -/
theorem main_read_packet_filter (v_idx : Int) (pkts : List AVPacket) :
    (pkts.filter (accepted v_idx) = [] ∧ main_read_packet v_idx pkts = (blank_packet, [])) ∨
    (∃ p tl, pkts.filter (accepted v_idx) = p :: tl ∧ (main_read_packet v_idx pkts).1 = p ∧
        (main_read_packet v_idx pkts).2.filter (accepted v_idx) = tl) := by
  rcases main_read_packet_split v_idx pkts with ⟨h1, h2⟩ | ⟨dropped, p, rest, h1, h2, h3, h4⟩
  · left
    refine ⟨?_, h2⟩
    rw [List.filter_eq_nil_iff]
    intro p hp
    simp [h1 p hp]
  · right
    have hd : dropped.filter (accepted v_idx) = [] := by
      rw [List.filter_eq_nil_iff]
      intro d hd
      simp [h2 d hd]
    refine ⟨p, rest.filter (accepted v_idx), ?_, ?_, ?_⟩
    · rw [h1, List.filter_append, hd, List.filter_cons_of_pos h3]
      rfl
    · rw [h4]
    · rw [h4]

/-! ## One turn of the per-file loop -/

theorem fwrite_length_le (fw : Nat → Nat → Nat) (k : Nat) (ptr : Option (List Byte))
    (n : Int) (w : List Byte) (h : fwrite fw k ptr n = .ok w) : w.length ≤ n.toNat := by
  unfold fwrite at h
  cases hm : memcpy_src ptr 0 n with
  | error e => rw [hm] at h; cases h
  | ok bytes =>
    rw [hm] at h
    simp only at h
    injection h with h
    cases ptr with
    | none => simp [memcpy_src] at hm
    | some b =>
      unfold memcpy_src at hm
      simp only at hm
      split at hm
      · cases hm
      · split at hm
        · cases hm
        · injection hm with hm
          rw [← h, ← hm]
          simp only [List.length_take]
          omega

/-- A write that the file takes whole. -/
theorem fwrite_full (fw : Nat → Nat → Nat) (k : Nat) (b : List Byte) (n : Int)
    (hn : n = (b.length : Int)) (hfw : b.length ≤ fw k b.length) :
    fwrite fw k (some b) n = .ok b := by
  subst hn
  unfold fwrite
  rw [memcpy_src_ok b 0 _ (by omega) (by simp)]
  simp only [Int.toNat_ofNat, Int.toNat_zero, List.drop_zero, List.take_length]
  rw [List.take_of_length_le hfw]

/-- A written byte count that compares equal to a size in `int` is that size. -/
theorem written_eq_size (w : List Byte) (size : Int) (h1 : w.length ≤ size.toNat)
    (h2 : int32 w.length = size) : (w.length : Int) = size ∧ size < 2147483648 := by
  have hr := int32_range (w.length : Int)
  rw [h2] at hr
  have h3 : (w.length : Int) < 2147483648 := by omega
  rw [int32_eq_self _ (by omega) h3] at h2
  exact ⟨h2, hr.2⟩

theorem main_patch_sei_size (pkt pkt2 : AVPacket) (h : main_patch_sei pkt = .ok pkt2) :
    pkt2.size = pkt.size := by
  unfold main_patch_sei at h
  cases hc : H264_CheckSEI_Inside pkt.data pkt.size with
  | error e => rw [hc] at h; cases h
  | ok c =>
    rw [hc] at h
    cases c with
    | false => simp only at h; injection h with h; rw [← h]
    | true =>
      simp only at h
      cases hu : H264_SEI_GetUUID pkt.data pkt.size with
      | error e => rw [hu] at h; cases h
      | ok u =>
        rw [hu] at h
        simp only at h
        cases ht : H264_SEI_GetTotalDataLen_SEI pkt.data pkt.size with
        | error e => rw [ht] at h; cases h
        | ok t =>
          rw [ht] at h
          simp only at h
          split at h
          · cases hm : memcpy_dst pkt.data t startcode with
            | error e => rw [hm] at h; cases h
            | ok d => rw [hm] at h; simp only at h; injection h with h; rw [← h]
          · injection h with h; rw [← h]

theorem main_replace_startcode_size (pkt pkt2 : AVPacket)
    (h : main_replace_startcode pkt = .ok (some pkt2)) :
    pkt2.size = pkt.size ∧ ¬ pkt.size % 18446744073709551616 < 4 := by
  unfold main_replace_startcode at h
  split at h
  · cases h
  · rename_i hlt
    cases hm : memcpy_dst pkt.data 0 startcode with
    | error e => rw [hm] at h; cases h
    | ok d =>
      rw [hm] at h
      simp only at h
      injection h with h
      injection h with h
      rw [← h]
      exact ⟨rfl, by simpa [startcode] using hlt⟩

theorem main_replace_startcode_none (pkt : AVPacket)
    (h : main_replace_startcode pkt = .ok none) : pkt.size % 18446744073709551616 < 4 := by
  unfold main_replace_startcode at h
  split at h
  · rename_i hlt
    simpa [startcode] using hlt
  · cases hm : memcpy_dst pkt.data 0 startcode with
    | error e => rw [hm] at h; cases h
    | ok d => rw [hm] at h; simp only at h; injection h with h; cases h

/-- One turn of the loop in a run that neither faults nor returns: either the packet at
hand is short and the loop ends, or the packet is written whole, its line follows, and
the loop ends on the frame count or goes on with the packets not read yet. -/
theorem main_loop_step (v_idx : Int) (TotalFrame : Nat) (fw : Nat → Nat → Nat)
    (fuel : Nat) (pkts : List AVPacket) (c : Nat) (fbc : Int) (k : Nat) (r : FileResult)
    (h : main_loop v_idx TotalFrame fw (fuel + 1) pkts c fbc k = .ok r)
    (hret : r.ret = none) :
    ((main_read_packet v_idx pkts).1.size % 18446744073709551616 < 4 ∧ r.out = []) ∨
    (¬ (main_read_packet v_idx pkts).1.size % 18446744073709551616 < 4 ∧
      ∃ written : List Byte, (written.length : Int) = (main_read_packet v_idx pkts).1.size ∧
        (main_read_packet v_idx pkts).1.size < 2147483648 ∧
        ((TotalFrame ≤ c + 1 ∧
            r.out = [Out.au written, Out.line (int32 (fbc + written.length))]) ∨
         (c + 1 < TotalFrame ∧ ∃ r2,
            main_loop v_idx TotalFrame fw fuel (main_read_packet v_idx pkts).2 (c + 1) 0
              (k + 1) = .ok r2 ∧ r2.ret = none ∧
            r.out = Out.au written :: Out.line (int32 (fbc + written.length)) :: r2.out))) := by
  unfold main_loop at h
  cases h1 : main_replace_startcode (main_read_packet v_idx pkts).1 with
  | error e => rw [h1] at h; cases h
  | ok o =>
    rw [h1] at h
    cases o with
    | none =>
      simp only at h
      injection h with h
      left
      exact ⟨main_replace_startcode_none _ h1, by rw [← h]⟩
    | some pkt =>
      simp only at h
      have hs1 := main_replace_startcode_size _ _ h1
      cases h2 : main_patch_sei pkt with
      | error e => rw [h2] at h; cases h
      | ok pkt2 =>
        rw [h2] at h
        simp only at h
        have hs2 := main_patch_sei_size _ _ h2
        cases h3 : fwrite fw k pkt2.data pkt2.size with
        | error e => rw [h3] at h; cases h
        | ok written =>
          rw [h3] at h
          simp only at h
          have hle := fwrite_length_le _ _ _ _ _ h3
          split at h
          · injection h with h
            rw [← h] at hret
            cases hret
          · rename_i hre
            have hre2 : int32 (written.length : Int) = pkt2.size := by
              by_contra hne
              exact hre hne
            obtain ⟨hw, hlt⟩ := written_eq_size written pkt2.size hle hre2
            right
            refine ⟨hs1.2, written, by rw [hw, hs2, hs1.1], by rw [← hs1.1, ← hs2]; exact hlt,
              ?_⟩
            split at h
            · rename_i hT
              left
              injection h with h
              refine ⟨hT, ?_⟩
              rw [← h, hw]
            · rename_i hT
              right
              obtain ⟨r2, hr2, hret2, hout⟩ := emit_ok _ _ _ h
              refine ⟨by omega, r2, hr2, by rw [← hret2]; exact hret, ?_⟩
              rw [hout, hw]
              rfl

/-- The inner loop, with the list of accepted packets and the packets it leaves. -/
theorem main_read_packet_mem (v_idx : Int) (pkts : List AVPacket) :
    (pkts.filter (accepted v_idx) = [] ∧ main_read_packet v_idx pkts = (blank_packet, [])) ∨
    (∃ p tl, pkts.filter (accepted v_idx) = p :: tl ∧ (main_read_packet v_idx pkts).1 = p ∧
        (main_read_packet v_idx pkts).2.filter (accepted v_idx) = tl ∧ p ∈ pkts ∧
        (∀ q ∈ (main_read_packet v_idx pkts).2, q ∈ pkts) ∧
        (main_read_packet v_idx pkts).2.length < pkts.length) := by
  rcases main_read_packet_filter v_idx pkts with h | ⟨p, tl, h1, h2, h3⟩
  · left; exact h
  · right
    refine ⟨p, tl, h1, h2, h3, ?_⟩
    rcases main_read_packet_split v_idx pkts with ⟨_, h5⟩ | ⟨dropped, p2, rest, h4, _, _, h7⟩
    · rw [h5] at h2
      have hp : p ∈ pkts.filter (accepted v_idx) := by rw [h1]; simp
      have hp2 := (List.mem_filter.mp hp)
      rw [h5]
      refine ⟨hp2.1, ?_, ?_⟩
      · intro q hq; cases hq
      · exact List.length_pos_of_mem hp2.1
    · rw [h7] at h2
      simp only at h2
      subst h2
      rw [h7]
      simp only
      refine ⟨by rw [h4]; simp, ?_, ?_⟩
      · intro q hq; rw [h4]; simp [hq]
      · rw [h4]; simp; omega

theorem ready_count_nil (v_idx : Int) (pkts : List AVPacket)
    (h : pkts.filter (accepted v_idx) = []) : ready_count v_idx pkts = 0 := by
  simp [ready_count, h]

theorem ready_count_short (v_idx : Int) (pkts : List AVPacket) (p : AVPacket)
    (tl : List AVPacket) (h : pkts.filter (accepted v_idx) = p :: tl) (hp : ¬ 4 ≤ p.size) :
    ready_count v_idx pkts = 0 := by
  simp [ready_count, h, hp]

theorem ready_count_long (v_idx : Int) (pkts rest : List AVPacket) (p : AVPacket)
    (tl : List AVPacket) (h : pkts.filter (accepted v_idx) = p :: tl) (hp : 4 ≤ p.size)
    (hr : rest.filter (accepted v_idx) = tl) :
    ready_count v_idx pkts = ready_count v_idx rest + 1 := by
  simp [ready_count, h, hp, hr]

/-- The events of a loop that neither faults nor returns: every access unit is followed at
once by its line, the number of access units is `min (max (TotalFrame - c) 1) n` where `c`
is the frame count at the start and `n` the number of accepted packets before the first
short one, the first line holds the `int` sum of the running count and the size, and every
later line holds the size of its own access unit. -/
theorem main_loop_records (v_idx : Int) (TotalFrame : Nat) (fw : Nat → Nat → Nat) :
    ∀ (fuel : Nat) (pkts : List AVPacket) (c : Nat) (fbc : Int) (k : Nat) (r : FileResult),
      (∀ p ∈ pkts, p.size ≤ 2147483647) →
      main_loop v_idx TotalFrame fw fuel pkts c fbc k = .ok r → r.ret = none →
      ∃ pairs : List (List Byte × Int), r.out = records pairs ∧
        pairs.length = min (max (TotalFrame - c) 1) (ready_count v_idx pkts) ∧
        (∀ a cnt tl, pairs = (a, cnt) :: tl →
          cnt = int32 (fbc + a.length) ∧ ∀ p ∈ tl, p.2 = (p.1.length : Int)) ∧
        (∀ p ∈ pairs, (p.1.length : Int) < 2147483648) := by
  intro fuel
  induction fuel with
  | zero =>
    intro pkts c fbc k r _ h _
    simp [main_loop] at h
  | succ f ih =>
    intro pkts c fbc k r hsz h hret
    rcases main_loop_step _ _ _ _ _ _ _ _ _ h hret with ⟨hshort, hout⟩ |
      ⟨hlong, written, hw, hlt, hrest⟩
    · refine ⟨[], ?_, ?_, ?_, ?_⟩
      · rw [hout]; rfl
      rotate_left
      · intro a cnt tl h; cases h
      · intro q hq; cases hq
      have hn : ready_count v_idx pkts = 0 := by
        rcases main_read_packet_mem v_idx pkts with ⟨h1, _⟩ | ⟨p, tl, h1, h2, _, hp, _, _⟩
        · exact ready_count_nil _ _ h1
        · apply ready_count_short _ _ p tl h1
          have := hsz p hp
          rw [h2] at hshort
          intro h4
          rw [Int.emod_eq_of_lt (by omega) (by omega)] at hshort
          omega
      rw [hn]; simp
    · have hnb : (main_read_packet v_idx pkts).1 ≠ blank_packet := by
        intro hb
        rw [hb] at hlong
        exact hlong (by decide)
      rcases main_read_packet_mem v_idx pkts with ⟨_, h2⟩ | ⟨p, tl, h1, h2, h3, hp, hsub, _⟩
      · rw [h2] at hnb; exact absurd rfl hnb
      · rw [h2] at hlong hw hlt
        have hp4 : 4 ≤ p.size := by
          have h0 : 0 ≤ p.size := by rw [← hw]; omega
          rw [Int.emod_eq_of_lt h0 (by omega)] at hlong
          omega
        have hn := ready_count_long v_idx pkts _ p tl h1 hp4 h3
        have hwl : (written.length : Int) < 2147483648 := by omega
        rcases hrest with ⟨hT, hout⟩ | ⟨hT, r2, hr2, hret2, hout⟩
        · refine ⟨[(written, int32 (fbc + written.length))], by rw [hout]; rfl, ?_, ?_, ?_⟩
          · rw [hn]; simp; omega
          · intro a cnt tl2 he
            injection he with he1 he2
            injection he1 with ha hc
            subst ha; subst hc; subst he2
            exact ⟨rfl, by simp⟩
          · intro q hq
            simp at hq
            rw [hq]; exact hwl
        · obtain ⟨pairs2, hp2, hlen2, hfirst2, hbound2⟩ :=
            ih _ (c + 1) 0 (k + 1) r2 (fun q hq => hsz q (hsub q hq)) hr2 hret2
          refine ⟨(written, int32 (fbc + written.length)) :: pairs2, ?_, ?_, ?_, ?_⟩
          · rw [hout, hp2]; rfl
          · rw [List.length_cons, hlen2, hn]
            omega
          · intro a cnt tl2 he
            injection he with he1 he2
            injection he1 with ha hc
            subst ha; subst hc; subst he2
            refine ⟨rfl, ?_⟩
            intro q hq
            cases pairs2 with
            | nil => simp at hq
            | cons q0 tl3 =>
              obtain ⟨a0, c0⟩ := q0
              have hf := hfirst2 a0 c0 tl3 rfl
              rcases List.mem_cons.mp hq with rfl | hq
              · have hb := hbound2 (a0, c0) (by simp)
                have hb2 : (a0.length : Int) < 2147483648 := hb
                show c0 = (a0.length : Int)
                rw [hf.1, int32_eq_self] <;> omega
              · exact hf.2 q hq
          · intro q hq
            rcases List.mem_cons.mp hq with rfl | hq
            · exact hwl
            · exact hbound2 q hq

/-! ## The whole file -/

theorem emit_emit (e1 e2 : List Out) (next : Except Fault FileResult) :
    emit e1 (emit e2 next) = emit (e1 ++ e2) next := by
  cases next with
  | error e => rfl
  | ok r => simp [emit]

theorem emit_ok_eq (evs : List Out) (r : FileResult) :
    emit evs (.ok r) = .ok { ret := r.ret, out := evs ++ r.out } := rfl

/-- A write of a whole buffer that returns the length of the buffer has put the buffer
into the file. -/
theorem fwrite_whole (fw : Nat → Nat → Nat) (k : Nat) (b w : List Byte) (n : Int)
    (hn : n = (b.length : Int)) (h : fwrite fw k (some b) n = .ok w)
    (hw : w.length = b.length) : w = b := by
  subst hn
  unfold fwrite at h
  rw [memcpy_src_ok b 0 _ (by omega) (by simp)] at h
  simp only [Int.toNat_ofNat, Int.toNat_zero, List.drop_zero, List.take_length] at h
  injection h with h
  rw [← h] at hw ⊢
  rw [List.length_take] at hw
  exact List.take_of_length_le (by omega)

/-- The start-code write of lines 1032 and 1059 when its result passes the test. -/
theorem fwrite_startcode (fw : Nat → Nat → Nat) (k : Nat) (w : List Byte)
    (h : fwrite fw k (some startcode) startcode.length = .ok w)
    (hre : ¬ int32 w.length % 18446744073709551616 ≠ (startcode.length : Int)) :
    w = startcode := by
  have hle := fwrite_length_le _ _ _ _ _ h
  have hs : startcode.length = 4 := rfl
  rw [hs] at hle hre
  have h4 : (w.length : Int) ≤ 4 := by
    have : ((4 : Nat) : Int).toNat = 4 := rfl
    omega
  have hw : w.length = 4 := by
    rw [int32_eq_self _ (by omega) (by omega), Int.emod_eq_of_lt (by omega) (by omega)] at hre
    have : (w.length : Int) = 4 := by
      by_contra hne
      exact hre hne
    omega
  exact fwrite_whole fw k startcode w _ rfl h (by rw [hw, hs])

/-- The payload write of lines 1043 and 1070 when its result passes the test. -/
theorem fwrite_payload (fw : Nat → Nat → Nat) (k : Nat) (dat w : List Byte) (len : Int)
    (hlen : (dat.length : Int) = len) (h : fwrite fw k (some dat) len = .ok w)
    (hre : ¬ int32 w.length ≠ len) : w = dat := by
  have hle := fwrite_length_le _ _ _ _ _ h
  have hre2 : int32 (w.length : Int) = len := by
    by_contra hne
    exact hre hne
  have hw := (written_eq_size w len hle hre2).1
  exact fwrite_whole fw k dat w len hlen.symm h (by omega)

/-- The events of a file processed without fault and without `return`: the head, then the
loop with every access unit followed at once by its line. -/
theorem main_file_records (v : OpenedVideo) (vinf_name h264_name : List Char)
    (pkts : List AVPacket) (fw : Nat → Nat → Nat) (r : FileResult)
    (hsps : (v.ctx.sps_dat.length : Int) = v.ctx.sps_len)
    (hpps : (v.ctx.pps_dat.length : Int) = v.ctx.pps_len)
    (hsz : ∀ p ∈ pkts, p.size ≤ 2147483647)
    (h : main_file v vinf_name h264_name pkts fw = .ok r) (hret : r.ret = none) :
    ∃ pairs : List (List Byte × Int),
      r.out = file_head v vinf_name h264_name ++ records pairs ∧
      pairs.length = min (max v.TotalFrame 1) (ready_count v.v_idx pkts) ∧
      (∀ a cnt tl, pairs = (a, cnt) :: tl →
        cnt = int32 (int32 (int32 (int32 (int32 (0 + 4) + v.ctx.sps_len) + 4)
          + v.ctx.pps_len) + a.length) ∧
        ∀ p ∈ tl, p.2 = (p.1.length : Int)) ∧
      (∀ p ∈ pairs, (p.1.length : Int) < 2147483648) := by
  unfold main_file at h
  obtain ⟨r0, h0, hret0, hout0⟩ := emit_ok _ _ _ h
  rw [hret0] at hret
  cases hw0 : fwrite fw 0 (some startcode) startcode.length with
  | error e => rw [hw0] at h0; cases h0
  | ok w0 =>
    rw [hw0] at h0
    simp only at h0
    split at h0
    · injection h0 with h0; rw [← h0] at hret; cases hret
    · rename_i hre0
      have e0 := fwrite_startcode fw 0 w0 hw0 hre0
      obtain ⟨r1, h1, hret1, hout1⟩ := emit_ok _ _ _ h0
      rw [hret1] at hret
      cases hw1 : fwrite fw 1 (some v.ctx.sps_dat) v.ctx.sps_len with
      | error e => rw [hw1] at h1; cases h1
      | ok w1 =>
        rw [hw1] at h1
        simp only at h1
        split at h1
        · injection h1 with h1; rw [← h1] at hret; cases hret
        · rename_i hre1
          have e1 := fwrite_payload fw 1 _ w1 _ hsps hw1 hre1
          obtain ⟨r2, h2, hret2, hout2⟩ := emit_ok _ _ _ h1
          rw [hret2] at hret
          cases hw2 : fwrite fw 2 (some startcode) startcode.length with
          | error e => rw [hw2] at h2; cases h2
          | ok w2 =>
            rw [hw2] at h2
            simp only at h2
            split at h2
            · injection h2 with h2; rw [← h2] at hret; cases hret
            · rename_i hre2
              have e2 := fwrite_startcode fw 2 w2 hw2 hre2
              obtain ⟨r3, h3, hret3, hout3⟩ := emit_ok _ _ _ h2
              rw [hret3] at hret
              cases hw3 : fwrite fw 3 (some v.ctx.pps_dat) v.ctx.pps_len with
              | error e => rw [hw3] at h3; cases h3
              | ok w3 =>
                rw [hw3] at h3
                simp only at h3
                split at h3
                · injection h3 with h3; rw [← h3] at hret; cases hret
                · rename_i hre3
                  have e3 := fwrite_payload fw 3 _ w3 _ hpps hw3 hre3
                  obtain ⟨r4, h4, hret4, hout4⟩ := emit_ok _ _ _ h3
                  rw [hret4] at hret
                  obtain ⟨pairs, hp, hlen, hfirst, hbound⟩ :=
                    main_loop_records _ _ _ _ _ _ _ _ r4 hsz h4 hret
                  refine ⟨pairs, ?_, ?_, ?_, hbound⟩
                  · rw [hout0, hout1, hout2, hout3, hout4, hp, e0, e1, e2, e3]
                    rfl
                  · rw [hlen]; simp
                  · intro a cnt tl he
                    exact hfirst a cnt tl he

theorem au_count_records (pairs : List (List Byte × Int)) :
    au_count (records pairs) = pairs.length ∧ line_count (records pairs) = pairs.length := by
  induction pairs with
  | nil => exact ⟨rfl, rfl⟩
  | cons p tl ih =>
    obtain ⟨a, c⟩ := p
    simp [records, au_count, line_count, ih.1, ih.2]

theorem au_count_file_head (v : OpenedVideo) (n1 n2 : List Char) (rest : List Out) :
    au_count (file_head v n1 n2 ++ rest) = au_count rest ∧
    line_count (file_head v n1 n2 ++ rest) = line_count rest ∧
    line_sum (file_head v n1 n2 ++ rest) = line_sum rest ∧
    h264_bytes (file_head v n1 n2 ++ rest)
      = 4 + v.ctx.sps_dat.length + 4 + v.ctx.pps_dat.length + h264_bytes rest := by
  simp [file_head, au_count, line_count, line_sum, h264_bytes, startcode]
  omega

/-! ## Fuel of the per-file loop -/

theorem main_replace_startcode_blank : main_replace_startcode blank_packet = .ok none := by
  decide

/-- The per-file loop never runs out of a fuel that exceeds the number of packets. -/
theorem main_loop_fuel (v_idx : Int) (TotalFrame : Nat) (fw : Nat → Nat → Nat) :
    ∀ (fuel : Nat) (pkts : List AVPacket) (c : Nat) (fbc : Int) (k : Nat),
      pkts.length < fuel →
      main_loop v_idx TotalFrame fw fuel pkts c fbc k ≠ .error .fuel := by
  intro fuel
  induction fuel with
  | zero => intro pkts c fbc k h; omega
  | succ f ih =>
    intro pkts c fbc k hlen
    unfold main_loop
    cases h1 : main_replace_startcode (main_read_packet v_idx pkts).1 with
    | error e =>
      simp only
      intro h; injection h with h; subst h
      exact main_replace_startcode_ne_fuel _ h1
    | ok o =>
      cases o with
      | none => simp
      | some pkt =>
        simp only
        cases h2 : main_patch_sei pkt with
        | error e =>
          simp only
          intro h; injection h with h; subst h
          exact main_patch_sei_ne_fuel _ h2
        | ok pkt2 =>
          simp only
          cases h3 : fwrite fw k pkt2.data pkt2.size with
          | error e =>
            simp only
            intro h; injection h with h; subst h
            exact fwrite_ne_fuel _ _ _ _ h3
          | ok written =>
            simp only
            split
            · simp
            · split
              · simp
              · apply emit_ne_fuel
                apply ih
                rcases main_read_packet_mem v_idx pkts with ⟨_, hb⟩ | ⟨_, _, _, _, _, _, _, hl⟩
                · rw [hb, main_replace_startcode_blank] at h1
                  cases h1
                · omega

/-- The processing of a file never runs out of fuel: it ends with a result or with an
access outside a buffer. -/
theorem main_file_fuel (v : OpenedVideo) (vinf_name h264_name : List Char)
    (pkts : List AVPacket) (fw : Nat → Nat → Nat) :
    main_file v vinf_name h264_name pkts fw ≠ .error .fuel := by
  unfold main_file
  apply emit_ne_fuel
  cases hw0 : fwrite fw 0 (some startcode) startcode.length with
  | error e =>
    simp only
    intro h; injection h with h; subst h
    exact fwrite_ne_fuel _ _ _ _ hw0
  | ok w0 =>
    simp only
    split
    · simp
    · apply emit_ne_fuel
      cases hw1 : fwrite fw 1 (some v.ctx.sps_dat) v.ctx.sps_len with
      | error e =>
        simp only
        intro h; injection h with h; subst h
        exact fwrite_ne_fuel _ _ _ _ hw1
      | ok w1 =>
        simp only
        split
        · simp
        · apply emit_ne_fuel
          cases hw2 : fwrite fw 2 (some startcode) startcode.length with
          | error e =>
            simp only
            intro h; injection h with h; subst h
            exact fwrite_ne_fuel _ _ _ _ hw2
          | ok w2 =>
            simp only
            split
            · simp
            · apply emit_ne_fuel
              cases hw3 : fwrite fw 3 (some v.ctx.pps_dat) v.ctx.pps_len with
              | error e =>
                simp only
                intro h; injection h with h; subst h
                exact fwrite_ne_fuel _ _ _ _ hw3
              | ok w3 =>
                simp only
                split
                · simp
                · apply emit_ne_fuel
                  exact main_loop_fuel _ _ _ _ _ _ _ _ (by omega)

theorem emit_fuel (evs : List Out) (next : Except Fault FileResult)
    (h : emit evs next ≠ .error .fuel) : next ≠ .error .fuel := by
  intro hn
  rw [hn] at h
  exact h rfl

/-- More fuel does not change the result of a loop that did not run out of fuel. -/
theorem main_loop_more_fuel (v_idx : Int) (TotalFrame : Nat) (fw : Nat → Nat → Nat) :
    ∀ (f : Nat) (pkts : List AVPacket) (c : Nat) (fbc : Int) (k : Nat),
      main_loop v_idx TotalFrame fw f pkts c fbc k ≠ .error .fuel →
      ∀ g, f ≤ g →
        main_loop v_idx TotalFrame fw g pkts c fbc k
          = main_loop v_idx TotalFrame fw f pkts c fbc k := by
  intro f
  induction f with
  | zero =>
    intro pkts c fbc k h
    exact absurd rfl h
  | succ f ih =>
    intro pkts c fbc k h g hg
    obtain ⟨g, rfl⟩ : ∃ g2, g = g2 + 1 := ⟨g - 1, by omega⟩
    simp only [main_loop] at h ⊢
    cases h1 : main_replace_startcode (main_read_packet v_idx pkts).1 with
    | error e => rfl
    | ok o =>
      cases o with
      | none => rfl
      | some pkt =>
        simp only [h1] at h ⊢
        cases h2 : main_patch_sei pkt with
        | error e => rfl
        | ok pkt2 =>
          simp only [h2] at h ⊢
          cases h3 : fwrite fw k pkt2.data pkt2.size with
          | error e => rfl
          | ok written =>
            simp only [h3] at h ⊢
            split
            · rfl
            · rename_i hre
              rw [if_neg hre] at h
              split
              · rfl
              · rename_i hT
                rw [if_neg hT] at h
                rw [ih _ _ _ _ (emit_fuel _ _ h) g (by omega)]

/-! ## Dropped packets leave no trace -/

theorem main_read_packet_congr (v_idx : Int) (pkts pkts2 : List AVPacket)
    (h : pkts.filter (accepted v_idx) = pkts2.filter (accepted v_idx)) :
    (main_read_packet v_idx pkts).1 = (main_read_packet v_idx pkts2).1 ∧
    (main_read_packet v_idx pkts).2.filter (accepted v_idx)
      = (main_read_packet v_idx pkts2).2.filter (accepted v_idx) := by
  rcases main_read_packet_filter v_idx pkts with ⟨h1, h2⟩ | ⟨p, tl, h1, h2, h3⟩
  · rcases main_read_packet_filter v_idx pkts2 with ⟨_, h5⟩ | ⟨p, tl, h4, _, _⟩
    · rw [h2, h5]; exact ⟨rfl, rfl⟩
    · rw [h1, h4] at h; cases h
  · rcases main_read_packet_filter v_idx pkts2 with ⟨h4, _⟩ | ⟨p2, tl2, h4, h5, h6⟩
    · rw [h1, h4] at h; cases h
    · rw [h1, h4] at h
      injection h with ha hb
      rw [h2, h3, h5, h6]
      exact ⟨ha, hb⟩

/-- Two packet sequences with the same accepted packets give the same loop. -/
theorem main_loop_congr (v_idx : Int) (TotalFrame : Nat) (fw : Nat → Nat → Nat) :
    ∀ (fuel : Nat) (pkts pkts2 : List AVPacket) (c : Nat) (fbc : Int) (k : Nat),
      pkts.filter (accepted v_idx) = pkts2.filter (accepted v_idx) →
      main_loop v_idx TotalFrame fw fuel pkts c fbc k
        = main_loop v_idx TotalFrame fw fuel pkts2 c fbc k := by
  intro fuel
  induction fuel with
  | zero => intro pkts pkts2 c fbc k _; rfl
  | succ f ih =>
    intro pkts pkts2 c fbc k h
    obtain ⟨h1, h2⟩ := main_read_packet_congr v_idx pkts pkts2 h
    simp only [main_loop]
    rw [h1, ih _ _ (c + 1) 0 (k + 1) h2]

/-- The processing of a file sees only the accepted packets. -/
theorem main_file_filter (v : OpenedVideo) (vinf_name h264_name : List Char)
    (pkts : List AVPacket) (fw : Nat → Nat → Nat) :
    main_file v vinf_name h264_name pkts fw
      = main_file v vinf_name h264_name (pkts.filter (accepted v.v_idx)) fw := by
  have key : ∀ fbc : Int,
      main_loop v.v_idx v.TotalFrame fw (pkts.length + 1) pkts 0 fbc 4
        = main_loop v.v_idx v.TotalFrame fw ((pkts.filter (accepted v.v_idx)).length + 1)
            (pkts.filter (accepted v.v_idx)) 0 fbc 4 := by
    intro fbc
    rw [main_loop_congr v.v_idx v.TotalFrame fw _ pkts (pkts.filter (accepted v.v_idx)) 0 fbc 4
      (by rw [List.filter_filter]; simp)]
    exact main_loop_more_fuel _ _ _ _ _ _ _ _
      (main_loop_fuel _ _ _ _ _ _ _ _ (by omega)) _
      (by have := List.length_filter_le (accepted v.v_idx) pkts; omega)
  unfold main_file
  rw [key]

/-! ## Turns of the loop on packets without a SEI header -/

theorem main_loop_break (v_idx : Int) (TotalFrame : Nat) (fw : Nat → Nat → Nat)
    (fuel : Nat) (pkts : List AVPacket) (c : Nat) (fbc : Int) (k : Nat)
    (h : (main_read_packet v_idx pkts).1.size % 18446744073709551616 < 4) :
    main_loop v_idx TotalFrame fw (fuel + 1) pkts c fbc k = .ok { ret := none, out := [] } := by
  have h2 : main_replace_startcode (main_read_packet v_idx pkts).1 = .ok none := by
    unfold main_replace_startcode
    rw [if_pos (by simpa [startcode] using h)]
  simp only [main_loop, h2]

/-- The check is false on a buffer that does not hold `06 05` at offsets 4 and 5. -/
theorem H264_CheckSEI_Inside_other (b : List Byte) (len : Int) (hlen : len ≤ (b.length : Int))
    (h : ¬ (b[4]? = some 6 ∧ b[5]? = some 5)) :
    H264_CheckSEI_Inside (some b) len = .ok false := by
  by_cases h6 : len < 6
  · exact H264_CheckSEI_Inside_short _ _ h6
  · have hb : 6 ≤ b.length := by omega
    obtain ⟨x0, x1, x2, x3, x4, x5, rest, rfl⟩ := six_le_length b hb
    rw [H264_CheckSEI_Inside_cons _ _ _ _ _ _ _ _ (by omega)]
    simp at h
    simp
    exact h

theorem startcode_drop_getElem (b : List Byte) (i : Nat) (hi : 4 ≤ i) :
    (startcode ++ b.drop 4)[i]? = b[i]? := by
  rw [List.getElem?_append_right (by simp [startcode]; omega), List.getElem?_drop]
  congr 1
  simp [startcode]; omega

/-- One turn of the loop on an accepted packet of at least four bytes without SEI header,
when the file takes the whole packet. -/
theorem main_loop_turn (v_idx : Int) (TotalFrame : Nat) (fw : Nat → Nat → Nat)
    (fuel : Nat) (pkts rest : List AVPacket) (p : AVPacket) (b : List Byte)
    (c : Nat) (fbc : Int) (k : Nat)
    (hfetch : main_read_packet v_idx pkts = (p, rest))
    (hd : p.data = some b) (hs : p.size = (b.length : Int))
    (h4 : 4 ≤ b.length) (hmax : (b.length : Int) ≤ 2147483647)
    (hsei : ¬ (b[4]? = some 6 ∧ b[5]? = some 5))
    (hfw : b.length ≤ fw k b.length) :
    main_loop v_idx TotalFrame fw (fuel + 1) pkts c fbc k
      = if c + 1 ≥ TotalFrame then
          .ok { ret := none,
                out := [Out.au (startcode ++ b.drop 4), Out.line (int32 (fbc + b.length))] }
        else
          emit [Out.au (startcode ++ b.drop 4), Out.line (int32 (fbc + b.length))]
            (main_loop v_idx TotalFrame fw fuel rest (c + 1) 0 (k + 1)) := by
  have hl : (startcode ++ b.drop 4).length = b.length := by
    simp [startcode]; omega
  have hmod : p.size % 18446744073709551616 = p.size := by
    apply Int.emod_eq_of_lt <;> omega
  have h1 : main_replace_startcode p
      = .ok (some { p with data := some (startcode ++ b.drop 4) }) := by
    unfold main_replace_startcode
    rw [hmod, if_neg (by simp [startcode]; omega), hd, memcpy_dst_zero b h4]
  have hchk : H264_CheckSEI_Inside (some (startcode ++ b.drop 4)) p.size = .ok false := by
    apply H264_CheckSEI_Inside_other
    · rw [hl, hs]
    · rw [startcode_drop_getElem b 4 (by omega), startcode_drop_getElem b 5 (by omega)]
      exact hsei
  have h2 : main_patch_sei { p with data := some (startcode ++ b.drop 4) }
      = .ok { p with data := some (startcode ++ b.drop 4) } :=
    main_patch_sei_no_sei _ hchk
  have h3 : fwrite fw k (some (startcode ++ b.drop 4)) p.size
      = .ok (startcode ++ b.drop 4) :=
    fwrite_full fw k _ _ (by rw [hl, hs]) (by rw [hl]; exact hfw)
  have hre : int32 ((startcode ++ b.drop 4).length : Int) = p.size := by
    rw [hl, hs, int32_eq_self] <;> omega
  simp only [main_loop, hfetch, h1, h2, h3, hre]
  simp [hs]

/-- The part of `main_file` before the loop when the file takes every write whole. -/
theorem main_file_head (v : OpenedVideo) (vinf_name h264_name : List Char)
    (pkts : List AVPacket) (fw : Nat → Nat → Nat)
    (hsps : (v.ctx.sps_dat.length : Int) = v.ctx.sps_len)
    (hpps : (v.ctx.pps_dat.length : Int) = v.ctx.pps_len)
    (hmax : v.ctx.sps_len ≤ 2147483647 ∧ v.ctx.pps_len ≤ 2147483647)
    (hfw : ∀ k n, n ≤ fw k n) :
    main_file v vinf_name h264_name pkts fw
      = emit (file_head v vinf_name h264_name)
          (main_loop v.v_idx v.TotalFrame fw (pkts.length + 1) pkts 0
            (int32 (int32 (int32 (int32 (0 + 4) + v.ctx.sps_len) + 4) + v.ctx.pps_len)) 4) := by
  have hs : startcode.length = 4 := rfl
  have w0 : ∀ k, fwrite fw k (some startcode) startcode.length = .ok startcode :=
    fun k => fwrite_full fw k _ _ rfl (hfw _ _)
  have w1 : fwrite fw 1 (some v.ctx.sps_dat) v.ctx.sps_len = .ok v.ctx.sps_dat :=
    fwrite_full fw 1 _ _ hsps.symm (hfw _ _)
  have w3 : fwrite fw 3 (some v.ctx.pps_dat) v.ctx.pps_len = .ok v.ctx.pps_dat :=
    fwrite_full fw 3 _ _ hpps.symm (hfw _ _)
  have r0 : ¬ int32 (startcode.length : Int) % 18446744073709551616 ≠ (startcode.length : Int) := by
    rw [hs]; decide
  have r1 : ¬ int32 (v.ctx.sps_dat.length : Int) ≠ v.ctx.sps_len := by
    rw [hsps, int32_eq_self] <;> omega
  have r3 : ¬ int32 (v.ctx.pps_dat.length : Int) ≠ v.ctx.pps_len := by
    rw [hpps, int32_eq_self] <;> omega
  unfold main_file
  simp only [w0, w1, w3, if_neg r0, if_neg r1, if_neg r3, emit_emit]
  rfl

/-! ## The run on a 10-byte SPS, a 4-byte PPS and access units of 20, 0 and 30 bytes -/

set_option maxRecDepth 20000 in
/-- C11 as stated fails on the value of the line: with an SPS of 10 bytes, a PPS of 4
bytes, `TotalFrame = 3` and accepted access units of 20, 0 and 30 bytes, the run writes the
two parameter sets and one access unit and then one line, and that line holds
4 + 10 + 4 + 4 + 20 = 42, not 20. -/
theorem main_file_scenario_eval :
    main_file ⟨0, 3, 640, 480, ⟨List.replicate 10 0x67, List.replicate 4 0x68, 10, 4⟩⟩
        "a.vinf".toList "a.h264".toList
        [⟨some ([0, 0, 0, 16, 0x65] ++ List.replicate 15 0xAA), 20, 1, 0⟩,
         ⟨some [], 0, 0, 0⟩,
         ⟨some ([0, 0, 0, 26, 0x41] ++ List.replicate 25 0xBB), 30, 0, 0⟩]
        (fun _ n => n)
      = .ok ⟨none,
          [Out.fopen "a.vinf".toList, Out.info 640 480 3, Out.fopen "a.h264".toList,
           Out.param [0, 0, 0, 1], Out.param (List.replicate 10 0x67),
           Out.param [0, 0, 0, 1], Out.param (List.replicate 4 0x68),
           Out.au ([0, 0, 0, 1, 0x65] ++ List.replicate 15 0xAA), Out.line 42]⟩ ∧
    (42 : Int) ≠ 20 := by
  decide

/-- C11, amended: with an SPS of 10 bytes, a PPS of 4 bytes, `TotalFrame = 3` and three
accepted access units of sizes 20, 0 and 30, the first of which does not start with a SEI
header, a run whose writes all succeed writes the two parameter-set NALs followed by
exactly one access unit (with its start code rewritten) and stops at the short second
packet; it records exactly one line, and the value on it is 4 + 10 + 4 + 4 + 20 = 42. -/
theorem main_file_scenario (v_idx W H : Int) (vinf_name h264_name : List Char)
    (sps pps b1 : List Byte) (d2 d3 : Option (List Byte)) (f1 f2 f3 : Int)
    (fw : Nat → Nat → Nat)
    (hsps : sps.length = 10) (hpps : pps.length = 4) (hb1 : b1.length = 20)
    (hf1 : Int.land f1 AV_PKT_FLAG_CORRUPT = 0 ∧ Int.land f1 AV_PKT_FLAG_DISCARD = 0)
    (hf2 : Int.land f2 AV_PKT_FLAG_CORRUPT = 0 ∧ Int.land f2 AV_PKT_FLAG_DISCARD = 0)
    (hsei : ¬ (b1[4]? = some 6 ∧ b1[5]? = some 5))
    (hfw : ∀ k n, n ≤ fw k n) :
    main_file ⟨v_idx, 3, W, H, ⟨sps, pps, 10, 4⟩⟩ vinf_name h264_name
        [⟨some b1, 20, f1, v_idx⟩, ⟨d2, 0, f2, v_idx⟩, ⟨d3, 30, f3, v_idx⟩] fw
      = .ok ⟨none,
          [Out.fopen vinf_name, Out.info W H 3, Out.fopen h264_name,
           Out.param startcode, Out.param sps, Out.param startcode, Out.param pps,
           Out.au (startcode ++ b1.drop 4), Out.line 42]⟩ := by
  have a1 : accepted v_idx ⟨some b1, 20, f1, v_idx⟩ = true := by
    simp [accepted, hf1.1, hf1.2]
  have a2 : accepted v_idx ⟨d2, 0, f2, v_idx⟩ = true := by
    simp [accepted, hf2.1, hf2.2]
  rw [main_file_head _ _ _ _ fw (by simp [hsps]) (by simp [hpps]) (by simp) hfw]
  rw [main_loop_turn v_idx 3 fw _ _ _ _ b1 0 _ 4
    (main_read_packet_cons_accepted v_idx _ _ a1) rfl (by simp [hb1]) (by omega)
    (by rw [hb1]; decide) hsei (hfw _ _)]
  rw [if_neg (by decide)]
  simp only [List.length_cons, List.length_nil]
  rw [main_loop_break v_idx 3 fw (0 + 1 + 1) _ (0 + 1) 0 (4 + 1)
    (by rw [main_read_packet_cons_accepted v_idx _ _ a2]; norm_num)]
  simp only [emit_ok_eq, hb1]
  rfl

/-- C11 at an SPS of ten bytes `67`, a PPS of four bytes `68` and the access units
`00 00 00 10 65 AA..` (20 bytes), empty, `00 00 00 1A 41 BB..` (30 bytes). -/
theorem main_file_scenario_witness :
    main_file ⟨0, 3, 640, 480, ⟨List.replicate 10 0x67, List.replicate 4 0x68, 10, 4⟩⟩
        "a.vinf".toList "a.h264".toList
        [⟨some ([0, 0, 0, 16, 0x65] ++ List.replicate 15 0xAA), 20, 1, 0⟩,
         ⟨some [], 0, 0, 0⟩,
         ⟨some ([0, 0, 0, 26, 0x41] ++ List.replicate 25 0xBB), 30, 0, 0⟩]
        (fun _ n => n)
      = .ok ⟨none,
          [Out.fopen "a.vinf".toList, Out.info 640 480 3, Out.fopen "a.h264".toList,
           Out.param startcode, Out.param (List.replicate 10 0x67),
           Out.param startcode, Out.param (List.replicate 4 0x68),
           Out.au (startcode ++ ([0, 0, 0, 16, 0x65] ++ List.replicate 15 0xAA).drop 4),
           Out.line 42]⟩ :=
  main_file_scenario 0 640 480 "a.vinf".toList "a.h264".toList (List.replicate 10 0x67)
    (List.replicate 4 0x68) ([0, 0, 0, 16, 0x65] ++ List.replicate 15 0xAA) (some [])
    (some ([0, 0, 0, 26, 0x41] ++ List.replicate 25 0xBB)) 1 0 0 (fun _ n => n)
    (by decide) (by decide) (by decide) (by decide) (by decide) (by decide)
    (fun _ n => Nat.le_refl n)

/-! ## Lines and access units -/

/-- C12: for every sequence of delivered packets and every `TotalFrame`, when the
processing of a file ends without fault and without a write error, the events after the
head are access units each followed at once by its own line; so the number of byte-count
lines equals the number of access-unit buffers written, the SPS and PPS writes apart. -/
theorem main_file_lines_follow_units (v : OpenedVideo) (vinf_name h264_name : List Char)
    (pkts : List AVPacket) (fw : Nat → Nat → Nat) (r : FileResult)
    (hsps : (v.ctx.sps_dat.length : Int) = v.ctx.sps_len)
    (hpps : (v.ctx.pps_dat.length : Int) = v.ctx.pps_len)
    (hsz : ∀ p ∈ pkts, p.size ≤ 2147483647)
    (h : main_file v vinf_name h264_name pkts fw = .ok r) (hret : r.ret = none) :
    (∃ pairs : List (List Byte × Int),
      r.out = file_head v vinf_name h264_name ++ records pairs) ∧
    line_count r.out = au_count r.out := by
  obtain ⟨pairs, hout, _, _, _⟩ :=
    main_file_records v vinf_name h264_name pkts fw r hsps hpps hsz h hret
  refine ⟨⟨pairs, hout⟩, ?_⟩
  rw [hout, (au_count_file_head v vinf_name h264_name _).1,
    (au_count_file_head v vinf_name h264_name _).2.1, (au_count_records pairs).1,
    (au_count_records pairs).2]

set_option maxRecDepth 20000 in
/-- C12 at a run over two access units of 5 and 6 bytes with a dropped packet between
them: two access units, two lines. -/
theorem main_file_lines_follow_units_witness :
    (∃ pairs : List (List Byte × Int),
      (⟨none, [Out.fopen "a.vinf".toList, Out.info 640 480 2, Out.fopen "a.h264".toList,
           Out.param [0, 0, 0, 1], Out.param [0x67, 0x64], Out.param [0, 0, 0, 1],
           Out.param [0x68], Out.au [0, 0, 0, 1, 0x65], Out.line 16,
           Out.au [0, 0, 0, 1, 0x41, 0x9A], Out.line 6]⟩ : FileResult).out
        = file_head ⟨0, 2, 640, 480, ⟨[0x67, 0x64], [0x68], 2, 1⟩⟩ "a.vinf".toList
            "a.h264".toList ++ records pairs) ∧
    line_count (⟨none, [Out.fopen "a.vinf".toList, Out.info 640 480 2,
           Out.fopen "a.h264".toList,
           Out.param [0, 0, 0, 1], Out.param [0x67, 0x64], Out.param [0, 0, 0, 1],
           Out.param [0x68], Out.au [0, 0, 0, 1, 0x65], Out.line 16,
           Out.au [0, 0, 0, 1, 0x41, 0x9A], Out.line 6]⟩ : FileResult).out
      = au_count (⟨none, [Out.fopen "a.vinf".toList, Out.info 640 480 2,
           Out.fopen "a.h264".toList,
           Out.param [0, 0, 0, 1], Out.param [0x67, 0x64], Out.param [0, 0, 0, 1],
           Out.param [0x68], Out.au [0, 0, 0, 1, 0x65], Out.line 16,
           Out.au [0, 0, 0, 1, 0x41, 0x9A], Out.line 6]⟩ : FileResult).out :=
  main_file_lines_follow_units ⟨0, 2, 640, 480, ⟨[0x67, 0x64], [0x68], 2, 1⟩⟩
    "a.vinf".toList "a.h264".toList
    [⟨some [0, 0, 0, 1, 0x65], 5, 1, 0⟩, ⟨some [0, 0, 0, 9, 9, 9], 6, 2, 0⟩,
     ⟨some [0, 0, 0, 2, 0x41, 0x9A], 6, 0, 0⟩]
    (fun _ n => n) _ (by decide) (by decide) (by decide) (by decide) rfl

/-! ## The number of access units -/

set_option maxRecDepth 20000 in
/-- C13 as stated fails for `TotalFrame = 0`: with two accepted access units of 5 and 6
bytes the loop writes one access unit, while min(0, 2) = 0. -/
theorem main_file_zero_frames_eval :
    main_file ⟨0, 0, 640, 480, ⟨[0x67, 0x64], [0x68], 2, 1⟩⟩ "a.vinf".toList "a.h264".toList
        [⟨some [0, 0, 0, 1, 0x65], 5, 1, 0⟩, ⟨some [0, 0, 0, 2, 0x41, 0x9A], 6, 0, 0⟩]
        (fun _ n => n)
      = .ok ⟨none, [Out.fopen "a.vinf".toList, Out.info 640 480 0, Out.fopen "a.h264".toList,
           Out.param [0, 0, 0, 1], Out.param [0x67, 0x64], Out.param [0, 0, 0, 1],
           Out.param [0x68], Out.au [0, 0, 0, 1, 0x65], Out.line 16]⟩ ∧
    ready_count 0
        [⟨some [0, 0, 0, 1, 0x65], 5, 1, 0⟩, ⟨some [0, 0, 0, 2, 0x41, 0x9A], 6, 0, 0⟩] = 2 ∧
    au_count [Out.fopen "a.vinf".toList, Out.info 640 480 0, Out.fopen "a.h264".toList,
           Out.param [0, 0, 0, 1], Out.param [0x67, 0x64], Out.param [0, 0, 0, 1],
           Out.param [0x68], Out.au [0, 0, 0, 1, 0x65], Out.line 16] = 1 ∧
    (1 : Nat) ≠ min 0 2 := by
  decide

/-- C13, amended: for every sequence of packets and every `TotalFrame`, a processing of a
file that ends without fault and without a write error writes exactly
`min (max TotalFrame 1) n` access units, where `n` is the number of accepted packets that
come before the first accepted packet shorter than 4 bytes or the end of the source (the
frame count is tested after the write, so one access unit is written even for
`TotalFrame = 0`); for `TotalFrame >= 1` it never writes more than `TotalFrame`. -/
theorem main_file_unit_count (v : OpenedVideo) (vinf_name h264_name : List Char)
    (pkts : List AVPacket) (fw : Nat → Nat → Nat) (r : FileResult)
    (hsps : (v.ctx.sps_dat.length : Int) = v.ctx.sps_len)
    (hpps : (v.ctx.pps_dat.length : Int) = v.ctx.pps_len)
    (hsz : ∀ p ∈ pkts, p.size ≤ 2147483647)
    (h : main_file v vinf_name h264_name pkts fw = .ok r) (hret : r.ret = none) :
    au_count r.out = min (max v.TotalFrame 1) (ready_count v.v_idx pkts) ∧
    (1 ≤ v.TotalFrame → au_count r.out ≤ v.TotalFrame) := by
  obtain ⟨pairs, hout, hlen, _, _⟩ :=
    main_file_records v vinf_name h264_name pkts fw r hsps hpps hsz h hret
  have hc : au_count r.out = pairs.length := by
    rw [hout, (au_count_file_head v vinf_name h264_name _).1, (au_count_records pairs).1]
  rw [hc, hlen]
  refine ⟨rfl, ?_⟩
  intro hT
  omega

set_option maxRecDepth 20000 in
/-- C13 at `TotalFrame = 2` and accepted access units of 5, 6, 5, 3 and 6 bytes: two
access units are written, min(2, 3). -/
theorem main_file_unit_count_witness :
    au_count (⟨none, [Out.fopen "a.vinf".toList, Out.info 640 480 2,
           Out.fopen "a.h264".toList,
           Out.param [0, 0, 0, 1], Out.param [0x67, 0x64], Out.param [0, 0, 0, 1],
           Out.param [0x68], Out.au [0, 0, 0, 1, 0x65], Out.line 16,
           Out.au [0, 0, 0, 1, 0x41, 0x9A], Out.line 6]⟩ : FileResult).out
      = min (max (⟨0, 2, 640, 480, ⟨[0x67, 0x64], [0x68], 2, 1⟩⟩ : OpenedVideo).TotalFrame 1)
          (ready_count (⟨0, 2, 640, 480, ⟨[0x67, 0x64], [0x68], 2, 1⟩⟩ : OpenedVideo).v_idx
            [⟨some [0, 0, 0, 1, 0x65], 5, 1, 0⟩, ⟨some [0, 0, 0, 2, 0x41, 0x9A], 6, 0, 0⟩,
             ⟨some [0, 0, 0, 1, 0x41], 5, 0, 0⟩, ⟨some [0, 0, 0], 3, 0, 0⟩,
             ⟨some [0, 0, 0, 2, 0x41, 0x9B], 6, 0, 0⟩]) :=
  (main_file_unit_count ⟨0, 2, 640, 480, ⟨[0x67, 0x64], [0x68], 2, 1⟩⟩
    "a.vinf".toList "a.h264".toList
    [⟨some [0, 0, 0, 1, 0x65], 5, 1, 0⟩, ⟨some [0, 0, 0, 2, 0x41, 0x9A], 6, 0, 0⟩,
     ⟨some [0, 0, 0, 1, 0x41], 5, 0, 0⟩, ⟨some [0, 0, 0], 3, 0, 0⟩,
     ⟨some [0, 0, 0, 2, 0x41, 0x9B], 6, 0, 0⟩]
    (fun _ n => n) _ (by decide) (by decide) (by decide) (by decide) rfl).1

/-! ## The byte counts on the lines -/

theorem line_sum_records (pairs : List (List Byte × Int))
    (h : ∀ p ∈ pairs, p.2 = (p.1.length : Int)) :
    line_sum (records pairs) = (h264_bytes (records pairs) : Int) := by
  induction pairs with
  | nil => rfl
  | cons p tl ih =>
    obtain ⟨a, c⟩ := p
    have h1 : c = (a.length : Int) := h (a, c) (by simp)
    have h2 := ih (fun q hq => h q (List.mem_cons_of_mem _ hq))
    simp only [records, line_sum, h264_bytes, h2, h1]
    push_cast
    ring

/-- C18 as stated fails once the first count leaves the range of `int`: with an SPS of 60
bytes, a PPS of 4 bytes and a first access unit of 2147483583 bytes (all writes succeed,
`TotalFrame = 1`) the line holds -2147483641, not 8 + 60 + 4 + 2147483583 = 2147483655. -/
theorem main_file_first_line_overflow :
    main_file ⟨0, 1, 1920, 1080, ⟨List.replicate 60 0x67, List.replicate 4 0x68, 60, 4⟩⟩
        "a.vinf".toList "a.h264".toList
        [⟨some (List.replicate 2147483583 0), 2147483583, 1, 0⟩] (fun _ n => n)
      = .ok ⟨none,
          file_head ⟨0, 1, 1920, 1080, ⟨List.replicate 60 0x67, List.replicate 4 0x68, 60, 4⟩⟩
            "a.vinf".toList "a.h264".toList ++
          [Out.au (startcode ++ (List.replicate 2147483583 0).drop 4),
           Out.line (-2147483641)]⟩ ∧
    (-2147483641 : Int) ≠ 8 + 60 + 4 + 2147483583 := by
  have hlenb : (List.replicate 2147483583 (0 : Byte)).length = 2147483583 :=
    List.length_replicate _ _
  have a1 : accepted 0 ⟨some (List.replicate 2147483583 0), 2147483583, 1, 0⟩ = true := by
    decide
  have hsei : ¬ ((List.replicate 2147483583 (0 : Byte))[4]? = some 6 ∧
      (List.replicate 2147483583 (0 : Byte))[5]? = some 5) := by
    rw [List.getElem?_replicate_of_lt (by norm_num)]
    intro h
    exact absurd h.1 (by decide)
  have hhead := main_file_head
    ⟨0, 1, 1920, 1080, ⟨List.replicate 60 0x67, List.replicate 4 0x68, 60, 4⟩⟩
    "a.vinf".toList "a.h264".toList
    [⟨some (List.replicate 2147483583 0), 2147483583, 1, 0⟩] (fun _ n => n)
    (by decide) (by decide) (by decide) (fun _ n => Nat.le_refl n)
  have hturn := main_loop_turn 0 1 (fun _ n => n)
    ([(⟨some (List.replicate 2147483583 0), 2147483583, 1, 0⟩ : AVPacket)].length)
    [⟨some (List.replicate 2147483583 0), 2147483583, 1, 0⟩] []
    ⟨some (List.replicate 2147483583 0), 2147483583, 1, 0⟩
    (List.replicate 2147483583 0) 0
    (int32 (int32 (int32 (int32 (0 + 4) + 60) + 4) + 4)) 4
    (main_read_packet_cons_accepted 0 _ _ a1) rfl
    (by rw [hlenb]; norm_num) (by rw [hlenb]; norm_num) (by rw [hlenb]; norm_num) hsei
    (Nat.le_refl _)
  have hnum : int32 (int32 (int32 (int32 (int32 (0 + 4) + 60) + 4) + 4)
      + ((2147483583 : Nat) : Int)) = -2147483641 := by
    unfold int32; norm_num
  rw [hlenb, if_pos (by decide), hnum] at hturn
  refine ⟨?_, by norm_num⟩
  exact hhead.trans ((congrArg (emit _) hturn).trans rfl)

/-- C18, amended: for every run over a well-formed context and packets whose sizes are
`int` values that ends without fault and without a write error and writes at least one
access unit, provided 8 + sps_len + pps_len + (size of the first access unit) fits in an
`int`: the first recorded count is that sum, every later count is the size of its own
access unit, and the sum of all recorded counts is the number of bytes written to the
elementary stream. -/
theorem main_file_byte_counts (v : OpenedVideo) (vinf_name h264_name : List Char)
    (pkts : List AVPacket) (fw : Nat → Nat → Nat) (r : FileResult)
    (hsps : (v.ctx.sps_dat.length : Int) = v.ctx.sps_len)
    (hpps : (v.ctx.pps_dat.length : Int) = v.ctx.pps_len)
    (hsz : ∀ p ∈ pkts, p.size ≤ 2147483647)
    (h : main_file v vinf_name h264_name pkts fw = .ok r) (hret : r.ret = none)
    (hone : 1 ≤ au_count r.out) :
    ∃ (a : List Byte) (cnt : Int) (tl : List (List Byte × Int)),
      r.out = file_head v vinf_name h264_name ++ records ((a, cnt) :: tl) ∧
      (8 + v.ctx.sps_len + v.ctx.pps_len + (a.length : Int) ≤ 2147483647 →
        cnt = 8 + v.ctx.sps_len + v.ctx.pps_len + (a.length : Int) ∧
        (∀ p ∈ tl, p.2 = (p.1.length : Int)) ∧
        line_sum r.out = (h264_bytes r.out : Int)) := by
  obtain ⟨pairs, hout, _, hfirst, _⟩ :=
    main_file_records v vinf_name h264_name pkts fw r hsps hpps hsz h hret
  cases pairs with
  | nil =>
    rw [hout, (au_count_file_head v vinf_name h264_name _).1] at hone
    simp [records, au_count] at hone
  | cons p tl =>
    obtain ⟨a, cnt⟩ := p
    refine ⟨a, cnt, tl, hout, ?_⟩
    intro hfit
    obtain ⟨hc, htl⟩ := hfirst a cnt tl rfl
    have hs0 : 0 ≤ v.ctx.sps_len := by rw [← hsps]; omega
    have hp0 : 0 ≤ v.ctx.pps_len := by rw [← hpps]; omega
    have hcnt : cnt = 8 + v.ctx.sps_len + v.ctx.pps_len + (a.length : Int) := by
      rw [hc]
      rw [int32_eq_self (0 + 4) (by omega) (by omega)]
      rw [int32_eq_self (0 + 4 + v.ctx.sps_len) (by omega) (by omega)]
      rw [int32_eq_self (0 + 4 + v.ctx.sps_len + 4) (by omega) (by omega)]
      rw [int32_eq_self (0 + 4 + v.ctx.sps_len + 4 + v.ctx.pps_len) (by omega) (by omega)]
      rw [int32_eq_self _ (by omega) (by omega)]
      ring
    refine ⟨hcnt, htl, ?_⟩
    rw [hout, (au_count_file_head v vinf_name h264_name _).2.2.1,
      (au_count_file_head v vinf_name h264_name _).2.2.2]
    simp only [records, line_sum, h264_bytes]
    rw [line_sum_records tl htl, hcnt]
    push_cast
    rw [← hsps, ← hpps]
    ring

set_option maxRecDepth 20000 in
/-- C18 at a run over an SPS of two bytes, a PPS of one byte and access units of 5 and 6
bytes: the lines hold 8 + 2 + 1 + 5 = 16 and 6, and 16 + 6 bytes reach the file. -/
theorem main_file_byte_counts_witness :
    ∃ (a : List Byte) (cnt : Int) (tl : List (List Byte × Int)),
      (⟨none, [Out.fopen "a.vinf".toList, Out.info 640 480 2, Out.fopen "a.h264".toList,
           Out.param [0, 0, 0, 1], Out.param [0x67, 0x64], Out.param [0, 0, 0, 1],
           Out.param [0x68], Out.au [0, 0, 0, 1, 0x65], Out.line 16,
           Out.au [0, 0, 0, 1, 0x41, 0x9A], Out.line 6]⟩ : FileResult).out
        = file_head ⟨0, 2, 640, 480, ⟨[0x67, 0x64], [0x68], 2, 1⟩⟩ "a.vinf".toList
            "a.h264".toList ++ records ((a, cnt) :: tl) ∧
      (8 + (⟨0, 2, 640, 480, ⟨[0x67, 0x64], [0x68], 2, 1⟩⟩ : OpenedVideo).ctx.sps_len
          + (⟨0, 2, 640, 480, ⟨[0x67, 0x64], [0x68], 2, 1⟩⟩ : OpenedVideo).ctx.pps_len
          + (a.length : Int) ≤ 2147483647 →
        cnt = 8 + (⟨0, 2, 640, 480, ⟨[0x67, 0x64], [0x68], 2, 1⟩⟩ : OpenedVideo).ctx.sps_len
          + (⟨0, 2, 640, 480, ⟨[0x67, 0x64], [0x68], 2, 1⟩⟩ : OpenedVideo).ctx.pps_len
          + (a.length : Int) ∧
        (∀ p ∈ tl, p.2 = (p.1.length : Int)) ∧
        line_sum (⟨none, [Out.fopen "a.vinf".toList, Out.info 640 480 2,
           Out.fopen "a.h264".toList,
           Out.param [0, 0, 0, 1], Out.param [0x67, 0x64], Out.param [0, 0, 0, 1],
           Out.param [0x68], Out.au [0, 0, 0, 1, 0x65], Out.line 16,
           Out.au [0, 0, 0, 1, 0x41, 0x9A], Out.line 6]⟩ : FileResult).out
          = (h264_bytes (⟨none, [Out.fopen "a.vinf".toList, Out.info 640 480 2,
           Out.fopen "a.h264".toList,
           Out.param [0, 0, 0, 1], Out.param [0x67, 0x64], Out.param [0, 0, 0, 1],
           Out.param [0x68], Out.au [0, 0, 0, 1, 0x65], Out.line 16,
           Out.au [0, 0, 0, 1, 0x41, 0x9A], Out.line 6]⟩ : FileResult).out : Int)) :=
  main_file_byte_counts ⟨0, 2, 640, 480, ⟨[0x67, 0x64], [0x68], 2, 1⟩⟩
    "a.vinf".toList "a.h264".toList
    [⟨some [0, 0, 0, 1, 0x65], 5, 1, 0⟩, ⟨some [0, 0, 0, 9, 9, 9], 6, 2, 0⟩,
     ⟨some [0, 0, 0, 2, 0x41, 0x9A], 6, 0, 0⟩]
    (fun _ n => n) _ (by decide) (by decide) (by decide) (by decide) rfl (by decide)

/-! ## The packet filter of the loop -/

/-- C14: the inner loop hands on a packet exactly when it belongs to the selected video
stream and carries neither the corrupt flag (0x0002) nor the discard flag (0x0004),
whatever its other flags (key 0x0001, disposable 0x0010) are; every other packet is
dropped; what is handed on is the first such packet after the dropped ones (the blank
packet when there is none); and the dropped packets leave nothing in the output: the
processing of the file is the same as on the accepted packets alone. -/
theorem main_read_packet_spec (v : OpenedVideo) (vinf_name h264_name : List Char)
    (pkts : List AVPacket) (fw : Nat → Nat → Nat) :
    (∀ (p : AVPacket) (rest : List AVPacket),
      (p.stream_index = v.v_idx ∧ Int.land p.flags AV_PKT_FLAG_CORRUPT = 0 ∧
          Int.land p.flags AV_PKT_FLAG_DISCARD = 0 →
        main_read_packet v.v_idx (p :: rest) = (p, rest)) ∧
      (¬ (p.stream_index = v.v_idx ∧ Int.land p.flags AV_PKT_FLAG_CORRUPT = 0 ∧
          Int.land p.flags AV_PKT_FLAG_DISCARD = 0) →
        main_read_packet v.v_idx (p :: rest) = main_read_packet v.v_idx rest)) ∧
    (((∀ p ∈ pkts, accepted v.v_idx p = false) ∧
        main_read_packet v.v_idx pkts = (blank_packet, [])) ∨
      (∃ dropped p rest, pkts = dropped ++ p :: rest ∧
        (∀ d ∈ dropped, accepted v.v_idx d = false) ∧ accepted v.v_idx p = true ∧
        main_read_packet v.v_idx pkts = (p, rest))) ∧
    main_file v vinf_name h264_name pkts fw
      = main_file v vinf_name h264_name (pkts.filter (accepted v.v_idx)) fw := by
  refine ⟨?_, main_read_packet_split v.v_idx pkts, main_file_filter v _ _ pkts fw⟩
  intro p rest
  constructor
  · intro h
    exact main_read_packet_cons_accepted _ _ _ (by simp [accepted, h])
  · intro h
    exact main_read_packet_cons_dropped _ _ _ (by simp [accepted, h])

/-! ## The leading rewrite applied twice -/

/-- The leading rewrite on a packet whose buffer holds at least four bytes. -/
theorem main_replace_startcode_ok (pkt : AVPacket) (b : List Byte)
    (hd : pkt.data = some b) (hs : pkt.size = (b.length : Int))
    (hr : pkt.size ≤ 2147483647) (h4 : 4 ≤ pkt.size) :
    main_replace_startcode pkt = .ok (some { pkt with data := some (startcode ++ b.drop 4) }) := by
  have hmod : pkt.size % 18446744073709551616 = pkt.size := by
    apply Int.emod_eq_of_lt <;> omega
  unfold main_replace_startcode
  rw [hmod, if_neg (by simp [startcode]; omega), hd, memcpy_dst_zero b (by omega)]

/-- C17: for every access-unit buffer of size at least 4, the leading rewrite applied to
its own result gives that result again. -/
theorem main_replace_startcode_idem (pkt : AVPacket) (b : List Byte)
    (hd : pkt.data = some b) (hs : pkt.size = (b.length : Int))
    (hr : pkt.size ≤ 2147483647) (h4 : 4 ≤ pkt.size) :
    ∃ p1, main_replace_startcode pkt = .ok (some p1) ∧
      main_replace_startcode p1 = .ok (some p1) := by
  refine ⟨{ pkt with data := some (startcode ++ b.drop 4) },
    main_replace_startcode_ok pkt b hd hs hr h4, ?_⟩
  have hl : (startcode ++ b.drop 4).length = b.length := by
    simp [startcode]; omega
  rw [main_replace_startcode_ok { pkt with data := some (startcode ++ b.drop 4) }
    (startcode ++ b.drop 4) rfl (by rw [hl]; exact hs) hr h4]
  have e : startcode ++ (startcode ++ b.drop 4).drop 4 = startcode ++ b.drop 4 := by
    simp [startcode]
  rw [e]

/-- C17 at the 6-byte access unit `00 00 00 02 09 F0`. -/
theorem main_replace_startcode_idem_witness :
    ∃ p1, main_replace_startcode ⟨some [0, 0, 0, 2, 9, 0xF0], 6, 1, 0⟩ = .ok (some p1) ∧
      main_replace_startcode p1 = .ok (some p1) :=
  main_replace_startcode_idem ⟨some [0, 0, 0, 2, 9, 0xF0], 6, 1, 0⟩ [0, 0, 0, 2, 9, 0xF0]
    rfl (by decide) (by decide) (by decide)

/-! ## The names of the output files -/

/-- C15, the code at the failing input: for `dir/video.mp4` the output names are
`dir/video.vinf` and `dir/video.h264`, but for the input path `/video.mp4` and no `-o`
option `GetOnlyFilePath` returns the empty string, so that `main` takes the branch for a
path without directory: the two output names are `video.vinf` and `video.h264`, which hold
no path separator although the input path holds `/`. -/
theorem main_output_names_root_eval :
    main_output_names [] "dir/video.mp4".toList
      = .ok ("dir/video.vinf".toList, "dir/video.h264".toList) ∧
    GetOnlyFilePath "/video.mp4".toList = .ok [] ∧
    main_output_names [] "/video.mp4".toList
      = .ok ("video.vinf".toList, "video.h264".toList) ∧
    '/' ∈ "/video.mp4".toList ∧
    '/' ∉ "video.h264".toList ∧ '\\' ∉ "video.h264".toList ∧
    '/' ∉ "video.vinf".toList ∧ '\\' ∉ "video.vinf".toList := by
  decide

/-! ## The path helpers always return -/

theorem str_at_ok (s : List Char) (i : Int) (h0 : 0 ≤ i) (h1 : i < (s.length : Int)) :
    ∃ c, str_at s i = .ok c := by
  have hlt : i.toNat < s.length := by omega
  refine ⟨s.get ⟨i.toNat, hlt⟩, ?_⟩
  unfold str_at
  rw [if_neg (by omega), List.getElem?_eq_getElem hlt]
  rfl

theorem GetFileNameExFromPath_loop_ok (s : List Char) (hlen : (s.length : Int) ≤ 2147483647) :
    ∀ (cnt : Nat) (i : Int) (re_str : List Char), 0 ≤ i → i + cnt = (s.length : Int) →
      ∃ r, GetFileNameExFromPath_loop s s.length cnt i re_str = .ok r ∧
        r.length ≤ re_str.length + cnt := by
  intro cnt
  induction cnt with
  | zero =>
    intro i re_str _ h1
    unfold GetFileNameExFromPath_loop
    rw [if_neg (by push_cast at h1; omega)]
    exact ⟨re_str, rfl, by omega⟩
  | succ n ih =>
    intro i re_str h0 h1
    push_cast at h1
    have hidx : int32 ((s.length : Int) - 1 - i) = (s.length : Int) - 1 - i := by
      rw [int32_eq_self] <;> omega
    have hi1 : int32 (i + 1) = i + 1 := by rw [int32_eq_self] <;> omega
    obtain ⟨c, hc⟩ := str_at_ok s ((s.length : Int) - 1 - i) (by omega) (by omega)
    unfold GetFileNameExFromPath_loop
    rw [if_pos (by omega), hidx, hc, hi1]
    simp only
    split
    · obtain ⟨r, hr, hl⟩ := ih (i + 1) (c :: re_str) (by omega) (by omega)
      exact ⟨r, hr, by simp at hl; omega⟩
    · exact ⟨re_str, rfl, by omega⟩

theorem GetFileNameNoExFormFileName_count_ok (s : List Char)
    (hlen : (s.length : Int) ≤ 2147483647) :
    ∀ (cnt : Nat) (i dot_cnt : Int), 0 ≤ i → i + cnt = (s.length : Int) →
      ∃ n, GetFileNameNoExFormFileName_count s s.length cnt i dot_cnt = .ok n := by
  intro cnt
  induction cnt with
  | zero =>
    intro i d _ h1
    unfold GetFileNameNoExFormFileName_count
    rw [if_neg (by push_cast at h1; omega)]
    exact ⟨d, rfl⟩
  | succ n ih =>
    intro i d h0 h1
    push_cast at h1
    have hidx : int32 ((s.length : Int) - 1 - i) = (s.length : Int) - 1 - i := by
      rw [int32_eq_self] <;> omega
    have hi1 : int32 (i + 1) = i + 1 := by rw [int32_eq_self] <;> omega
    obtain ⟨c, hc⟩ := str_at_ok s ((s.length : Int) - 1 - i) (by omega) (by omega)
    unfold GetFileNameNoExFormFileName_count
    rw [if_pos (by omega), hidx, hc, hi1]
    exact ih (i + 1) _ (by omega) (by omega)

theorem GetFileNameNoExFormFileName_erase_ok (len : Int) (hlen : len ≤ 2147483647) :
    ∀ (cnt : Nat) (i : Int) (re_str : List Char), 0 ≤ i → i + cnt = len →
      (re_str.length : Int) = len - i →
      ∃ r, GetFileNameNoExFormFileName_erase len cnt i re_str = .ok r := by
  intro cnt
  induction cnt with
  | zero =>
    intro i re_str _ h1 _
    unfold GetFileNameNoExFormFileName_erase
    rw [if_neg (by push_cast at h1; omega)]
    exact ⟨re_str, rfl⟩
  | succ n ih =>
    intro i re_str h0 h1 h2
    push_cast at h1
    have hidx : int32 (len - 1 - i) = len - 1 - i := by
      rw [int32_eq_self] <;> omega
    have hi1 : int32 (i + 1) = i + 1 := by rw [int32_eq_self] <;> omega
    obtain ⟨c, hc⟩ := str_at_ok re_str (len - 1 - i) (by omega) (by omega)
    unfold GetFileNameNoExFormFileName_erase
    rw [if_pos (by omega), hidx, hc, hi1]
    simp only
    split
    · exact ⟨_, rfl⟩
    · exact ih (i + 1) _ (by omega) (by omega) (by simp; omega)

theorem GetOnlyFilePath_count_ok (s : List Char) (hlen : (s.length : Int) ≤ 2147483647) :
    ∀ (cnt : Nat) (i ch_cnt : Int), 0 ≤ i → i + cnt = (s.length : Int) →
      ∃ n, GetOnlyFilePath_count s s.length cnt i ch_cnt = .ok n := by
  intro cnt
  induction cnt with
  | zero =>
    intro i d _ h1
    unfold GetOnlyFilePath_count
    rw [if_neg (by push_cast at h1; omega)]
    exact ⟨d, rfl⟩
  | succ n ih =>
    intro i d h0 h1
    push_cast at h1
    have hidx : int32 ((s.length : Int) - 1 - i) = (s.length : Int) - 1 - i := by
      rw [int32_eq_self] <;> omega
    have hi1 : int32 (i + 1) = i + 1 := by rw [int32_eq_self] <;> omega
    obtain ⟨c, hc⟩ := str_at_ok s ((s.length : Int) - 1 - i) (by omega) (by omega)
    unfold GetOnlyFilePath_count
    rw [if_pos (by omega), hidx, hc, hi1]
    exact ih (i + 1) _ (by omega) (by omega)

theorem GetOnlyFilePath_erase_ok (s : List Char) (hlen : (s.length : Int) ≤ 2147483647) :
    ∀ (cnt : Nat) (i : Int) (re_str : List Char), 0 ≤ i → i + cnt = (s.length : Int) →
      ∃ r, GetOnlyFilePath_erase s s.length cnt i re_str = .ok r := by
  intro cnt
  induction cnt with
  | zero =>
    intro i re_str _ h1
    unfold GetOnlyFilePath_erase
    rw [if_neg (by push_cast at h1; omega)]
    exact ⟨re_str, rfl⟩
  | succ n ih =>
    intro i re_str h0 h1
    push_cast at h1
    have hidx : int32 ((s.length : Int) - 1 - i) = (s.length : Int) - 1 - i := by
      rw [int32_eq_self] <;> omega
    have hi1 : int32 (i + 1) = i + 1 := by rw [int32_eq_self] <;> omega
    obtain ⟨c, hc⟩ := str_at_ok s ((s.length : Int) - 1 - i) (by omega) (by omega)
    unfold GetOnlyFilePath_erase
    rw [if_pos (by omega), hidx, hc, hi1]
    simp only
    split
    · exact ⟨_, rfl⟩
    · exact ih (i + 1) _ (by omega) (by omega)

/-- The four path helpers return a string on every path whose length fits in an `int`:
no `at` of theirs leaves the string and no loop bound is exhausted. -/
theorem main_output_names_ok (OutputPath s : List Char)
    (hlen : (s.length : Int) ≤ 2147483647) :
    ∃ names, main_output_names OutputPath s = .ok names := by
  have hl : int32 (s.length : Int) = (s.length : Int) := by
    rw [int32_eq_self] <;> omega
  have hp : ∃ p, GetOnlyFilePath s = .ok p := by
    unfold GetOnlyFilePath
    simp only [hl]
    obtain ⟨n, hn⟩ := GetOnlyFilePath_count_ok s hlen s.length 0 0 (by omega) (by omega)
    rw [hn]
    simp only
    split
    · exact GetOnlyFilePath_erase_ok s hlen s.length 0 s (by omega) (by omega)
    · exact ⟨_, rfl⟩
  have hn : ∃ n, GetOnlyFileNameNoEx s = .ok n := by
    unfold GetOnlyFileNameNoEx GetFileNameExFromPath
    simp only [hl]
    obtain ⟨name, hname, hnl⟩ :=
      GetFileNameExFromPath_loop_ok s hlen s.length 0 [] (by omega) (by omega)
    rw [hname]
    simp only
    have hnl2 : (name.length : Int) ≤ 2147483647 := by
      simp at hnl; omega
    have hl2 : int32 (name.length : Int) = (name.length : Int) := by
      rw [int32_eq_self] <;> omega
    unfold GetFileNameNoExFormFileName
    simp only [hl2]
    obtain ⟨d, hd⟩ :=
      GetFileNameNoExFormFileName_count_ok name hnl2 name.length 0 0 (by omega) (by omega)
    rw [hd]
    simp only
    split
    · exact GetFileNameNoExFormFileName_erase_ok name.length hnl2 name.length 0 name
        (by omega) (by omega) (by omega)
    · exact ⟨_, rfl⟩
  obtain ⟨p, hp⟩ := hp
  obtain ⟨n, hn⟩ := hn
  unfold main_output_names
  rw [hp, hn]
  exact ⟨_, rfl⟩

/-! ## The values that `main` returns -/

/-- A `return` inside the loop is the `return -3` after a short write of an access unit. -/
theorem main_loop_ret (v_idx : Int) (TotalFrame : Nat) (fw : Nat → Nat → Nat) :
    ∀ (fuel : Nat) (pkts : List AVPacket) (c : Nat) (fbc : Int) (k : Nat) (r : FileResult)
      (code : Int),
      main_loop v_idx TotalFrame fw fuel pkts c fbc k = .ok r → r.ret = some code →
      code = -3 ∧ ∃ pre w, r.out = pre ++ [Out.au w] := by
  intro fuel
  induction fuel with
  | zero => intro pkts c fbc k r code h _; simp [main_loop] at h
  | succ f ih =>
    intro pkts c fbc k r code h hret
    unfold main_loop at h
    cases h1 : main_replace_startcode (main_read_packet v_idx pkts).1 with
    | error e => rw [h1] at h; cases h
    | ok o =>
      rw [h1] at h
      cases o with
      | none =>
        simp only at h
        injection h with h
        rw [← h] at hret
        cases hret
      | some pkt =>
        simp only at h
        cases h2 : main_patch_sei pkt with
        | error e => rw [h2] at h; cases h
        | ok pkt2 =>
          rw [h2] at h
          simp only at h
          cases h3 : fwrite fw k pkt2.data pkt2.size with
          | error e => rw [h3] at h; cases h
          | ok written =>
            rw [h3] at h
            simp only at h
            split at h
            · injection h with h
              rw [← h] at hret ⊢
              injection hret with hret
              exact ⟨hret.symm, [], written, rfl⟩
            · split at h
              · injection h with h
                rw [← h] at hret
                cases hret
              · obtain ⟨r2, hr2, hret2, hout⟩ := emit_ok _ _ _ h
                obtain ⟨hc, pre, w, hw⟩ := ih _ _ _ _ r2 code hr2 (by rw [← hret2]; exact hret)
                refine ⟨hc, [Out.au written, Out.line (int32 (fbc + pkt2.size))] ++ pre, w, ?_⟩
                rw [hout, hw, List.append_assoc]

/-- A `return` inside the processing of a file is `-4`, `-5`, `-6` or `-7` after a short
write of a start code, of the SPS or of the PPS, or `-3` after a short write of an access
unit. -/
theorem main_file_ret (v : OpenedVideo) (vinf_name h264_name : List Char)
    (pkts : List AVPacket) (fw : Nat → Nat → Nat) (r : FileResult) (code : Int)
    (h : main_file v vinf_name h264_name pkts fw = .ok r) (hret : r.ret = some code) :
    ((code = -4 ∨ code = -5 ∨ code = -6 ∨ code = -7) ∧ ∃ pre w, r.out = pre ++ [Out.param w]) ∨
    (code = -3 ∧ ∃ pre w, r.out = pre ++ [Out.au w]) := by
  unfold main_file at h
  obtain ⟨r0, h0, hret0, hout0⟩ := emit_ok _ _ _ h
  rw [hret0] at hret
  cases hw0 : fwrite fw 0 (some startcode) startcode.length with
  | error e => rw [hw0] at h0; cases h0
  | ok w0 =>
    rw [hw0] at h0
    simp only at h0
    split at h0
    · injection h0 with h0
      rw [← h0] at hret hout0
      injection hret with hret
      left
      exact ⟨Or.inl hret.symm, _, w0, hout0⟩
    · obtain ⟨r1, h1, hret1, hout1⟩ := emit_ok _ _ _ h0
      rw [hret1] at hret
      cases hw1 : fwrite fw 1 (some v.ctx.sps_dat) v.ctx.sps_len with
      | error e => rw [hw1] at h1; cases h1
      | ok w1 =>
        rw [hw1] at h1
        simp only at h1
        split at h1
        · injection h1 with h1
          rw [← h1] at hret hout1
          injection hret with hret
          left
          refine ⟨Or.inr (Or.inl hret.symm), [Out.fopen vinf_name, Out.info v.Width v.Height v.TotalFrame, Out.fopen h264_name] ++
            [Out.param w0], w1, ?_⟩
          rw [hout0, hout1, List.append_assoc]
        · obtain ⟨r2, h2, hret2, hout2⟩ := emit_ok _ _ _ h1
          rw [hret2] at hret
          cases hw2 : fwrite fw 2 (some startcode) startcode.length with
          | error e => rw [hw2] at h2; cases h2
          | ok w2 =>
            rw [hw2] at h2
            simp only at h2
            split at h2
            · injection h2 with h2
              rw [← h2] at hret hout2
              injection hret with hret
              left
              refine ⟨Or.inr (Or.inr (Or.inl hret.symm)), [Out.fopen vinf_name, Out.info v.Width v.Height v.TotalFrame, Out.fopen h264_name] ++
                [Out.param w0] ++ [Out.param w1], w2, ?_⟩
              rw [hout0, hout1, hout2]
              simp only [List.append_assoc]
            · obtain ⟨r3, h3, hret3, hout3⟩ := emit_ok _ _ _ h2
              rw [hret3] at hret
              cases hw3 : fwrite fw 3 (some v.ctx.pps_dat) v.ctx.pps_len with
              | error e => rw [hw3] at h3; cases h3
              | ok w3 =>
                rw [hw3] at h3
                simp only at h3
                split at h3
                · injection h3 with h3
                  rw [← h3] at hret hout3
                  injection hret with hret
                  left
                  refine ⟨Or.inr (Or.inr (Or.inr hret.symm)), [Out.fopen vinf_name, Out.info v.Width v.Height v.TotalFrame, Out.fopen h264_name] ++
                    [Out.param w0] ++ [Out.param w1] ++ [Out.param w2], w3, ?_⟩
                  rw [hout0, hout1, hout2, hout3]
                  simp only [List.append_assoc]
                · obtain ⟨r4, h4, hret4, hout4⟩ := emit_ok _ _ _ h3
                  rw [hret4] at hret
                  obtain ⟨hc, pre, w, hw⟩ := main_loop_ret _ _ _ _ _ _ _ _ r4 code h4 hret
                  right
                  refine ⟨hc, [Out.fopen vinf_name, Out.info v.Width v.Height v.TotalFrame, Out.fopen h264_name] ++
                    [Out.param w0] ++ [Out.param w1] ++ [Out.param w2] ++ [Out.param w3] ++ pre,
                    w, ?_⟩
                  rw [hout0, hout1, hout2, hout3, hout4, hw]
                  simp only [List.append_assoc]

/-- `main` on one input file: the argument loop leaves that file and no output path. -/
theorem main_one_file (prog s : List Char) (world : List Char → VideoFile)
    (hs : s ≠ "-o".toList) : main [prog, s] world = main_files world [] [s] := by
  have h2 : ¬ int32 (([prog, s] : List (List Char)).length : Int) < 2 := by
    simp only [List.length_cons, List.length_nil]
    decide
  have hs2 : ¬ s = ['-', 'o'] := hs
  unfold main
  rw [if_neg h2]
  simp [main_args, EInputType_None, hs2]

/-- C16 as stated fails: three different failure classes give the same exit code.  With
one input file `a.mp4`, `main` returns -2 when `avformat_open_input` fails (open failure),
when the file holds an audio stream only (no video stream found) and when the decoder is
not named `h264` (unsupported codec); `FFMpeg_OpenVideo` tells the three apart (-1, -3,
-8), `main` does not. -/
theorem main_exit_code_shared :
    main ["VideoConv".toList, "a.mp4".toList]
        (fun _ => { avformat_open_input := -2, avformat_find_stream_info := 0, streams := [],
                    avcodec_find_decoder_by_name := some "h264".toList,
                    avcodec_alloc_context3 := true, avcodec_parameters_to_context := 0,
                    avcodec_open2 := 0, width := 0, height := 0, packets := [],
                    fwrite_ret := fun _ n => n })
      = .ok (-2, []) ∧
    main ["VideoConv".toList, "a.mp4".toList]
        (fun _ => { avformat_open_input := 0, avformat_find_stream_info := 0,
                    streams := [⟨1, 0, none⟩],
                    avcodec_find_decoder_by_name := some "h264".toList,
                    avcodec_alloc_context3 := true, avcodec_parameters_to_context := 0,
                    avcodec_open2 := 0, width := 0, height := 0, packets := [],
                    fwrite_ret := fun _ n => n })
      = .ok (-2, []) ∧
    main ["VideoConv".toList, "a.mp4".toList]
        (fun _ => { avformat_open_input := 0, avformat_find_stream_info := 0,
                    streams := [⟨0, 10, none⟩],
                    avcodec_find_decoder_by_name := some "hevc".toList,
                    avcodec_alloc_context3 := true, avcodec_parameters_to_context := 0,
                    avcodec_open2 := 0, width := 640, height := 480, packets := [],
                    fwrite_ret := fun _ n => n })
      = .ok (-2, []) ∧
    FFMpeg_OpenVideo
        { avformat_open_input := -2, avformat_find_stream_info := 0, streams := [],
          avcodec_find_decoder_by_name := some "h264".toList,
          avcodec_alloc_context3 := true, avcodec_parameters_to_context := 0,
          avcodec_open2 := 0, width := 0, height := 0, packets := [],
          fwrite_ret := fun _ n => n }
      = .ok (.failed (-1)) ∧
    FFMpeg_OpenVideo
        { avformat_open_input := 0, avformat_find_stream_info := 0,
          streams := [⟨1, 0, none⟩],
          avcodec_find_decoder_by_name := some "h264".toList,
          avcodec_alloc_context3 := true, avcodec_parameters_to_context := 0,
          avcodec_open2 := 0, width := 0, height := 0, packets := [],
          fwrite_ret := fun _ n => n }
      = .ok (.failed (-3)) ∧
    FFMpeg_OpenVideo
        { avformat_open_input := 0, avformat_find_stream_info := 0,
          streams := [⟨0, 10, none⟩],
          avcodec_find_decoder_by_name := some "hevc".toList,
          avcodec_alloc_context3 := true, avcodec_parameters_to_context := 0,
          avcodec_open2 := 0, width := 640, height := 480, packets := [],
          fwrite_ret := fun _ n => n }
      = .ok (.failed (-8)) := by
  decide

/-- C16, amended: `main` returns -1 for a bad argument count; -2 for an unrecognised input
type in the argument loop and for every failure of `FFMpeg_OpenVideo` (open failure, no
video stream found, unsupported codec: `FFMpeg_OpenVideo` returns -1, -3 and -8 for them
but `main` returns -2 for all); -4, -5, -6 or -7 after a short write of a start code, of
the SPS or of the PPS; -3 after a short write of an access unit.  So the exit codes of
these four groups are pairwise distinct, those inside the second group are not. -/
theorem main_exit_codes (prog s : List Char) (world : List Char → VideoFile) :
    (main [] world = .ok (-1, []) ∧ main [prog] world = .ok (-1, [])) ∧
    (∀ arg rest c O I, c ≠ EInputType_None → c ≠ EInputType_OutputPath →
      main_args (arg :: rest) c O I = .ret (-2)) ∧
    (∀ argv code, ¬ int32 (argv.length : Int) < 2 →
      main_args (argv.drop 1) EInputType_None [] [] = .ret code →
      main argv world = .ok (code, [])) ∧
    ((world s).avformat_open_input ≠ 0 → FFMpeg_OpenVideo (world s) = .ok (.failed (-1))) ∧
    ((world s).avformat_open_input = 0 → (world s).avformat_find_stream_info = 0 →
      FFMpeg_OpenVideo_find (world s).streams 0 = none →
      FFMpeg_OpenVideo (world s) = .ok (.failed (-3))) ∧
    (∀ st name, (world s).avformat_open_input = 0 → (world s).avformat_find_stream_info = 0 →
      FFMpeg_OpenVideo_find (world s).streams 0 = some st →
      (world s).avcodec_find_decoder_by_name = some name →
      (world s).avcodec_alloc_context3 = true →
      0 ≤ (world s).avcodec_parameters_to_context → 0 ≤ (world s).avcodec_open2 →
      name ≠ "h264".toList →
      FFMpeg_OpenVideo (world s) = .ok (.failed (-8))) ∧
    (∀ re, s ≠ "-o".toList → (s.length : Int) ≤ 2147483647 →
      FFMpeg_OpenVideo (world s) = .ok (.failed re) →
      main [prog, s] world = .ok (-2, [])) ∧
    (∀ v names r code, s ≠ "-o".toList →
      FFMpeg_OpenVideo (world s) = .ok (.opened v) →
      main_output_names [] s = .ok names →
      main_file v names.1 names.2 (world s).packets (world s).fwrite_ret = .ok r →
      r.ret = some code →
      main [prog, s] world = .ok (code, r.out) ∧
      (((code = -4 ∨ code = -5 ∨ code = -6 ∨ code = -7) ∧
          ∃ pre w, r.out = pre ++ [Out.param w]) ∨
        (code = -3 ∧ ∃ pre w, r.out = pre ++ [Out.au w]))) := by
  refine ⟨⟨?_, ?_⟩, ?_, ?_, ?_, ?_, ?_, ?_, ?_⟩
  · unfold main
    rw [if_pos (by simp only [List.length_nil]; decide)]
  · unfold main
    rw [if_pos (by simp only [List.length_cons, List.length_nil]; decide)]
  · intro arg rest c O I h1 h2
    simp [main_args, h1, h2]
  · intro argv code h1 h2
    unfold main
    rw [if_neg h1, h2]
  · intro h
    simp [FFMpeg_OpenVideo, h]
  · intro h1 h2 h3
    simp [FFMpeg_OpenVideo, h1, h2, h3]
  · intro st name h1 h2 h3 h4 h5 h6 h7 h8
    obtain ⟨i, st⟩ := st
    have h9 : ¬ name = ['h', '2', '6', '4'] := h8
    simp [FFMpeg_OpenVideo, h1, h2, h3, h4, h5, h9, not_lt.mpr h6, not_lt.mpr h7]
  · intro re hs hlen h
    obtain ⟨names, hn⟩ := main_output_names_ok [] s hlen
    rw [main_one_file prog s world hs]
    simp only [main_files, hn, h]
  · intro v names r code hs h hn hf hret
    refine ⟨?_, main_file_ret v _ _ _ _ r code hf hret⟩
    rw [main_one_file prog s world hs]
    obtain ⟨n1, n2⟩ := names
    simp only [main_files, hn, h]
    rw [hf]
    simp only [main_next, hret]

/-! ## The context of an opened file is well formed -/

theorem memcpy_src_length (src : Option (List Byte)) (off n : Int) (r : List Byte)
    (hn : 0 ≤ n) (h : memcpy_src src off n = .ok r) : (r.length : Int) = n := by
  cases src with
  | none => simp [memcpy_src] at h
  | some b =>
    unfold memcpy_src at h
    simp only at h
    split at h
    · cases h
    · split at h
      · cases h
      · injection h with h
        rw [← h, List.length_take, List.length_drop]
        omega

/-- The SPS and the PPS that `FFMpeg_OpenVideo` cuts out have the decoded lengths, which
lie between 0 and 65280: the hypotheses on the context in the theorems on `main_file` hold
for every opened file. -/
theorem FFMpeg_OpenVideo_sps_pps_lengths (extradata : Option (List Byte))
    (ctx : SFFmpegContext) (h : FFMpeg_OpenVideo_sps_pps extradata = .ok ctx) :
    (ctx.sps_dat.length : Int) = ctx.sps_len ∧ (ctx.pps_dat.length : Int) = ctx.pps_len ∧
    ctx.sps_len ≤ 65280 ∧ ctx.pps_len ≤ 65280 := by
  cases extradata with
  | none => simp [FFMpeg_OpenVideo_sps_pps, FFMpeg_OpenVideo_sps_len, rd] at h
  | some e =>
    unfold FFMpeg_OpenVideo_sps_pps at h
    cases h1 : FFMpeg_OpenVideo_sps_len (some e) with
    | error x => rw [h1] at h; cases h
    | ok sps_len =>
      rw [h1] at h
      simp only at h
      have r1 := FFMpeg_OpenVideo_sps_len_range e sps_len h1
      cases h2 : memcpy_src (some e) 8 sps_len with
      | error x => rw [h2] at h; cases h
      | ok sps_dat =>
        rw [h2] at h
        simp only at h
        cases h3 : FFMpeg_OpenVideo_pps_len (some e) sps_len with
        | error x => rw [h3] at h; cases h
        | ok pps_len =>
          rw [h3] at h
          simp only at h
          have r3 := FFMpeg_OpenVideo_pps_len_range e sps_len pps_len h3
          cases h4 : memcpy_src (some e) (int32 (8 + 2 + 1 + sps_len)) pps_len with
          | error x => rw [h4] at h; cases h
          | ok pps_dat =>
            rw [h4] at h
            simp only at h
            injection h with h
            rw [← h]
            exact ⟨memcpy_src_length _ _ _ _ r1.1 h2, memcpy_src_length _ _ _ _ r3.1 h4,
              r1.2, r3.2⟩

end VideoConv
